import Mathlib

/-!
# ChristmasFamilyFeast: the client-side merge engine of `static/js/app.js`

A shallow embedding of the three merge reducers of `static/js/app.js`
(`performSmartMerge`, `performSmartMergeGroceries`, `performSmartMergeActivity`)
and of the functions that synchronise with the server (`fetchData`, `saveData`,
`debouncedSave`, `saveSettingsPin`, `resetEvent`), and the properties the
specification states about them.

Modelling conventions.

* JavaScript objects that are mutated in place become values that are passed
  through the functions: a reducer takes the local value and the parsed server
  value and returns the new local value.  The server value is always a freshly
  parsed JSON document (`res.json()`), so it shares no object with the local
  state before the merge.
* A JavaScript object used as a dictionary (`mealSlots`) is an association
  list in insertion order; `obj[key]` reads and writes the first entry with the
  key, and `for ... in` visits every key once (`forInKeys`), so a list that
  repeats a key behaves as the dictionary of its first entries.  Slot keys are
  produced by `getSlotKey` (a date, an underscore, a lower-cased meal type), so
  they are never array-index keys and the `for ... in` order is the insertion
  order.
* An optional field (`undefined` when missing) is an `Option`.
* A JavaScript `Set` is the list of its members in insertion order.
* `Date` values are represented by their time value (milliseconds), an `Int`.
* An asynchronous function is run to completion against the answers of the
  server, which are an argument; the requests it issues are returned as a trace.
* Time is a number of milliseconds; an armed `setTimeout` is an entry of the
  window's timer table, its id and the time at which it is due.
* The watcher on `mealSlots` and `groceryList` is a flag of the state that a
  write to the watched values sets; its callback `debouncedSave()` runs when the
  synchronous step that set it has ended.
-/

namespace FamilyFeast

/-! ## Data model -/

/-- A proposal of a slot (`{ id, name, proposer, votes, approved, recipeUrl,
ingredients, instructions, calories }`). -/
structure Proposal where
  id : Option String
  name : String
  proposer : String
  votes : Option (List String)
  approved : Option Bool
  recipeUrl : Option String
  ingredients : Option (List String)
  instructions : Option (List String)
  calories : Option Int
  deriving DecidableEq, Repr

/-- A meal slot (`{ date, type, approved, proposals }`). -/
structure Slot where
  date : String
  type : String
  approved : Option Bool
  proposals : Option (List Proposal)
  deriving DecidableEq, Repr

/-- The `mealSlots` dictionary: slot key to slot, in insertion order. -/
abbrev Slots := List (String × Slot)

/-- A placeholder object of the grocery list, as `approveDish` creates it. -/
structure Placeholder where
  text : String
  isPlaceholder : Bool
  proposalId : Option String
  dishName : String
  date : String
  type : String
  deriving DecidableEq, Repr

/-- A grocery item: a plain string or a placeholder object. -/
inductive GroceryItem where
  | str (s : String)
  | obj (p : Placeholder)
  deriving DecidableEq, Repr

/-- An entry of the activity log (`{ id, type, user, message, timestamp }`);
`timestamp` is the time value of `new Date(entry.timestamp)`. -/
structure ActivityEntry where
  id : Option String
  type : String
  user : String
  message : String
  timestamp : Int
  deriving DecidableEq, Repr

/-- The three collections the merge works on. -/
structure Document where
  slots : Slots
  groceries : List GroceryItem
  activity : List ActivityEntry
  deriving DecidableEq, Repr

/-! ## JavaScript primitives used by the reducers -/

/-- Truthiness of an optional string (`undefined` and `""` are falsy). -/
def truthyStr : Option String → Bool
  | some s => s != ""
  | none => false

/-- Truthiness of `x?.length` for an optional array. -/
def truthyLen : Option (List String) → Bool
  | some l => !l.isEmpty
  | none => false

/-- Truthiness of an optional number (`undefined` and `0` are falsy). -/
def truthyNum : Option Int → Bool
  | some n => n != 0
  | none => false

/-- `set.add(x)` on a `Set` kept as the list of its members in insertion order. -/
def setAdd (s : List String) (x : String) : List String :=
  if x ∈ s then s else s ++ [x]

/-- `new Set(xs)` (and `Array.from` of it): the members in order of first occurrence. -/
def newSet (xs : List String) : List String :=
  xs.foldl setAdd []

/-- `obj[key]` on a dictionary: the value of the entry with this key. -/
def objGet {β : Type} : List (String × β) → String → Option β
  | [], _ => none
  | (k, v) :: rest, key => if k = key then some v else objGet rest key

/-- `obj[key] = v`: replaces the value of the entry with this key, or adds the
entry at the end when the key is new. -/
def objSet {β : Type} : List (String × β) → String → β → List (String × β)
  | [], key, v => [(key, v)]
  | (k, w) :: rest, key, v =>
      if k = key then (k, v) :: rest else (k, w) :: objSet rest key v

/-- The keys of the entries of a dictionary. -/
def objKeys {β : Type} (o : List (String × β)) : List String :=
  o.map Prod.fst

/-- The keys `for (const key in obj)` visits: every key once, in insertion order. -/
def forInKeys {β : Type} (o : List (String × β)) : List String :=
  newSet (objKeys o)

/-- The representation invariant of a dictionary: no key occurs twice. -/
def KeysNodup {β : Type} (o : List (String × β)) : Prop :=
  (objKeys o).Nodup

instance {β : Type} (o : List (String × β)) : Decidable (KeysNodup o) := by
  unfold KeysNodup; infer_instance

/-- Applies `f` to the element at position `i` (an in-place update of the
object held at that position). -/
def modifyAt {α : Type} (f : α → α) : Nat → List α → List α
  | _, [] => []
  | 0, a :: l => f a :: l
  | i + 1, a :: l => a :: modifyAt f i l

/-! ## `performSmartMerge` -/

/-- `localMap.get(id)` for `localMap = new Map(lSlot.proposals.map(p => [p.id, p]))`:
the position in `lSlot.proposals` of the object the map holds for `id`.  A `Map`
built from entries keeps the last value of a repeated key. -/
def localMapGet : List Proposal → Option String → Option Nat
  | [], _ => none
  | p :: ps, id =>
      match localMapGet ps id with
      | some i => some (i + 1)
      | none => if p.id = id then some 0 else none

/-- The branch "proposal exists in both" of `performSmartMerge`: the votes are
united, the four recipe fields are taken from the server where the local value
is falsy, every other field of the local proposal stays (the assignment of
`approved` stands inside a comment in the source and is not executed). -/
def mergeDetails (lProp sProp : Proposal) : Proposal :=
  { lProp with
    votes := some (newSet (lProp.votes.getD [] ++ sProp.votes.getD []))
    recipeUrl :=
      if truthyStr sProp.recipeUrl && !truthyStr lProp.recipeUrl then sProp.recipeUrl
      else lProp.recipeUrl
    ingredients :=
      if truthyLen sProp.ingredients && !truthyLen lProp.ingredients then sProp.ingredients
      else lProp.ingredients
    instructions :=
      if truthyLen sProp.instructions && !truthyLen lProp.instructions then sProp.instructions
      else lProp.instructions
    calories :=
      if truthyNum sProp.calories && !truthyNum lProp.calories then sProp.calories
      else lProp.calories }

/-- The callback of `sSlot.proposals.forEach`: `lProps` is `lSlot.proposals` as
it was when `localMap` was built, `acc` is `lSlot.proposals` now. -/
def mergeProposal (lProps : List Proposal) (acc : List Proposal) (sProp : Proposal) :
    List Proposal :=
  match localMapGet lProps sProp.id with
  | some i => modifyAt (fun lProp => mergeDetails lProp sProp) i acc
  | none => acc ++ [sProp]

/-- The proposals of the local slot after the `forEach` over the server's proposals. -/
def mergeProposals (lProps sProps : List Proposal) : List Proposal :=
  sProps.foldl (mergeProposal lProps) lProps

/-- The body of the loop of `performSmartMerge` for a key present locally. -/
def mergeSlot (lSlot sSlot : Slot) : Slot :=
  { lSlot with
    approved := sSlot.approved
    proposals := some (mergeProposals (lSlot.proposals.getD []) (sSlot.proposals.getD [])) }

/-- One iteration of `for (const key in serverSlots)`. -/
def mergeKey (serverSlots : Slots) (localSlots : Slots) (key : String) : Slots :=
  match objGet serverSlots key with
  | none => localSlots
  | some sSlot =>
      match objGet localSlots key with
      | none => objSet localSlots key sSlot
      | some lSlot => objSet localSlots key (mergeSlot lSlot sSlot)

/-- `performSmartMerge(localSlots, serverSlots)`: the local dictionary afterwards. -/
def performSmartMerge (localSlots serverSlots : Slots) : Slots :=
  (forInKeys serverSlots).foldl (mergeKey serverSlots) localSlots

/-! ## `performSmartMergeGroceries` -/

/-- `typeof i === 'string' ? i : i.text`. -/
def displayText : GroceryItem → String
  | .str s => s
  | .obj p => p.text

/-- The callback of `serverList.forEach` in `performSmartMergeGroceries`; the
state is `(localList, localStrings)`. -/
def groceryStep (st : List GroceryItem × List String) (sItem : GroceryItem) :
    List GroceryItem × List String :=
  if displayText sItem ∈ st.2 then st
  else (st.1 ++ [sItem], setAdd st.2 (displayText sItem))

/-- `performSmartMergeGroceries(localList, serverList)`: the local list afterwards. -/
def performSmartMergeGroceries (localList serverList : List GroceryItem) : List GroceryItem :=
  (serverList.foldl groceryStep (localList, newSet (localList.map displayText))).1

/-! ## `performSmartMergeActivity` -/

/-- `l.id || JSON.stringify(l)`; `stringify` stands for `JSON.stringify` on entries. -/
def activityKey (stringify : ActivityEntry → String) (l : ActivityEntry) : String :=
  match l.id with
  | some s => if s != "" then s else stringify l
  | none => stringify l

/-- The callback of `serverList.forEach` in `performSmartMergeActivity`; the
state is `(localList, localIds)`. -/
def activityStep (stringify : ActivityEntry → String)
    (st : List ActivityEntry × List String) (sItem : ActivityEntry) :
    List ActivityEntry × List String :=
  if activityKey stringify sItem ∈ st.2 then st
  else (st.1 ++ [sItem], setAdd st.2 (activityKey stringify sItem))

/-- The comparator of the final sort, `new Date(a.timestamp) - new Date(b.timestamp) <= 0`. -/
def tsLe (a b : ActivityEntry) : Prop := a.timestamp ≤ b.timestamp

instance : DecidableRel tsLe := fun a b => by unfold tsLe; infer_instance

/-- `performSmartMergeActivity(localList, serverList)`: the local log afterwards.
`Array.prototype.sort` is stable, so its result is the stable sort by timestamp. -/
def performSmartMergeActivity (stringify : ActivityEntry → String)
    (localList serverList : List ActivityEntry) : List ActivityEntry :=
  List.insertionSort tsLe
    (serverList.foldl (activityStep stringify)
      (localList, newSet (localList.map (activityKey stringify)))).1

/-- The merge of `fetchData` and `saveData` on the three collections: slots,
then groceries, then activity. -/
def merge (stringify : ActivityEntry → String) (l r : Document) : Document :=
  { slots := performSmartMerge l.slots r.slots
    groceries := performSmartMergeGroceries l.groceries r.groceries
    activity := performSmartMergeActivity stringify l.activity r.activity }

/-! ## Definitions used in the statements and proofs -/

/-- The slot a key holds after the merge, from the slots it held locally and on
the server before. -/
def slotAfter : Option Slot → Option Slot → Option Slot
  | l, none => l
  | none, some s => some s
  | some l, some s => some (mergeSlot l s)

/-- The effect of one server proposal on the proposals that were local before
the merge (`pre`): the matched one is updated, nothing is added. -/
def updStep (lProps : List Proposal) (pre : List Proposal) (sProp : Proposal) :
    List Proposal :=
  match localMapGet lProps sProp.id with
  | some i => modifyAt (fun lProp => mergeDetails lProp sProp) i pre
  | none => pre

/-- The local proposals after the merge: the proposals that were local, each
updated by the server proposals matched to it. -/
def updLocal (lProps sProps : List Proposal) : List Proposal :=
  sProps.foldl (updStep lProps) lProps

/-- The server proposals the merge appends: those whose id no local proposal has. -/
def appended (lProps sProps : List Proposal) : List Proposal :=
  sProps.filter (fun s => decide (s.id ∉ lProps.map (fun p => p.id)))

/-- The rule "adopt the server value only if the local value is falsy": a
truthy local value stays, a falsy one is replaced by a truthy server value, and
stays when the server value is falsy too. -/
def AdoptedIfEmpty {α : Type} (truthy : α → Bool) (localV serverV after : α) : Prop :=
  (truthy localV = true → after = localV) ∧
  (truthy localV = false → truthy serverV = true → after = serverV) ∧
  (truthy localV = false → truthy serverV = false → after = localV)

/-- The proposal has a `votes` array and no voter is listed twice. -/
def VotesWF (p : Proposal) : Prop :=
  match p.votes with
  | some vs => vs.Nodup
  | none => False

instance : DecidablePred VotesWF := fun p => by
  unfold VotesWF
  cases p.votes <;> infer_instance

/-- The server slot's proposals are well formed for a repeated merge: pairwise
distinct ids and, on every proposal, a `votes` array without duplicates. -/
def ProposalsWF (sProps : List Proposal) : Prop :=
  (sProps.map (fun p => p.id)).Nodup ∧ ∀ s ∈ sProps, VotesWF s

instance : DecidablePred ProposalsWF := fun ps => by
  unfold ProposalsWF
  infer_instance

/-- The server slot is well formed for a repeated merge: it has a `proposals`
array and that is well formed. -/
def SlotWF (s : Slot) : Prop :=
  match s.proposals with
  | some ps => ProposalsWF ps
  | none => False

instance : DecidablePred SlotWF := fun s => by
  unfold SlotWF
  cases s.proposals <;> infer_instance

/-- Every slot of the server dictionary is well formed for a repeated merge. -/
def SlotsWF (R : Slots) : Prop :=
  ∀ e ∈ R, SlotWF e.2

instance : DecidablePred SlotsWF := fun R => by
  unfold SlotsWF
  infer_instance

instance : IsTotal ActivityEntry tsLe := ⟨fun a b => Int.le_total a.timestamp b.timestamp⟩

instance : IsTrans ActivityEntry tsLe := ⟨fun _ _ _ h1 h2 => Int.le_trans h1 h2⟩

/-- The voter `v` is listed on a proposal of the list `l` that has the id `i`. -/
def votesOf (l : List Proposal) (i : Option String) (v : String) : Prop :=
  ∃ m ∈ l, m.id = i ∧ v ∈ m.votes.getD []

/-! ## Example data -/

/-- A proposal created locally, not yet on the server. -/
def exLocalOnly : Proposal :=
  ⟨some "p-local", "Raclette", "Hamburg", some ["Hamburg"], some true, none, none, none, none⟩

/-- A proposal as the server holds it. -/
def exServer : Proposal :=
  ⟨some "p1", "Gans", "Eltern", some ["B", "C"], some true, some "https://r/gans",
    some ["1 Gans"], none, some 900⟩

/-- The local copy of `exServer`, with other votes and no recipe data yet. -/
def exLocal : Proposal :=
  ⟨some "p1", "Gans", "Eltern", some ["A", "B"], some false, none, none, some ["Braten"], none⟩

/-- A placeholder of the local list in the grocery examples. -/
def exPlaceholderLocal : Placeholder :=
  ⟨"Gans (Zutaten prüfen)", true, some "p1", "Gans", "2025-12-24", "Abendessen"⟩

/-- A server placeholder for another proposal of the same dish name. -/
def exPlaceholderServer : Placeholder :=
  ⟨"Gans (Zutaten prüfen)", true, some "p2", "Gans", "2025-12-25", "Mittagessen"⟩

/-- A rendering of an entry that stands for `JSON.stringify` in the examples. -/
def exStringify (l : ActivityEntry) : String :=
  String.intercalate "|" [l.id.getD "", l.type, l.user, l.message, toString l.timestamp]

/-- A server snapshot whose only proposal lists a voter twice. -/
def exRemoteDupVotes : Document :=
  { slots := [("2025-12-24_abendessen", ⟨"2025-12-24", "Abendessen", none,
      some [⟨some "p1", "Gans", "Eltern", some ["A", "A"], none, none, none, none, none⟩]⟩)]
    groceries := []
    activity := [] }

/-- A local document of the examples. -/
def exDocLocal : Document :=
  { slots := [("2025-12-24_abendessen",
      ⟨"2025-12-24", "Abendessen", none, some [exLocal, exLocalOnly]⟩)]
    groceries := [GroceryItem.str "200g Mehl", GroceryItem.obj exPlaceholderLocal]
    activity := [⟨some "a2", "vote", "Hamburg", "hat gestimmt", 2000⟩,
      ⟨some "a1", "add", "Eltern", "hat vorgeschlagen", 1000⟩] }

/-- A server snapshot of the examples. -/
def exDocServer : Document :=
  { slots := [("2025-12-24_abendessen",
        ⟨"2025-12-24", "Abendessen", some true, some [exServer]⟩),
      ("2025-12-25_dessert", ⟨"2025-12-25", "Dessert", none, some []⟩)]
    groceries := [GroceryItem.str "200g Mehl", GroceryItem.str "1 Gans"]
    activity := [⟨some "a3", "approve", "Organisator", "hat genehmigt", 1500⟩,
      ⟨some "a1", "add", "Eltern", "hat vorgeschlagen", 1000⟩] }

/-- A client on which the dish is approved. -/
def exDocApproved : Document :=
  { slots := [("2025-12-24_abendessen", ⟨"2025-12-24", "Abendessen", some true, some []⟩)]
    groceries := []
    activity := [] }

/-- A client on which the same slot is not approved. -/
def exDocNotApproved : Document :=
  { slots := [("2025-12-24_abendessen", ⟨"2025-12-24", "Abendessen", some false, some []⟩)]
    groceries := []
    activity := [] }

/-! ## Definitions for the activity log -/

/-- The id of an entry that has one (`l.id` truthy). -/
def realId (l : ActivityEntry) : Option String :=
  match l.id with
  | some s => if s != "" then some s else none
  | none => none

/-! ## The synchronisation state and its entry points

The asynchronous functions `fetchData` and `saveData` are run to completion
against an environment that supplies the server's answers; the requests they
issue are collected in a trace.  A call of `fetchData` that is not awaited
(the fallback in `saveData`) contributes its synchronous part, the guard and
the request; its continuation is `fetchDataResponse`, applied to the state the
response meets.

The watcher `watch([mealSlots, groceryList], () => debouncedSave(), { deep: true })`
is part of the state.  A synchronous step that writes to `mealSlots` or
`groceryList` queues the callback (`watcherPending`), and the callback runs
when the step has ended (`flushWatcher`), before the next answer of the server
is handled.  The step is seen by the watcher

* always when it assigns a new object to `mealSlots.value` or
  `groceryList.value` (the replacement on first load, `resetEvent`);
* always when a merge changes the value of `mealSlots` or `groceryList`;
* and when a merge stores an equal value in a new place, which the values do not
  show: `lProp.votes = Array.from(combinedVotes)` assigns a new array for every
  proposal matched by id, and `lSlot.approved = sSlot.approved` adds the key
  `approved` to a slot that did not have it.  Whether a merge did so is supplied
  with the environment, as the flag `rewrote`.

The timers of the window are a table of armed timers; `setTimeout` adds one
with a fresh positive id, `clearTimeout` removes the one with the id.  A timer
that falls due while a call of `saveData` waits for the server is fired after
the call has ended (`advanceTo`). -/

/-- The values of `syncStatus`. -/
inductive SyncStatus where
  | saved
  | syncing
  | error
  deriving DecidableEq, Repr

/-- The settings record (`{ organizerPin }`). -/
structure Settings where
  organizerPin : String
  deriving DecidableEq, Repr

/-- The state of the component: the document, the sync state, the bootstrap
flag, the version tag, the variable `saveTimeout` (the id of the timer armed
last), the armed timers of the window (id and time at which the timer is due),
the id the window gave out last, and whether the watcher's callback is queued. -/
structure Engine where
  mealSlots : Slots
  groceryList : List GroceryItem
  activityLog : List ActivityEntry
  globalSettings : Settings
  syncStatus : SyncStatus
  syncMessage : String
  isFirstLoad : Bool
  currentETag : Option String
  saveTimeout : Option Nat
  timers : List (Nat × Nat)
  lastTimerId : Nat
  watcherPending : Bool
  deriving DecidableEq, Repr

/-- The state `setup()` creates. -/
def Engine.start : Engine :=
  { mealSlots := []
    groceryList := []
    activityLog := []
    globalSettings := ⟨""⟩
    syncStatus := SyncStatus.saved
    syncMessage := "Alle Änderungen gespeichert"
    isFirstLoad := true
    currentETag := none
    saveTimeout := none
    timers := []
    lastTimerId := 0
    watcherPending := false }

/-- A parsed response body: the document `{ slots, groceries, activity, settings }`
with optional parts, or the old format in which the body is the slot dictionary. -/
inductive ServerData where
  | doc (slots : Slots) (groceries : Option (List GroceryItem))
      (activity : Option (List ActivityEntry)) (settings : Option Settings)
  | legacy (slots : Slots)
  deriving DecidableEq, Repr

/-- `data.slots || data`. -/
def ServerData.slotsOrSelf : ServerData → Slots
  | ServerData.doc slots _ _ _ => slots
  | ServerData.legacy slots => slots

/-- `data.groceries || []`. -/
def ServerData.groceriesOrEmpty : ServerData → List GroceryItem
  | ServerData.doc _ groceries _ _ => groceries.getD []
  | ServerData.legacy _ => []

/-- `data.activity || []`. -/
def ServerData.activityOrEmpty : ServerData → List ActivityEntry
  | ServerData.doc _ _ activity _ => activity.getD []
  | ServerData.legacy _ => []

/-- `data.settings`. -/
def ServerData.settings : ServerData → Option Settings
  | ServerData.doc _ _ _ settings => settings
  | ServerData.legacy _ => none

/-- The body of a write: `{ slots, groceries, activity, settings }`. -/
structure Payload where
  slots : Slots
  groceries : List GroceryItem
  activity : List ActivityEntry
  settings : Settings
  deriving DecidableEq, Repr

/-- A request to `/api/data`: a read with its `If-None-Match` header, or a write
(`POST`) with its `If-Match` header and body. -/
inductive Request where
  | get (ifNoneMatch : Option String)
  | post (ifMatch : Option String) (body : Payload)
  deriving DecidableEq, Repr

/-- The outcome of a read: `fetch` throws, status 304, another status that is
not OK, or an OK response with its `ETag` header and its body (`none` when
`res.json()` throws). -/
inductive ReadResponse where
  | networkError
  | notModified
  | notOk
  | ok (etag : Option String) (body : Option ServerData)
  deriving DecidableEq, Repr

/-- The outcome of a write: `fetch` throws, status 409 together with the outcome
of the read that follows it, another status that is not OK, or an OK response
with its `ETag` header. -/
inductive WriteResponse where
  | networkError
  | conflict (reread : ReadResponse)
  | notOk
  | ok (etag : Option String)
  deriving DecidableEq, Repr

/-- `clearTimeout(id)`: the timer with this id is no longer armed. -/
def clearTimeout (id : Nat) (st : Engine) : Engine :=
  { st with timers := st.timers.filter (fun t => t.1 != id) }

/-- `debouncedSave()` called at time `now` (milliseconds): the guard, status and
message, `if (saveTimeout) clearTimeout(saveTimeout)` (an id is truthy when it
is not 0) and `saveTimeout = setTimeout(saveData, 2000)`, which arms a timer
with the next id, due at `now + 2000`. -/
def debouncedSave (now : Nat) (st : Engine) : Engine :=
  if st.isFirstLoad then st
  else
    let st1 := { st with
      syncStatus := SyncStatus.syncing
      syncMessage := "Warte auf Speichern..." }
    let st2 :=
      match st1.saveTimeout with
      | some id => if id != 0 then clearTimeout id st1 else st1
      | none => st1
    { st2 with
      saveTimeout := some (st2.lastTimerId + 1)
      timers := st2.timers ++ [(st2.lastTimerId + 1, now + 2000)]
      lastTimerId := st2.lastTimerId + 1 }

/-- A merge took the component from `before` to `after`: the watcher's callback
is queued when the value of `mealSlots` or of `groceryList` has changed, and
when the merge stored an equal value in a new place (`rewrote`). -/
def touch (rewrote : Bool) (before after : Engine) : Engine :=
  if rewrote = true ∨
      (after.mealSlots, after.groceryList) ≠ (before.mealSlots, before.groceryList) then
    { after with watcherPending := true }
  else after

/-- The synchronous step has ended at time `now`: a queued callback of the
watcher runs, which is `debouncedSave()`. -/
def flushWatcher (now : Nat) (st : Engine) : Engine :=
  if st.watcherPending then debouncedSave now { st with watcherPending := false } else st

/-- The version header sent with a request: `currentETag` when it is truthy. -/
def etagHeader (st : Engine) : Option String :=
  if truthyStr st.currentETag then st.currentETag else none

/-- `if (etag) currentETag.value = etag`. -/
def storeETag (etag : Option String) (st : Engine) : Engine :=
  if truthyStr etag then { st with currentETag := etag } else st

/-- The synchronous part of `fetchData`: the guard and the request. -/
def fetchDataRequest (st : Engine) : Option Request :=
  if st.syncStatus = SyncStatus.syncing && !st.isFirstLoad then none
  else some (Request.get (etagHeader st))

/-- The part of `fetchData` after a parsed body: the comparison of the two
serialisations (an equality of the values), the replacement on first load, which
assigns new objects to `mealSlots.value` and `groceryList.value`, the merge
otherwise. -/
def applyServerData (stringify : ActivityEntry → String) (rewrote : Bool)
    (data : ServerData) (st : Engine) : Engine :=
  let serverSlots := data.slotsOrSelf
  let serverGroceries := data.groceriesOrEmpty
  let serverActivity := data.activityOrEmpty
  let serverSettings := data.settings.getD ⟨""⟩
  if (st.mealSlots, st.groceryList, st.activityLog, st.globalSettings) ≠
      (serverSlots, serverGroceries, serverActivity, serverSettings) then
    if st.isFirstLoad then
      { st with
        mealSlots := serverSlots
        groceryList := serverGroceries
        activityLog := serverActivity
        globalSettings := serverSettings
        isFirstLoad := false
        watcherPending := true }
    else
      touch rewrote st { st with
        mealSlots := performSmartMerge st.mealSlots serverSlots
        groceryList := performSmartMergeGroceries st.groceryList serverGroceries
        activityLog := performSmartMergeActivity stringify st.activityLog serverActivity
        globalSettings := serverSettings }
  else st

/-- The continuation of `fetchData` once the response is there. -/
def fetchDataResponse (stringify : ActivityEntry → String) (rewrote : Bool)
    (r : ReadResponse) (st : Engine) : Engine :=
  match r with
  | ReadResponse.networkError => st
  | ReadResponse.notModified => st
  | ReadResponse.notOk => st
  | ReadResponse.ok etag body =>
      match body with
      | none => storeETag etag st
      | some data => applyServerData stringify rewrote data (storeETag etag st)

/-- `await fetchData()` with the response handled at time `now`: the state
afterwards, the watcher's callback included, and the requests issued. -/
def fetchData (stringify : ActivityEntry → String) (rewrote : Bool) (now : Nat)
    (r : ReadResponse) (st : Engine) : Engine × List Request :=
  match fetchDataRequest st with
  | none => (st, [])
  | some req => (flushWatcher now (fetchDataResponse stringify rewrote r st), [req])

/-- The body a write carries. -/
def payload (st : Engine) : Payload :=
  { slots := st.mealSlots
    groceries := st.groceryList
    activity := st.activityLog
    settings := st.globalSettings }

/-- The state `saveData` leaves when `retryCount > 3`. -/
def tooManyConflicts (st : Engine) : Engine :=
  { st with syncStatus := SyncStatus.error, syncMessage := "Sync-Fehler: Zu viele Konflikte." }

/-- The state the `catch` block of `saveData` leaves. -/
def saveFailed (st : Engine) : Engine :=
  { st with syncStatus := SyncStatus.error, syncMessage := "Sync Fehler - Erneuter Versuch..." }

/-- The state at the end of the `try` block of `saveData`. -/
def saveDone (st : Engine) : Engine :=
  { st with syncStatus := SyncStatus.saved, syncMessage := "Alle Änderungen gespeichert" }

/-- The first statements of a write attempt: status and message. -/
def saveStarted (retryCount : Nat) (st : Engine) : Engine :=
  { st with
    syncStatus := SyncStatus.syncing
    syncMessage :=
      if retryCount > 0 then "Löse Konflikt (Versuch " ++ toString retryCount ++ ")..."
      else "Synchronisiere mit Cloud..." }

/-- Step 2 of the conflict branch of `saveData`: the three merges and the
server's settings, when it sends some. -/
def mergeServerData (stringify : ActivityEntry → String) (rewrote : Bool)
    (serverData : ServerData) (st : Engine) : Engine :=
  touch rewrote st { st with
    mealSlots := performSmartMerge st.mealSlots serverData.slotsOrSelf
    groceryList := performSmartMergeGroceries st.groceryList serverData.groceriesOrEmpty
    activityLog := performSmartMergeActivity stringify st.activityLog
      serverData.activityOrEmpty
    globalSettings :=
      match serverData.settings with
      | some s => s
      | none => st.globalSettings }

/-- `saveData(retryCount)`: the state when the call ends and the requests it
issued, in order.  `env k` is the server's answer to the write of the attempt
with `retryCount = k` (with the outcome of the read that follows a 409),
`rewrote k` the flag of the merge of that attempt, and `clock k` the time at
which the call with `retryCount = k` is made.  The watcher's callback, queued
before the call or by the merge of the attempt before, runs when the call
reaches its first `await` or returns: after the write has been sent, or after
the `retryCount > 3` branch. -/
def saveData (stringify : ActivityEntry → String) (env : Nat → WriteResponse)
    (rewrote : Nat → Bool) (clock : Nat → Nat) (retryCount : Nat) (st : Engine) :
    Engine × List Request :=
  if retryCount > 3 then (flushWatcher (clock retryCount) (tooManyConflicts st), [])
  else
    let st0 := saveStarted retryCount st
    let post := Request.post (etagHeader st0) (payload st0)
    let st1 := flushWatcher (clock retryCount) st0
    match env retryCount with
    | WriteResponse.networkError => (saveFailed st1, [post])
    | WriteResponse.conflict reread =>
        match reread with
        | ReadResponse.ok newETag (some serverData) =>
            let r := saveData stringify env rewrote clock (retryCount + 1)
              (mergeServerData stringify (rewrote retryCount) serverData
                (storeETag newETag st1))
            (r.1, post :: Request.get none :: r.2)
        | _ => (saveFailed st1, [post, Request.get none])
    | WriteResponse.notOk => (saveFailed st1, [post])
    | WriteResponse.ok newETag =>
        if truthyStr newETag then (saveDone { st1 with currentETag := newETag }, [post])
        else (saveDone st1, post :: (fetchDataRequest st1).toList)
termination_by 4 - retryCount

/-- `saveSettingsPin(newPin)`. -/
def saveSettingsPin (stringify : ActivityEntry → String) (env : Nat → WriteResponse)
    (rewrote : Nat → Bool) (clock : Nat → Nat) (newPin : String) (st : Engine) :
    Engine × List Request :=
  saveData stringify env rewrote clock 0
    { st with globalSettings := { organizerPin := newPin } }

/-- `resetEvent()`; `confirmed` is the answer to the `confirm` dialog, `now` the
time at which the response of the first read is handled and `rewroteRead` the
flag of its merge. -/
def resetEvent (stringify : ActivityEntry → String) (confirmed : Bool)
    (rewroteRead : Bool) (now : Nat) (r : ReadResponse) (env : Nat → WriteResponse)
    (rewrote : Nat → Bool) (clock : Nat → Nat) (st : Engine) : Engine × List Request :=
  if confirmed then
    let f := fetchData stringify rewroteRead now r st
    let s := saveData stringify env rewrote clock 0
      { f.1 with mealSlots := [], groceryList := [], activityLog := [], watcherPending := true }
    (s.1, f.2 ++ s.2)
  else (st, [])

/-- The component together with the requests that the `saveData` calls of the
debounce timer have issued, each with the time at which its timer was due. -/
structure Timeline where
  engine : Engine
  requests : List (Nat × Request)
  deriving DecidableEq, Repr

/-- An armed timer is due: it leaves the table and calls `saveData()`; `lag k`
is the time the call with `retryCount = k` is made after the timer was due. -/
def fireTimer (stringify : ActivityEntry → String) (env : Nat → WriteResponse)
    (rewrote : Nat → Bool) (lag : Nat → Nat) (t : Timeline) (timer : Nat × Nat) :
    Timeline :=
  if timer ∈ t.engine.timers then
    let r := saveData stringify env rewrote (fun k => timer.2 + lag k) 0
      { t.engine with timers := t.engine.timers.filter (fun x => x != timer) }
    { engine := r.1, requests := t.requests ++ r.2.map (fun q => (timer.2, q)) }
  else t

/-- The clock reaches `now`: the armed timers that are due fire, in the order
in which they were armed. -/
def advanceTo (stringify : ActivityEntry → String) (env : Nat → WriteResponse)
    (rewrote : Nat → Bool) (lag : Nat → Nat) (now : Nat) (t : Timeline) : Timeline :=
  (t.engine.timers.filter (fun x => x.2 ≤ now)).foldl
    (fireTimer stringify env rewrote lag) t

/-- A mutation of `mealSlots` or `groceryList` at time `now`: the watcher calls
`debouncedSave()`. -/
def mutateAt (stringify : ActivityEntry → String) (env : Nat → WriteResponse)
    (rewrote : Nat → Bool) (lag : Nat → Nat) (t : Timeline) (now : Nat) : Timeline :=
  let t1 := advanceTo stringify env rewrote lag now t
  { t1 with engine := debouncedSave now t1.engine }

/-- No further mutation comes: the clock runs until the timers that are armed
now are due. -/
def settle (stringify : ActivityEntry → String) (env : Nat → WriteResponse)
    (rewrote : Nat → Bool) (lag : Nat → Nat) (t : Timeline) : Timeline :=
  advanceTo stringify env rewrote lag ((t.engine.timers.map Prod.snd).foldl max 0) t

/-- Whether a request is a write. -/
def Request.isPost : Request → Bool
  | Request.post _ _ => true
  | Request.get _ => false

/-- The write was answered with 409 and the read that follows it succeeded with
a parsed body, so the conflict branch of `saveData` merges and retries. -/
def WriteResponse.isMergedConflict : WriteResponse → Bool
  | WriteResponse.conflict (ReadResponse.ok _ (some _)) => true
  | _ => false

/-- The state in which the call `saveData(retryCount + 1)` is made after the
write of the attempt `retryCount` met a conflict and the re-read document
`serverData` was merged. -/
def afterConflict (stringify : ActivityEntry → String) (rewrote : Nat → Bool)
    (clock : Nat → Nat) (retryCount : Nat) (newETag : Option String)
    (serverData : ServerData) (st : Engine) : Engine :=
  mergeServerData stringify (rewrote retryCount) serverData
    (storeETag newETag (flushWatcher (clock retryCount) (saveStarted retryCount st)))

/-- The document of the component. -/
def docOf (st : Engine) : Document :=
  { slots := st.mealSlots, groceries := st.groceryList, activity := st.activityLog }

/-- The document a response body holds. -/
def serverDoc (d : ServerData) : Document :=
  { slots := d.slotsOrSelf, groceries := d.groceriesOrEmpty, activity := d.activityOrEmpty }

/-- The local document after the documents `ds` were merged into it, one after
the other. -/
def mergeAll (stringify : ActivityEntry → String) (ds : List ServerData)
    (doc : Document) : Document :=
  ds.foldl (fun acc d => merge stringify acc (serverDoc d)) doc

/-- The body of a write that carries the document `doc` and the settings. -/
def Document.payload (doc : Document) (settings : Settings) : Payload :=
  { slots := doc.slots
    groceries := doc.groceries
    activity := doc.activity
    settings := settings }

/-- The state in which the call `saveData(n)` is made when the writes of the
attempts before it were all answered with 409 and the re-reads returned the
version tags `tag k` and the documents `body k`. -/
def conflictChain (stringify : ActivityEntry → String) (rewrote : Nat → Bool)
    (clock : Nat → Nat) (tag : Nat → Option String) (body : Nat → ServerData) :
    Nat → Engine → Engine
  | 0, st => st
  | n + 1, st =>
      afterConflict stringify rewrote clock n (tag n) (body n)
        (conflictChain stringify rewrote clock tag body n st)

/-- The part of a document the watcher observes. -/
def watchedPart (doc : Document) : Slots × List GroceryItem :=
  (doc.slots, doc.groceries)

/-- Nothing of the local document `a` is lost in `b`: every slot key is still
there with every proposal id of its slot, the grocery list still starts with
the former list, and every activity entry is still there (as often as before). -/
def NothingLost (a b : Engine) : Prop :=
  (∀ key l, objGet a.mealSlots key = some l →
    ∃ m, objGet b.mealSlots key = some m ∧
      ∀ p ∈ l.proposals.getD [], p.id ∈ (m.proposals.getD []).map (fun q => q.id)) ∧
  (∃ app, b.groceryList = a.groceryList ++ app) ∧
  List.Subperm a.activityLog b.activityLog

/-- The document `exDocServer` as a response body. -/
def exServerBody : ServerData :=
  ServerData.doc exDocServer.slots (some exDocServer.groceries)
    (some exDocServer.activity) none

/-- An environment in which every write is answered with 409; the first three
re-reads return the empty document, the fourth returns `exDocServer`. -/
def envLateChange : Nat → WriteResponse :=
  fun k => WriteResponse.conflict
    (ReadResponse.ok (some "v9")
      (some (if k = 3 then exServerBody else ServerData.doc [] none none none)))

/-- An environment in which every write is answered with 409 and every re-read
returns a grocery list with one more item another client has added. -/
def envBusyServer : Nat → WriteResponse :=
  fun k => WriteResponse.conflict
    (ReadResponse.ok (some "v9")
      (some (ServerData.doc [] (some (["Zimt", "Nelken", "Anis", "Vanille"].take (k + 1)
        |>.map GroceryItem.str)) none none)))

/-- No merge of the examples stores an equal value in a new place. -/
def exRewrote : Nat → Bool :=
  fun _ => false

/-- The calls `saveData(k)` of the examples are made one second apart. -/
def exClock : Nat → Nat :=
  fun k => 1000 * k

/-- A local state with unsynced content, after bootstrap. -/
def exEngine : Engine :=
  { mealSlots := exDocLocal.slots
    groceryList := exDocLocal.groceries
    activityLog := exDocLocal.activity
    globalSettings := ⟨"1234"⟩
    syncStatus := SyncStatus.saved
    syncMessage := "Alle Änderungen gespeichert"
    isFirstLoad := false
    currentETag := some "v1"
    saveTimeout := none
    timers := []
    lastTimerId := 0
    watcherPending := false }

/-- An environment in which every write succeeds and returns a version tag. -/
def envAccept : Nat → WriteResponse :=
  fun _ => WriteResponse.ok (some "v1")

/-- The body of a fresh server: the empty document with an empty PIN. -/
def exEmptyBody : ServerData :=
  ServerData.doc [] (some []) (some []) (some ⟨""⟩)

/-- An environment in which every write succeeds but the response has no `ETag`
header. -/
def envAcceptNoTag : Nat → WriteResponse :=
  fun _ => WriteResponse.ok none

/-- An environment in which the first write meets a conflict, the re-read
returns a document whose settings hold the PIN `0000`, and the retried write
succeeds. -/
def envConflictOnce : Nat → WriteResponse :=
  fun k =>
    if k = 0 then
      WriteResponse.conflict (ReadResponse.ok (some "v2")
        (some (ServerData.doc exDocServer.slots (some exDocServer.groceries)
          (some exDocServer.activity) (some ⟨"0000"⟩))))
    else WriteResponse.ok (some "v3")

/-! ## Slot keys -/

/-- `getSlotKey(date, type)`, the template string with the date, an underscore
and `type.toLowerCase()`; `toLowerCase` stands for the method of the same name. -/
def getSlotKey (toLowerCase : String → String) (date type : String) : String :=
  date ++ "_" ++ toLowerCase type

/-- A lower-casing of the ASCII letters, which stands for `toLowerCase` in the
examples. -/
def asciiLower (s : String) : String :=
  ⟨s.data.map Char.toLower⟩

/-! ## The single-winner invariant -/

/-- The proposals of a list that are approved. -/
def approvedOnes (ps : List Proposal) : List Proposal :=
  ps.filter (fun p => decide (p.approved = some true))

/-- The invariant of a slot: when the slot is approved, at most one of its
proposals is approved. -/
def SingleWinner (s : Slot) : Prop :=
  s.approved = some true → (approvedOnes (s.proposals.getD [])).length ≤ 1

instance : DecidablePred SingleWinner := fun s => by
  unfold SingleWinner
  infer_instance

/-- The invariant holds for every slot of the dictionary. -/
def AllSingleWinner (S : Slots) : Prop :=
  ∀ k s, objGet S k = some s → SingleWinner s

/-- The proposal ids of the slot are pairwise distinct. -/
def DistinctIds (s : Slot) : Prop :=
  ((s.proposals.getD []).map (fun p => p.id)).Nodup

instance : DecidablePred DistinctIds := fun s => by
  unfold DistinctIds
  infer_instance

/-- Every proposal that is approved in the local slot `l` is a proposal of the
server slot `s` (same id) and approved there. -/
def ApprovalsKnown (l s : Slot) : Prop :=
  ∀ p ∈ l.proposals.getD [], p.approved = some true →
    ∃ q ∈ s.proposals.getD [], q.id = p.id ∧ q.approved = some true

instance (l s : Slot) : Decidable (ApprovalsKnown l s) := by
  unfold ApprovalsKnown
  infer_instance

/-- A local slot in which the locally created proposal `p-local` is approved. -/
def exSlotLocalWinner : Slot :=
  ⟨"2025-12-24", "Abendessen", some true, some [exLocalOnly]⟩

/-- The server's slot for the same key, in which proposal `p1` is approved. -/
def exSlotServerWinner : Slot :=
  ⟨"2025-12-24", "Abendessen", some true, some [exServer]⟩

/-- A local slot that holds the server's approved proposal `p1`, approved, and
an unapproved proposal of its own. -/
def exSlotLocalAgrees : Slot :=
  ⟨"2025-12-24", "Abendessen", some false,
    some [{ exLocal with approved := some true }, { exLocalOnly with approved := none }]⟩

/-! ## Sets kept as lists -/

theorem mem_setAdd (s : List String) (x y : String) :
    y ∈ setAdd s x ↔ y ∈ s ∨ y = x := by
  unfold setAdd
  split
  · constructor
    · intro h; exact Or.inl h
    · rintro (h | rfl)
      · exact h
      · assumption
  · simp

theorem nodup_setAdd (s : List String) (x : String) (h : s.Nodup) :
    (setAdd s x).Nodup := by
  unfold setAdd
  split
  · exact h
  · rename_i hx
    rw [List.nodup_append]
    refine ⟨h, List.nodup_singleton x, ?_⟩
    intro a ha hb
    simp at hb
    subst hb
    exact hx ha

theorem mem_foldl_setAdd (xs : List String) (s : List String) (y : String) :
    y ∈ xs.foldl setAdd s ↔ y ∈ s ∨ y ∈ xs := by
  induction xs generalizing s with
  | nil => simp
  | cons x xs ih =>
    simp only [List.foldl_cons, ih, mem_setAdd, List.mem_cons]
    tauto

theorem nodup_foldl_setAdd (xs : List String) (s : List String) (h : s.Nodup) :
    (xs.foldl setAdd s).Nodup := by
  induction xs generalizing s with
  | nil => simpa using h
  | cons x xs ih => exact ih _ (nodup_setAdd s x h)

theorem mem_newSet (xs : List String) (y : String) : y ∈ newSet xs ↔ y ∈ xs := by
  simp [newSet, mem_foldl_setAdd]

theorem nodup_newSet (xs : List String) : (newSet xs).Nodup :=
  nodup_foldl_setAdd xs [] List.nodup_nil

theorem foldl_setAdd_of_subset (xs : List String) (s : List String)
    (h : ∀ x ∈ xs, x ∈ s) : xs.foldl setAdd s = s := by
  induction xs with
  | nil => rfl
  | cons x xs ih =>
    have hx : x ∈ s := h x (List.mem_cons_self _ _)
    simp only [List.foldl_cons, setAdd, hx, if_true]
    exact ih (fun y hy => h y (List.mem_cons_of_mem _ hy))

theorem foldl_setAdd_of_nodup (xs : List String) (s : List String)
    (h : (s ++ xs).Nodup) : xs.foldl setAdd s = s ++ xs := by
  induction xs generalizing s with
  | nil => simp
  | cons x xs ih =>
    have hx : x ∉ s := by
      intro hx
      rw [List.nodup_append] at h
      exact h.2.2 hx (List.mem_cons_self _ _)
    simp only [List.foldl_cons, setAdd, hx, if_false]
    rw [ih (s ++ [x]) (by simpa using h)]
    simp

theorem newSet_of_nodup (xs : List String) (h : xs.Nodup) : newSet xs = xs := by
  have := foldl_setAdd_of_nodup xs [] (by simpa using h)
  simpa [newSet] using this

/-- Uniting a duplicate-free list with members it already has changes nothing. -/
theorem newSet_append_of_subset (v s : List String) (hv : v.Nodup)
    (hs : ∀ x ∈ s, x ∈ v) : newSet (v ++ s) = v := by
  unfold newSet
  rw [List.foldl_append]
  have h1 : v.foldl setAdd [] = v := newSet_of_nodup v hv
  rw [h1]
  exact foldl_setAdd_of_subset s v hs

/-! ## Dictionaries -/

theorem objGet_eq_none_iff {β : Type} (o : List (String × β)) (k : String) :
    objGet o k = none ↔ k ∉ objKeys o := by
  induction o with
  | nil => simp [objGet, objKeys]
  | cons e o ih =>
    obtain ⟨k', v⟩ := e
    unfold objGet
    by_cases h : k' = k
    · simp [h, objKeys]
    · simp only [h, if_false, ih, objKeys, List.map_cons, List.mem_cons, not_or]
      constructor
      · intro h2; exact ⟨fun e => h e.symm, h2⟩
      · intro h2; exact h2.2

theorem objGet_objSet {β : Type} (o : List (String × β)) (k k' : String) (v : β) :
    objGet (objSet o k v) k' = if k' = k then some v else objGet o k' := by
  induction o with
  | nil =>
    by_cases h : k' = k
    · simp [objSet, objGet, h]
    · have h' : ¬ k = k' := fun e => h e.symm
      simp [objSet, objGet, h, h']
  | cons e o ih =>
    obtain ⟨k0, w⟩ := e
    unfold objSet
    by_cases h0 : k0 = k
    · subst h0
      by_cases h : k' = k0
      · subst h; simp [objGet]
      · have h' : ¬ k0 = k' := fun e => h e.symm
        simp [objGet, h, h']
    · simp only [h0, if_false]
      unfold objGet
      by_cases h1 : k0 = k'
      · subst h1
        simp [h0]
      · simp only [h1, if_false, ih]

theorem objKeys_objSet {β : Type} (o : List (String × β)) (k : String) (v : β) :
    objKeys (objSet o k v) = if k ∈ objKeys o then objKeys o else objKeys o ++ [k] := by
  induction o with
  | nil => simp [objSet, objKeys]
  | cons e o ih =>
    obtain ⟨k0, w⟩ := e
    unfold objSet
    by_cases h0 : k0 = k
    · subst h0; simp [objKeys]
    · have h0' : ¬ k = k0 := fun e => h0 e.symm
      simp only [h0, if_false]
      simp only [objKeys, List.map_cons, List.mem_cons, h0', false_or] at ih ⊢
      rw [ih]
      split <;> simp

theorem objSet_of_objGet {β : Type} (o : List (String × β)) (k : String) (v : β)
    (h : objGet o k = some v) : objSet o k v = o := by
  induction o with
  | nil => simp [objGet] at h
  | cons e o ih =>
    obtain ⟨k0, w⟩ := e
    unfold objGet at h
    unfold objSet
    by_cases h0 : k0 = k
    · simp only [h0, if_true, Option.some.injEq] at h
      simp [h0, h]
    · simp only [h0, if_false] at h
      simp [h0, ih h]

/-! ## The slot dictionary after `performSmartMerge` -/

theorem objGet_mergeKey (R acc : Slots) (key k : String) :
    objGet (mergeKey R acc key) k =
      if k = key then slotAfter (objGet acc key) (objGet R key) else objGet acc k := by
  unfold mergeKey
  cases hR : objGet R key with
  | none =>
    by_cases h : k = key
    · subst h; simp [slotAfter]
    · simp [h]
  | some s =>
    cases hL : objGet acc key with
    | none => simp only [objGet_objSet, slotAfter]
    | some l => simp only [objGet_objSet, slotAfter]

theorem objGet_foldl_mergeKey (R : Slots) (ks : List String) (acc : Slots) (k : String)
    (hks : ks.Nodup) :
    objGet (ks.foldl (mergeKey R) acc) k =
      if k ∈ ks then slotAfter (objGet acc k) (objGet R k) else objGet acc k := by
  induction ks generalizing acc with
  | nil => simp
  | cons key ks ih =>
    rw [List.nodup_cons] at hks
    rw [List.foldl_cons, ih _ hks.2, objGet_mergeKey]
    by_cases h : k = key
    · subst h
      simp [hks.1]
    · simp [h]

theorem mem_forInKeys {β : Type} (o : List (String × β)) (k : String) :
    k ∈ forInKeys o ↔ k ∈ objKeys o :=
  mem_newSet _ k

theorem nodup_forInKeys {β : Type} (o : List (String × β)) : (forInKeys o).Nodup :=
  nodup_newSet _

theorem forInKeys_of_keysNodup {β : Type} (o : List (String × β)) (h : KeysNodup o) :
    forInKeys o = objKeys o :=
  newSet_of_nodup _ h

theorem objGet_performSmartMerge (L R : Slots) (k : String) :
    objGet (performSmartMerge L R) k = slotAfter (objGet L k) (objGet R k) := by
  unfold performSmartMerge
  rw [objGet_foldl_mergeKey R _ L k (nodup_forInKeys R)]
  by_cases h : k ∈ objKeys R
  · simp [mem_forInKeys, h]
  · have : objGet R k = none := (objGet_eq_none_iff R k).2 h
    simp [mem_forInKeys, h, this, slotAfter]

theorem objKeys_mergeKey (R acc : Slots) (key : String) (h : key ∈ objKeys R) :
    objKeys (mergeKey R acc key) =
      if key ∈ objKeys acc then objKeys acc else objKeys acc ++ [key] := by
  unfold mergeKey
  cases hR : objGet R key with
  | none => exact absurd h ((objGet_eq_none_iff R key).1 hR)
  | some s =>
    cases hL : objGet acc key with
    | none => simp only [objKeys_objSet]
    | some l => simp only [objKeys_objSet]

theorem objKeys_foldl_mergeKey (R : Slots) (ks : List String) (acc : Slots)
    (hks : ks.Nodup) (hsub : ∀ k ∈ ks, k ∈ objKeys R) :
    objKeys (ks.foldl (mergeKey R) acc) =
      objKeys acc ++ ks.filter (fun k => decide (k ∉ objKeys acc)) := by
  induction ks generalizing acc with
  | nil => simp
  | cons key ks ih =>
    rw [List.nodup_cons] at hks
    rw [List.foldl_cons, ih _ hks.2 (fun k hk => hsub k (List.mem_cons_of_mem _ hk)),
      objKeys_mergeKey R acc key (hsub key (List.mem_cons_self _ _))]
    by_cases h : key ∈ objKeys acc
    · simp [h]
    · simp only [h, if_false, List.filter_cons, decide_not, decide_False, Bool.not_false,
        if_true, List.append_assoc, List.singleton_append, List.append_cancel_left_eq,
        List.cons.injEq, true_and]
      apply List.filter_congr
      intro k hk
      have hne : k ≠ key := fun e => hks.1 (e ▸ hk)
      simp [hne]

theorem objKeys_performSmartMerge (L R : Slots) :
    objKeys (performSmartMerge L R) =
      objKeys L ++ (forInKeys R).filter (fun k => decide (k ∉ objKeys L)) :=
  objKeys_foldl_mergeKey R (forInKeys R) L (nodup_forInKeys R)
    (fun k h => (mem_forInKeys R k).1 h)

/-! ## The proposal list after the `forEach` -/

theorem length_modifyAt {α : Type} (f : α → α) (i : Nat) (l : List α) :
    (modifyAt f i l).length = l.length := by
  induction l generalizing i with
  | nil => simp [modifyAt]
  | cons a l ih =>
    cases i with
    | zero => simp [modifyAt]
    | succ i => simp [modifyAt, ih]

theorem getElem?_modifyAt {α : Type} (f : α → α) (i j : Nat) (l : List α) :
    (modifyAt f i l)[j]? = if i = j then (l[j]?).map f else l[j]? := by
  induction l generalizing i j with
  | nil => simp [modifyAt]
  | cons a l ih =>
    cases i with
    | zero =>
      cases j with
      | zero => simp [modifyAt]
      | succ j => simp [modifyAt]
    | succ i =>
      cases j with
      | zero => simp [modifyAt]
      | succ j => simp [modifyAt, ih]

theorem modifyAt_append {α : Type} (f : α → α) (i : Nat) (l app : List α)
    (h : i < l.length) : modifyAt f i (l ++ app) = modifyAt f i l ++ app := by
  induction l generalizing i with
  | nil => simp at h
  | cons a l ih =>
    cases i with
    | zero => simp [modifyAt]
    | succ i =>
      simp only [List.cons_append, modifyAt, List.cons.injEq, true_and]
      exact ih i (by simpa using h)

theorem localMapGet_some (lProps : List Proposal) (id : Option String) (i : Nat)
    (h : localMapGet lProps id = some i) :
    ∃ p, lProps[i]? = some p ∧ p.id = id := by
  induction lProps generalizing i with
  | nil => simp [localMapGet] at h
  | cons p ps ih =>
    unfold localMapGet at h
    cases hps : localMapGet ps id with
    | some j =>
      simp only [hps, Option.some.injEq] at h
      subst h
      simpa using ih j hps
    | none =>
      simp only [hps] at h
      by_cases hp : p.id = id
      · simp only [hp, if_true, Option.some.injEq] at h
        subst h
        exact ⟨p, by simp, hp⟩
      · simp [hp] at h

theorem localMapGet_lt (lProps : List Proposal) (id : Option String) (i : Nat)
    (h : localMapGet lProps id = some i) : i < lProps.length := by
  obtain ⟨p, hp, _⟩ := localMapGet_some lProps id i h
  exact (List.getElem?_eq_some_iff.1 hp).1

theorem localMapGet_eq_none_iff (lProps : List Proposal) (id : Option String) :
    localMapGet lProps id = none ↔ id ∉ lProps.map (fun p => p.id) := by
  induction lProps with
  | nil => simp [localMapGet]
  | cons p ps ih =>
    unfold localMapGet
    cases hps : localMapGet ps id with
    | some j =>
      have : ¬ (id ∉ ps.map (fun p => p.id)) := fun hn => by
        rw [ih.2 hn] at hps; cases hps
      simp only [List.map_cons, List.mem_cons, not_or]
      constructor
      · intro h; cases h
      · intro h; exact absurd h.2 this
    | none =>
      have hn := ih.1 hps
      by_cases hp : p.id = id
      · simp [hp]
      · have hp' : ¬ id = p.id := fun e => hp e.symm
        simp only [hp, if_false, List.map_cons, List.mem_cons, not_or, true_iff]
        exact ⟨hp', hn⟩

theorem length_foldl_updStep (lProps sProps pre : List Proposal) :
    (sProps.foldl (updStep lProps) pre).length = pre.length := by
  induction sProps generalizing pre with
  | nil => rfl
  | cons s sProps ih =>
    rw [List.foldl_cons, ih]
    unfold updStep
    split
    · exact length_modifyAt _ _ _
    · rfl

theorem foldl_mergeProposal_eq (lProps sProps pre app : List Proposal)
    (hlen : pre.length = lProps.length) :
    sProps.foldl (mergeProposal lProps) (pre ++ app) =
      sProps.foldl (updStep lProps) pre ++
        (app ++ sProps.filter (fun s => decide (localMapGet lProps s.id = none))) := by
  induction sProps generalizing pre app with
  | nil => simp
  | cons s sProps ih =>
    rw [List.foldl_cons, List.foldl_cons]
    cases hm : localMapGet lProps s.id with
    | some i =>
      have hi : i < pre.length := hlen ▸ localMapGet_lt lProps s.id i hm
      have h1 : mergeProposal lProps (pre ++ app) s =
          modifyAt (fun lProp => mergeDetails lProp s) i pre ++ app := by
        simp only [mergeProposal, hm]
        exact modifyAt_append _ i pre app hi
      have h2 : updStep lProps pre s = modifyAt (fun lProp => mergeDetails lProp s) i pre := by
        simp only [updStep, hm]
      rw [h1, h2, ih _ app (by rw [length_modifyAt]; exact hlen)]
      simp [List.filter_cons, hm]
    | none =>
      have h1 : mergeProposal lProps (pre ++ app) s = pre ++ (app ++ [s]) := by
        simp only [mergeProposal, hm, List.append_assoc]
      have h2 : updStep lProps pre s = pre := by
        simp only [updStep, hm]
      rw [h1, h2, ih pre (app ++ [s]) hlen]
      simp [List.filter_cons, hm]

theorem mergeProposals_eq (lProps sProps : List Proposal) :
    mergeProposals lProps sProps = updLocal lProps sProps ++ appended lProps sProps := by
  have h := foldl_mergeProposal_eq lProps sProps lProps [] rfl
  simp only [List.append_nil, List.nil_append] at h
  unfold mergeProposals updLocal appended
  rw [h]
  congr 1
  apply List.filter_congr
  intro s _
  simp only [decide_eq_decide]
  exact localMapGet_eq_none_iff lProps s.id

theorem length_updLocal (lProps sProps : List Proposal) :
    (updLocal lProps sProps).length = lProps.length :=
  length_foldl_updStep lProps sProps lProps

theorem getElem?_foldl_updStep (lProps sProps pre : List Proposal) (j : Nat) :
    (sProps.foldl (updStep lProps) pre)[j]? =
      (pre[j]?).map (fun p =>
        (sProps.filter (fun s => decide (localMapGet lProps s.id = some j))).foldl
          mergeDetails p) := by
  induction sProps generalizing pre with
  | nil => simp
  | cons s sProps ih =>
    rw [List.foldl_cons, ih]
    cases hm : localMapGet lProps s.id with
    | some i =>
      have h2 : updStep lProps pre s = modifyAt (fun lProp => mergeDetails lProp s) i pre := by
        simp only [updStep, hm]
      rw [h2, getElem?_modifyAt]
      by_cases hij : i = j
      · subst hij
        cases pre[i]? <;> simp [List.filter_cons, hm]
      · have : ¬ (some i = some j) := fun e => hij (Option.some.inj e)
        simp [List.filter_cons, hm, hij]
    | none =>
      have h2 : updStep lProps pre s = pre := by
        simp only [updStep, hm]
      rw [h2]
      simp [List.filter_cons, hm]

theorem getElem?_updLocal (lProps sProps : List Proposal) (j : Nat) :
    (updLocal lProps sProps)[j]? =
      (lProps[j]?).map (fun p =>
        (sProps.filter (fun s => decide (localMapGet lProps s.id = some j))).foldl
          mergeDetails p) :=
  getElem?_foldl_updStep lProps sProps lProps j

theorem mergeDetails_id (l s : Proposal) : (mergeDetails l s).id = l.id := rfl

theorem foldl_mergeDetails_id (ms : List Proposal) (p : Proposal) :
    (ms.foldl mergeDetails p).id = p.id := by
  induction ms generalizing p with
  | nil => rfl
  | cons m ms ih => rw [List.foldl_cons, ih, mergeDetails_id]

theorem foldl_mergeDetails_approved (ms : List Proposal) (p : Proposal) :
    (ms.foldl mergeDetails p).approved = p.approved := by
  induction ms generalizing p with
  | nil => rfl
  | cons m ms ih => rw [List.foldl_cons, ih]; rfl

theorem map_id_updLocal (lProps sProps : List Proposal) :
    (updLocal lProps sProps).map (fun p => p.id) = lProps.map (fun p => p.id) := by
  apply List.ext_getElem?
  intro j
  rw [List.getElem?_map, List.getElem?_map, getElem?_updLocal]
  cases lProps[j]? with
  | none => rfl
  | some p => simp [foldl_mergeDetails_id]

theorem index_unique_of_nodup_ids (lProps : List Proposal) (i j : Nat) (a b : Proposal)
    (hnd : (lProps.map (fun p => p.id)).Nodup)
    (ha : lProps[i]? = some a) (hb : lProps[j]? = some b) (hab : a.id = b.id) : i = j := by
  induction lProps generalizing i j with
  | nil => simp at ha
  | cons p ps ih =>
    rw [List.map_cons, List.nodup_cons] at hnd
    cases i with
    | zero =>
      cases j with
      | zero => rfl
      | succ j =>
        simp only [List.getElem?_cons_zero, Option.some.injEq] at ha
        simp only [List.getElem?_cons_succ] at hb
        exfalso
        apply hnd.1
        rw [ha, hab]
        exact List.mem_map.2 ⟨b, List.getElem?_mem hb, rfl⟩
    | succ i =>
      cases j with
      | zero =>
        simp only [List.getElem?_cons_zero, Option.some.injEq] at hb
        simp only [List.getElem?_cons_succ] at ha
        exfalso
        apply hnd.1
        rw [hb, ← hab]
        exact List.mem_map.2 ⟨a, List.getElem?_mem ha, rfl⟩
      | succ j =>
        simp only [List.getElem?_cons_succ] at ha hb
        rw [ih i j hnd.2 ha hb]

theorem localMapGet_of_nodup (lProps : List Proposal) (j : Nat) (p : Proposal)
    (hnd : (lProps.map (fun p => p.id)).Nodup) (hp : lProps[j]? = some p)
    (id : Option String) : localMapGet lProps id = some j ↔ id = p.id := by
  constructor
  · intro h
    obtain ⟨p', hp', hid⟩ := localMapGet_some lProps id j h
    rw [hp] at hp'
    cases hp'
    exact hid.symm
  · intro h
    subst h
    cases hm : localMapGet lProps p.id with
    | none =>
      exfalso
      exact (localMapGet_eq_none_iff lProps p.id).1 hm
        (List.mem_map.2 ⟨p, List.getElem?_mem hp, rfl⟩)
    | some j' =>
      obtain ⟨p', hp', hid⟩ := localMapGet_some lProps p.id j' hm
      rw [index_unique_of_nodup_ids lProps j' j p' p hnd hp' hp hid]

/-- With pairwise distinct local ids, the proposal of the merged list that has
the id of the local proposal `p` is `p` updated by the server proposals with
this id, in server order. -/
theorem merged_of_id (lProps sProps : List Proposal) (p q : Proposal)
    (hnd : (lProps.map (fun p => p.id)).Nodup) (hp : p ∈ lProps)
    (hq : q ∈ mergeProposals lProps sProps) (hid : q.id = p.id) :
    q = (sProps.filter (fun s => decide (s.id = p.id))).foldl mergeDetails p := by
  rw [mergeProposals_eq, List.mem_append] at hq
  rcases hq with hq | hq
  · obtain ⟨j, hj⟩ := List.getElem?_of_mem hq
    rw [getElem?_updLocal] at hj
    cases hl : lProps[j]? with
    | none => rw [hl] at hj; cases hj
    | some p' =>
      rw [hl] at hj
      simp only [Option.map_some', Option.some.injEq] at hj
      obtain ⟨j0, hj0⟩ := List.getElem?_of_mem hp
      have hpid : p'.id = p.id := by
        rw [← hid, ← hj, foldl_mergeDetails_id]
      have hjj : j = j0 := index_unique_of_nodup_ids lProps j j0 p' p hnd hl hj0 hpid
      subst hjj
      have hpp : p' = p := by
        rw [hl] at hj0
        exact Option.some.inj hj0
      rw [hpp] at hj hl
      rw [← hj]
      congr 1
      apply List.filter_congr
      intro s _
      simp only [decide_eq_decide]
      exact localMapGet_of_nodup lProps j p hnd hl s.id
  · exfalso
    unfold appended at hq
    rw [List.mem_filter] at hq
    have := of_decide_eq_true hq.2
    apply this
    rw [hid]
    exact List.mem_map.2 ⟨p, hp, rfl⟩

/-- The local proposal `p` updated by the server proposals with its id is in the
merged list. -/
theorem merged_mem (lProps sProps : List Proposal) (p : Proposal)
    (hnd : (lProps.map (fun p => p.id)).Nodup) (hp : p ∈ lProps) :
    (sProps.filter (fun s => decide (s.id = p.id))).foldl mergeDetails p ∈
      mergeProposals lProps sProps := by
  obtain ⟨j, hj⟩ := List.getElem?_of_mem hp
  rw [mergeProposals_eq, List.mem_append]
  left
  apply List.getElem?_mem (n := j)
  rw [getElem?_updLocal, hj]
  simp only [Option.map_some', Option.some.injEq]
  congr 1
  apply List.filter_congr
  intro s _
  simp only [decide_eq_decide]
  exact localMapGet_of_nodup lProps j p hnd hj s.id

theorem mem_votes_foldl_mergeDetails (ms : List Proposal) (p : Proposal) (v : String) :
    v ∈ ((ms.foldl mergeDetails p).votes.getD []) ↔
      v ∈ p.votes.getD [] ∨ ∃ m ∈ ms, v ∈ m.votes.getD [] := by
  induction ms generalizing p with
  | nil => simp
  | cons m ms ih =>
    rw [List.foldl_cons, ih]
    simp only [mergeDetails, Option.getD_some, mem_newSet, List.mem_append, List.mem_cons,
      exists_eq_or_imp]
    tauto

theorem nodup_votes_foldl_mergeDetails (ms : List Proposal) (p : Proposal)
    (h : ms ≠ [] ∨ (p.votes.getD []).Nodup) :
    ((ms.foldl mergeDetails p).votes.getD []).Nodup := by
  induction ms generalizing p with
  | nil =>
    rcases h with h | h
    · exact absurd rfl h
    · exact h
  | cons m ms ih =>
    rw [List.foldl_cons]
    apply ih
    right
    simp only [mergeDetails, Option.getD_some]
    exact nodup_newSet _

/-! ## Properties of `performSmartMerge` -/

/-- C6. Slot approval authority: for a key present in the local and in the
server dictionary, the local slot's `approved` after `performSmartMerge` is the
server slot's `approved`, whatever it was before. -/
theorem slot_approved_from_server (L R : Slots) (key : String) (l s : Slot)
    (hl : objGet L key = some l) (hs : objGet R key = some s) :
    ∃ m, objGet (performSmartMerge L R) key = some m ∧ m.approved = s.approved := by
  refine ⟨mergeSlot l s, ?_, rfl⟩
  rw [objGet_performSmartMerge, hl, hs]
  rfl

theorem slot_approved_from_server_witness :
    objGet [("2025-12-24_abendessen", (⟨"2025-12-24", "Abendessen", some false, some []⟩ : Slot))]
        "2025-12-24_abendessen" = some ⟨"2025-12-24", "Abendessen", some false, some []⟩ ∧
    ∃ m, objGet (performSmartMerge
        [("2025-12-24_abendessen", ⟨"2025-12-24", "Abendessen", some false, some []⟩)]
        [("2025-12-24_abendessen", ⟨"2025-12-24", "Abendessen", some true, some []⟩)])
        "2025-12-24_abendessen" = some m ∧ m.approved = some true :=
  ⟨by decide,
   slot_approved_from_server _ _ "2025-12-24_abendessen"
    ⟨"2025-12-24", "Abendessen", some false, some []⟩
    ⟨"2025-12-24", "Abendessen", some true, some []⟩ (by decide) (by decide)⟩

/-- C2. No local-creation loss: a proposal of a local slot whose id no proposal
of the server slot with the same key has (in particular when the server has no
slot with this key) is, unchanged in every field, still a proposal of that slot
after `performSmartMerge`. -/
theorem local_proposal_kept (L R : Slots) (key : String) (l : Slot) (p : Proposal)
    (hl : objGet L key = some l) (hp : p ∈ l.proposals.getD [])
    (hR : ∀ s, objGet R key = some s → ∀ q ∈ s.proposals.getD [], q.id ≠ p.id) :
    ∃ m, objGet (performSmartMerge L R) key = some m ∧ p ∈ m.proposals.getD [] := by
  rw [objGet_performSmartMerge, hl]
  cases hs : objGet R key with
  | none => exact ⟨l, rfl, hp⟩
  | some s =>
    refine ⟨mergeSlot l s, rfl, ?_⟩
    simp only [mergeSlot, Option.getD_some]
    rw [mergeProposals_eq, List.mem_append]
    left
    obtain ⟨j, hj⟩ := List.getElem?_of_mem hp
    apply List.getElem?_mem (n := j)
    rw [getElem?_updLocal, hj]
    simp only [Option.map_some', Option.some.injEq]
    have hnil : (s.proposals.getD []).filter
        (fun q => decide (localMapGet (l.proposals.getD []) q.id = some j)) = [] := by
      rw [List.filter_eq_nil_iff]
      intro q hq hdec
      have hm := of_decide_eq_true hdec
      obtain ⟨p', hp', hid⟩ := localMapGet_some _ _ _ hm
      rw [hj] at hp'
      cases hp'
      exact hR s hs q hq hid.symm
    rw [hnil]
    rfl

theorem local_proposal_kept_witness :
    ∃ m, objGet (performSmartMerge
        [("2025-12-24_abendessen",
          ⟨"2025-12-24", "Abendessen", none, some [exLocal, exLocalOnly]⟩)]
        [("2025-12-24_abendessen",
          ⟨"2025-12-24", "Abendessen", some true, some [exServer]⟩)])
        "2025-12-24_abendessen" = some m ∧ exLocalOnly ∈ m.proposals.getD [] :=
  local_proposal_kept _ _ "2025-12-24_abendessen"
    ⟨"2025-12-24", "Abendessen", none, some [exLocal, exLocalOnly]⟩ exLocalOnly
    (by decide) (by decide) (by decide)

/-- C8. Remote adoption: a key of the server dictionary that is missing locally
maps to the server slot after `performSmartMerge`; for a key present on both
sides the merged proposal list is the local proposals (same ids, same order)
followed by exactly the server proposals whose id no local proposal had, in
server order; so every server proposal id is an id of the merged slot. -/
theorem remote_adoption (L R : Slots) (key : String) (s : Slot)
    (hs : objGet R key = some s) :
    (objGet L key = none → objGet (performSmartMerge L R) key = some s) ∧
    (∀ l, objGet L key = some l →
      ∃ m pre, objGet (performSmartMerge L R) key = some m ∧
        m.proposals = some (pre ++ (s.proposals.getD []).filter
          (fun q => decide (q.id ∉ (l.proposals.getD []).map (fun p => p.id)))) ∧
        pre.map (fun p => p.id) = (l.proposals.getD []).map (fun p => p.id) ∧
        ∀ q ∈ s.proposals.getD [], q.id ∈ (m.proposals.getD []).map (fun p => p.id)) := by
  constructor
  · intro hl
    rw [objGet_performSmartMerge, hl, hs]
    rfl
  · intro l hl
    have hm : (mergeSlot l s).proposals =
        some (updLocal (l.proposals.getD []) (s.proposals.getD []) ++
          (s.proposals.getD []).filter
            (fun q => decide (q.id ∉ (l.proposals.getD []).map (fun p => p.id)))) := by
      simp only [mergeSlot]
      rw [mergeProposals_eq]
      rfl
    refine ⟨mergeSlot l s, updLocal (l.proposals.getD []) (s.proposals.getD []), ?_, hm,
      map_id_updLocal _ _, ?_⟩
    · rw [objGet_performSmartMerge, hl, hs]
      rfl
    · intro q hq
      rw [hm, Option.getD_some, List.map_append, List.mem_append, map_id_updLocal]
      by_cases h : q.id ∈ (l.proposals.getD []).map (fun p => p.id)
      · exact Or.inl h
      · right
        exact List.mem_map.2 ⟨q, List.mem_filter.2 ⟨hq, decide_eq_true h⟩, rfl⟩

theorem remote_adoption_witness :
    (objGet [("2025-12-25_dessert", (⟨"2025-12-25", "Dessert", none, some [exLocalOnly]⟩ : Slot))]
        "2025-12-24_abendessen" = none →
      objGet (performSmartMerge
        [("2025-12-25_dessert", ⟨"2025-12-25", "Dessert", none, some [exLocalOnly]⟩)]
        [("2025-12-24_abendessen", ⟨"2025-12-24", "Abendessen", some true, some [exServer]⟩)])
        "2025-12-24_abendessen" =
        some ⟨"2025-12-24", "Abendessen", some true, some [exServer]⟩) ∧
    (∀ l, objGet [("2025-12-25_dessert",
          (⟨"2025-12-25", "Dessert", none, some [exLocalOnly]⟩ : Slot))]
        "2025-12-24_abendessen" = some l →
      ∃ m pre, objGet (performSmartMerge
        [("2025-12-25_dessert", ⟨"2025-12-25", "Dessert", none, some [exLocalOnly]⟩)]
        [("2025-12-24_abendessen", ⟨"2025-12-24", "Abendessen", some true, some [exServer]⟩)])
        "2025-12-24_abendessen" = some m ∧
        m.proposals = some (pre ++ (Option.getD (some [exServer]) []).filter
          (fun q => decide (q.id ∉ (l.proposals.getD []).map (fun p => p.id)))) ∧
        pre.map (fun p => p.id) = (l.proposals.getD []).map (fun p => p.id) ∧
        ∀ q ∈ Option.getD (some [exServer]) [],
          q.id ∈ (m.proposals.getD []).map (fun p => p.id)) :=
  remote_adoption
    [("2025-12-25_dessert", ⟨"2025-12-25", "Dessert", none, some [exLocalOnly]⟩)]
    [("2025-12-24_abendessen", ⟨"2025-12-24", "Abendessen", some true, some [exServer]⟩)]
    "2025-12-24_abendessen" ⟨"2025-12-24", "Abendessen", some true, some [exServer]⟩
    (by decide)

/-- C4. Vote union: for a key present on both sides, a local proposal `p`
(local ids pairwise distinct) whose id a server proposal of the slot has: after
`performSmartMerge` the slot has exactly one proposal with this id, and its
votes are, each once, exactly the local votes and the votes of the server
proposals with this id. -/
theorem vote_union (L R : Slots) (key : String) (l s : Slot) (p : Proposal)
    (hl : objGet L key = some l) (hs : objGet R key = some s)
    (hnd : ((l.proposals.getD []).map (fun p => p.id)).Nodup)
    (hp : p ∈ l.proposals.getD [])
    (hex : ∃ sp ∈ s.proposals.getD [], sp.id = p.id) :
    ∃ m q, objGet (performSmartMerge L R) key = some m ∧
      q ∈ m.proposals.getD [] ∧ q.id = p.id ∧
      (∀ q' ∈ m.proposals.getD [], q'.id = p.id → q' = q) ∧
      (q.votes.getD []).Nodup ∧
      ∀ v, v ∈ q.votes.getD [] ↔
        (v ∈ p.votes.getD [] ∨
          ∃ sp ∈ s.proposals.getD [], sp.id = p.id ∧ v ∈ sp.votes.getD []) := by
  refine ⟨mergeSlot l s,
    ((s.proposals.getD []).filter (fun s => decide (s.id = p.id))).foldl mergeDetails p,
    ?_, ?_, ?_, ?_, ?_, ?_⟩
  · rw [objGet_performSmartMerge, hl, hs]
    rfl
  · simp only [mergeSlot, Option.getD_some]
    exact merged_mem _ _ p hnd hp
  · exact foldl_mergeDetails_id _ _
  · intro q' hq' hid
    simp only [mergeSlot, Option.getD_some] at hq'
    exact merged_of_id _ _ p q' hnd hp hq' hid
  · apply nodup_votes_foldl_mergeDetails
    left
    obtain ⟨sp, hsp, hid⟩ := hex
    intro hnil
    have hmem : sp ∈ (s.proposals.getD []).filter (fun s => decide (s.id = p.id)) :=
      List.mem_filter.2 ⟨hsp, decide_eq_true hid⟩
    rw [hnil] at hmem
    cases hmem
  · intro v
    rw [mem_votes_foldl_mergeDetails]
    constructor
    · rintro (h | ⟨sp, hsp, hv⟩)
      · exact Or.inl h
      · rw [List.mem_filter] at hsp
        exact Or.inr ⟨sp, hsp.1, of_decide_eq_true hsp.2, hv⟩
    · rintro (h | ⟨sp, hsp, hid, hv⟩)
      · exact Or.inl h
      · exact Or.inr ⟨sp, List.mem_filter.2 ⟨hsp, decide_eq_true hid⟩, hv⟩

theorem vote_union_witness :
    ∃ m q, objGet (performSmartMerge
        [("2025-12-24_abendessen",
          ⟨"2025-12-24", "Abendessen", none, some [exLocal, exLocalOnly]⟩)]
        [("2025-12-24_abendessen",
          ⟨"2025-12-24", "Abendessen", some true, some [exServer]⟩)])
        "2025-12-24_abendessen" = some m ∧
      q ∈ m.proposals.getD [] ∧ q.id = exLocal.id ∧
      (∀ q' ∈ m.proposals.getD [], q'.id = exLocal.id → q' = q) ∧
      (q.votes.getD []).Nodup ∧
      ∀ v, v ∈ q.votes.getD [] ↔
        (v ∈ Option.getD (some ["A", "B"]) [] ∨
          ∃ sp ∈ Option.getD (some [exServer]) [],
            sp.id = exLocal.id ∧ v ∈ sp.votes.getD []) :=
  vote_union _ _ "2025-12-24_abendessen"
    ⟨"2025-12-24", "Abendessen", none, some [exLocal, exLocalOnly]⟩
    ⟨"2025-12-24", "Abendessen", some true, some [exServer]⟩ exLocal
    (by decide) (by decide) (by decide) (by decide) ⟨exServer, by decide, by decide⟩

theorem adoptedIfEmpty_ite {α : Type} (truthy : α → Bool) (a b : α) :
    AdoptedIfEmpty truthy a b (if (truthy b && !truthy a) = true then b else a) := by
  unfold AdoptedIfEmpty
  cases ha : truthy a <;> cases hb : truthy b <;> simp

/-- C7. Recipe-field adoption: for a key present on both sides and a proposal
id that one local and one server proposal of the slot have (ids pairwise
distinct on each side), the proposal with this id after `performSmartMerge` has,
in each of `recipeUrl`, `ingredients`, `instructions` and `calories`, the local
value when that was non-empty, the server value when the local value was absent
or empty and the server value is non-empty, and the local value otherwise. -/
theorem recipe_field_adoption (L R : Slots) (key : String) (l s : Slot) (p sp : Proposal)
    (hl : objGet L key = some l) (hs : objGet R key = some s)
    (hnd : ((l.proposals.getD []).map (fun p => p.id)).Nodup)
    (hnds : ((s.proposals.getD []).map (fun p => p.id)).Nodup)
    (hp : p ∈ l.proposals.getD []) (hsp : sp ∈ s.proposals.getD []) (hid : sp.id = p.id) :
    ∃ m q, objGet (performSmartMerge L R) key = some m ∧
      q ∈ m.proposals.getD [] ∧ q.id = p.id ∧
      (∀ q' ∈ m.proposals.getD [], q'.id = p.id → q' = q) ∧
      AdoptedIfEmpty truthyStr p.recipeUrl sp.recipeUrl q.recipeUrl ∧
      AdoptedIfEmpty truthyLen p.ingredients sp.ingredients q.ingredients ∧
      AdoptedIfEmpty truthyLen p.instructions sp.instructions q.instructions ∧
      AdoptedIfEmpty truthyNum p.calories sp.calories q.calories := by
  have hfilter : (s.proposals.getD []).filter (fun s => decide (s.id = p.id)) = [sp] := by
    generalize s.proposals.getD [] = sProps at hnds hsp
    induction sProps with
    | nil => cases hsp
    | cons a rest ih =>
      rw [List.map_cons, List.nodup_cons] at hnds
      rcases List.mem_cons.1 hsp with h | h
      · subst h
        have hrest : rest.filter (fun s => decide (s.id = p.id)) = [] := by
          rw [List.filter_eq_nil_iff]
          intro b hb hdec
          apply hnds.1
          rw [hid, ← of_decide_eq_true hdec]
          exact List.mem_map.2 ⟨b, hb, rfl⟩
        simp [List.filter_cons, hid, hrest]
      · have ha : ¬ a.id = p.id := by
          intro e
          apply hnds.1
          rw [e, ← hid]
          exact List.mem_map.2 ⟨sp, h, rfl⟩
        simp [List.filter_cons, ha, ih hnds.2 h]
  refine ⟨mergeSlot l s, mergeDetails p sp, ?_, ?_, rfl, ?_, ?_, ?_, ?_, ?_⟩
  · rw [objGet_performSmartMerge, hl, hs]
    rfl
  · have := merged_mem (l.proposals.getD []) (s.proposals.getD []) p hnd hp
    rw [hfilter] at this
    simpa only [mergeSlot, Option.getD_some] using this
  · intro q' hq' hid'
    simp only [mergeSlot, Option.getD_some] at hq'
    have := merged_of_id _ _ p q' hnd hp hq' hid'
    rw [hfilter] at this
    exact this
  · exact adoptedIfEmpty_ite truthyStr p.recipeUrl sp.recipeUrl
  · exact adoptedIfEmpty_ite truthyLen p.ingredients sp.ingredients
  · exact adoptedIfEmpty_ite truthyLen p.instructions sp.instructions
  · exact adoptedIfEmpty_ite truthyNum p.calories sp.calories

theorem recipe_field_adoption_witness :
    ∃ m q, objGet (performSmartMerge
        [("2025-12-24_abendessen",
          ⟨"2025-12-24", "Abendessen", none, some [exLocal, exLocalOnly]⟩)]
        [("2025-12-24_abendessen",
          ⟨"2025-12-24", "Abendessen", some true, some [exServer]⟩)])
        "2025-12-24_abendessen" = some m ∧
      q ∈ m.proposals.getD [] ∧ q.id = exLocal.id ∧
      (∀ q' ∈ m.proposals.getD [], q'.id = exLocal.id → q' = q) ∧
      AdoptedIfEmpty truthyStr exLocal.recipeUrl exServer.recipeUrl q.recipeUrl ∧
      AdoptedIfEmpty truthyLen exLocal.ingredients exServer.ingredients q.ingredients ∧
      AdoptedIfEmpty truthyLen exLocal.instructions exServer.instructions q.instructions ∧
      AdoptedIfEmpty truthyNum exLocal.calories exServer.calories q.calories :=
  recipe_field_adoption _ _ "2025-12-24_abendessen"
    ⟨"2025-12-24", "Abendessen", none, some [exLocal, exLocalOnly]⟩
    ⟨"2025-12-24", "Abendessen", some true, some [exServer]⟩ exLocal exServer
    (by decide) (by decide) (by decide) (by decide) (by decide) (by decide) (by decide)

/-- C5, at a concrete input. The server marks proposal `p1` approved, the local
copy is not approved: after `performSmartMerge` the slot is approved and the
local proposal is still not approved. -/
theorem proposal_approved_not_overwritten :
    performSmartMerge
      [("2025-12-24_abendessen", ⟨"2025-12-24", "Abendessen", some false, some [exLocal]⟩)]
      [("2025-12-24_abendessen", ⟨"2025-12-24", "Abendessen", some true, some [exServer]⟩)]
    = [("2025-12-24_abendessen", ⟨"2025-12-24", "Abendessen", some true,
        some [⟨some "p1", "Gans", "Eltern", some ["A", "B", "C"], some false,
          some "https://r/gans", some ["1 Gans"], some ["Braten"], some 900⟩]⟩)] := by
  decide

/-! ## Properties of `performSmartMergeGroceries` -/

theorem groceryStep_of_mem (st : List GroceryItem × List String) (r : GroceryItem)
    (h : displayText r ∈ st.2) : groceryStep st r = st := by
  simp only [groceryStep, h, if_true]

theorem groceryStep_of_not_mem (st : List GroceryItem × List String) (r : GroceryItem)
    (h : displayText r ∉ st.2) :
    groceryStep st r = (st.1 ++ [r], setAdd st.2 (displayText r)) := by
  simp only [groceryStep, h, if_false]

theorem mem_snd_foldl_groceryStep (R : List GroceryItem)
    (st : List GroceryItem × List String) (x : String) :
    x ∈ (R.foldl groceryStep st).2 ↔ x ∈ st.2 ∨ x ∈ R.map displayText := by
  induction R generalizing st with
  | nil => simp
  | cons r R ih =>
    rw [List.foldl_cons, ih]
    unfold groceryStep
    by_cases h : displayText r ∈ st.2
    · simp only [h, if_true, List.map_cons, List.mem_cons]
      constructor
      · rintro (h1 | h1)
        · exact Or.inl h1
        · exact Or.inr (Or.inr h1)
      · rintro (h1 | h1 | h1)
        · exact Or.inl h1
        · exact Or.inl (h1 ▸ h)
        · exact Or.inr h1
    · simp only [h, if_false, mem_setAdd, List.map_cons, List.mem_cons]
      tauto

theorem foldl_groceryStep_extends (R : List GroceryItem)
    (st : List GroceryItem × List String) :
    ∃ app, (R.foldl groceryStep st).1 = st.1 ++ app := by
  induction R generalizing st with
  | nil => exact ⟨[], by simp⟩
  | cons r R ih =>
    rw [List.foldl_cons]
    obtain ⟨app, happ⟩ := ih (groceryStep st r)
    unfold groceryStep at happ ⊢
    by_cases h : displayText r ∈ st.2
    · simp only [h, if_true] at happ ⊢
      exact ⟨app, happ⟩
    · simp only [h, if_false] at happ ⊢
      exact ⟨r :: app, by rw [happ]; simp⟩

theorem countP_foldl_groceryStep (R : List GroceryItem) (l : List GroceryItem)
    (st : List String) (t : String)
    (hinv : ∀ x, x ∈ st ↔ x ∈ l.map displayText) :
    (R.foldl groceryStep (l, st)).1.countP (fun i => decide (displayText i = t)) =
      if t ∈ l.map displayText then l.countP (fun i => decide (displayText i = t))
      else if t ∈ R.map displayText then 1 else 0 := by
  induction R generalizing l st with
  | nil =>
    simp only [List.foldl_nil, List.map_nil, List.not_mem_nil, if_false]
    split
    · rfl
    · rename_i h
      rw [List.countP_eq_zero]
      intro i hi hdec
      exact h (List.mem_map.2 ⟨i, hi, of_decide_eq_true hdec⟩)
  | cons r R ih =>
    rw [List.foldl_cons]
    by_cases h : displayText r ∈ st
    · have hl : displayText r ∈ l.map displayText := (hinv _).1 h
      rw [groceryStep_of_mem (l, st) r h]
      rw [ih l st hinv]
      by_cases ht : t ∈ l.map displayText
      · simp [ht]
      · have hne : ¬ t = displayText r := fun e => ht (e ▸ hl)
        simp only [ht, if_false, List.map_cons, List.mem_cons, hne, false_or]
    · have hl : displayText r ∉ l.map displayText := fun e => h ((hinv _).2 e)
      rw [groceryStep_of_not_mem (l, st) r h]
      have hinv2 : ∀ x, x ∈ setAdd st (displayText r) ↔ x ∈ (l ++ [r]).map displayText := by
        intro x
        rw [mem_setAdd, hinv]
        simp
      rw [ih (l ++ [r]) _ hinv2]
      by_cases ht : t ∈ l.map displayText
      · have hne : ¬ displayText r = t := fun e => hl (e ▸ ht)
        have hmem : t ∈ (l ++ [r]).map displayText := by
          rw [List.map_append, List.mem_append]; exact Or.inl ht
        simp only [hmem, ht, if_true, List.countP_append, List.countP_cons, List.countP_nil,
          hne, decide_False, Bool.false_eq_true, if_false, Nat.add_zero]
      · have hzero : l.countP (fun i => decide (displayText i = t)) = 0 := by
          rw [List.countP_eq_zero]
          intro i hi hdec
          exact ht (List.mem_map.2 ⟨i, hi, of_decide_eq_true hdec⟩)
        by_cases hr : displayText r = t
        · have hmem : t ∈ (l ++ [r]).map displayText := by
            rw [List.map_append, List.mem_append]; right; simp [hr]
          simp only [hmem, ht, if_true, if_false, List.countP_append, List.countP_cons,
            List.countP_nil, hr, decide_True, hzero, List.map_cons, List.mem_cons, true_or]
        · have hr' : ¬ t = displayText r := fun e => hr e.symm
          have hmem : t ∉ (l ++ [r]).map displayText := by
            rw [List.map_append, List.mem_append]
            rintro (h1 | h1)
            · exact ht h1
            · simp at h1; exact hr' h1
          simp only [hmem, ht, if_false, List.map_cons, List.mem_cons, hr', false_or]

/-- C9. Grocery dedup: after `performSmartMergeGroceries(L, R)` the local list
still starts with `L`, and the number of items with display text `t` is the
number in `L` when `t` occurs in `L`, else 1 when `t` occurs in `R`, else 0. -/
theorem grocery_dedup (L R : List GroceryItem) (t : String) :
    (∃ app, performSmartMergeGroceries L R = L ++ app) ∧
    (performSmartMergeGroceries L R).countP (fun i => decide (displayText i = t)) =
      if t ∈ L.map displayText then L.countP (fun i => decide (displayText i = t))
      else if t ∈ R.map displayText then 1 else 0 :=
  ⟨foldl_groceryStep_extends R _,
   countP_foldl_groceryStep R L _ t (fun x => mem_newSet _ x)⟩

/-- C10, at a concrete input. The local list holds the placeholder of proposal
`p1`, the server list the placeholder of proposal `p2` with the same dish name
and so the same text: no local placeholder has the `proposalId` of the server's,
and yet `performSmartMergeGroceries` does not add it. -/
theorem placeholder_dropped_by_text :
    (∀ q, GroceryItem.obj q ∈ [GroceryItem.obj exPlaceholderLocal] →
      q.proposalId ≠ exPlaceholderServer.proposalId) ∧
    performSmartMergeGroceries [GroceryItem.obj exPlaceholderLocal]
      [GroceryItem.obj exPlaceholderServer] = [GroceryItem.obj exPlaceholderLocal] := by
  constructor
  · intro q hq
    simp only [List.mem_singleton, GroceryItem.obj.injEq] at hq
    subst hq
    decide
  · decide

theorem performSmartMergeGroceries_snoc (L R1 : List GroceryItem) (x : GroceryItem) :
    performSmartMergeGroceries L (R1 ++ [x]) =
      if displayText x ∈ (L ++ R1).map displayText then performSmartMergeGroceries L R1
      else performSmartMergeGroceries L R1 ++ [x] := by
  unfold performSmartMergeGroceries
  rw [List.foldl_append, List.foldl_cons, List.foldl_nil]
  have hmem : displayText x ∈
      (R1.foldl groceryStep (L, newSet (L.map displayText))).2 ↔
      displayText x ∈ (L ++ R1).map displayText := by
    rw [mem_snd_foldl_groceryStep, mem_newSet, List.map_append, List.mem_append]
  by_cases h : displayText x ∈ (L ++ R1).map displayText
  · rw [groceryStep_of_mem _ x (hmem.2 h), if_pos h]
  · rw [groceryStep_of_not_mem _ x (fun e => h (hmem.1 e)), if_neg h]

/-! ## Merging the same server snapshot again -/

theorem localMapGet_congr (l1 l2 : List Proposal)
    (h : l1.map (fun p => p.id) = l2.map (fun p => p.id)) (id : Option String) :
    localMapGet l1 id = localMapGet l2 id := by
  induction l1 generalizing l2 with
  | nil =>
    cases l2 with
    | nil => rfl
    | cons b l2 => simp at h
  | cons a l1 ih =>
    cases l2 with
    | nil => simp at h
    | cons b l2 =>
      simp only [List.map_cons, List.cons.injEq] at h
      simp only [localMapGet, ih l2 h.2, h.1]

theorem localMapGet_append_of_not_mem (U A : List Proposal) (id : Option String)
    (h : id ∉ A.map (fun p => p.id)) : localMapGet (U ++ A) id = localMapGet U id := by
  induction U with
  | nil =>
    simp only [List.nil_append, localMapGet]
    exact (localMapGet_eq_none_iff A id).2 h
  | cons a U ih =>
    rw [List.cons_append]
    unfold localMapGet
    rw [ih]

theorem mergeDetails_eq_self (q s : Proposal) (vs : List String)
    (hv : q.votes = some vs) (hnd : vs.Nodup) (hsub : ∀ x ∈ s.votes.getD [], x ∈ vs)
    (h1 : truthyStr s.recipeUrl = true → truthyStr q.recipeUrl = true)
    (h2 : truthyLen s.ingredients = true → truthyLen q.ingredients = true)
    (h3 : truthyLen s.instructions = true → truthyLen q.instructions = true)
    (h4 : truthyNum s.calories = true → truthyNum q.calories = true) :
    mergeDetails q s = q := by
  have e0 : newSet (q.votes.getD [] ++ s.votes.getD []) = vs := by
    rw [hv, Option.getD_some]
    exact newSet_append_of_subset vs _ hnd hsub
  have e1 : (if (truthyStr s.recipeUrl && !truthyStr q.recipeUrl) = true then s.recipeUrl
      else q.recipeUrl) = q.recipeUrl := by
    cases hs : truthyStr s.recipeUrl
    · simp
    · simp [h1 hs]
  have e2 : (if (truthyLen s.ingredients && !truthyLen q.ingredients) = true then s.ingredients
      else q.ingredients) = q.ingredients := by
    cases hs : truthyLen s.ingredients
    · simp
    · simp [h2 hs]
  have e3 : (if (truthyLen s.instructions && !truthyLen q.instructions) = true
      then s.instructions else q.instructions) = q.instructions := by
    cases hs : truthyLen s.instructions
    · simp
    · simp [h3 hs]
  have e4 : (if (truthyNum s.calories && !truthyNum q.calories) = true then s.calories
      else q.calories) = q.calories := by
    cases hs : truthyNum s.calories
    · simp
    · simp [h4 hs]
  unfold mergeDetails
  rw [e0, e1, e2, e3, e4, ← hv]

theorem mergeDetails_self (q : Proposal) (vs : List String)
    (hv : q.votes = some vs) (hnd : vs.Nodup) : mergeDetails q q = q :=
  mergeDetails_eq_self q q vs hv hnd (by rw [hv]; exact fun x hx => hx)
    (fun h => h) (fun h => h) (fun h => h) (fun h => h)

/-- The four recipe fields only grow: a truthy field stays truthy through later
matches, and a truthy server field makes the merged field truthy. -/
theorem truthy_mergeDetails (p m : Proposal) :
    ((truthyStr p.recipeUrl = true ∨ truthyStr m.recipeUrl = true) →
      truthyStr (mergeDetails p m).recipeUrl = true) ∧
    ((truthyLen p.ingredients = true ∨ truthyLen m.ingredients = true) →
      truthyLen (mergeDetails p m).ingredients = true) ∧
    ((truthyLen p.instructions = true ∨ truthyLen m.instructions = true) →
      truthyLen (mergeDetails p m).instructions = true) ∧
    ((truthyNum p.calories = true ∨ truthyNum m.calories = true) →
      truthyNum (mergeDetails p m).calories = true) := by
  simp only [mergeDetails]
  refine ⟨?_, ?_, ?_, ?_⟩
  · cases hp : truthyStr p.recipeUrl <;> cases hm : truthyStr m.recipeUrl <;> simp [hp, hm]
  · cases hp : truthyLen p.ingredients <;> cases hm : truthyLen m.ingredients <;> simp [hp, hm]
  · cases hp : truthyLen p.instructions <;> cases hm : truthyLen m.instructions <;>
      simp [hp, hm]
  · cases hp : truthyNum p.calories <;> cases hm : truthyNum m.calories <;> simp [hp, hm]

theorem truthy_foldl_mergeDetails (ms : List Proposal) (p : Proposal) :
    ((truthyStr p.recipeUrl = true ∨ ∃ m ∈ ms, truthyStr m.recipeUrl = true) →
      truthyStr (ms.foldl mergeDetails p).recipeUrl = true) ∧
    ((truthyLen p.ingredients = true ∨ ∃ m ∈ ms, truthyLen m.ingredients = true) →
      truthyLen (ms.foldl mergeDetails p).ingredients = true) ∧
    ((truthyLen p.instructions = true ∨ ∃ m ∈ ms, truthyLen m.instructions = true) →
      truthyLen (ms.foldl mergeDetails p).instructions = true) ∧
    ((truthyNum p.calories = true ∨ ∃ m ∈ ms, truthyNum m.calories = true) →
      truthyNum (ms.foldl mergeDetails p).calories = true) := by
  induction ms generalizing p with
  | nil => simp
  | cons a ms ih =>
    rw [List.foldl_cons]
    obtain ⟨i1, i2, i3, i4⟩ := ih (mergeDetails p a)
    obtain ⟨t1, t2, t3, t4⟩ := truthy_mergeDetails p a
    refine ⟨?_, ?_, ?_, ?_⟩
    · rintro (h | ⟨m, hm, h⟩)
      · exact i1 (Or.inl (t1 (Or.inl h)))
      · rcases List.mem_cons.1 hm with e | hm'
        · exact i1 (Or.inl (t1 (Or.inr (e ▸ h))))
        · exact i1 (Or.inr ⟨m, hm', h⟩)
    · rintro (h | ⟨m, hm, h⟩)
      · exact i2 (Or.inl (t2 (Or.inl h)))
      · rcases List.mem_cons.1 hm with e | hm'
        · exact i2 (Or.inl (t2 (Or.inr (e ▸ h))))
        · exact i2 (Or.inr ⟨m, hm', h⟩)
    · rintro (h | ⟨m, hm, h⟩)
      · exact i3 (Or.inl (t3 (Or.inl h)))
      · rcases List.mem_cons.1 hm with e | hm'
        · exact i3 (Or.inl (t3 (Or.inr (e ▸ h))))
        · exact i3 (Or.inr ⟨m, hm', h⟩)
    · rintro (h | ⟨m, hm, h⟩)
      · exact i4 (Or.inl (t4 (Or.inl h)))
      · rcases List.mem_cons.1 hm with e | hm'
        · exact i4 (Or.inl (t4 (Or.inr (e ▸ h))))
        · exact i4 (Or.inr ⟨m, hm', h⟩)

theorem votes_isSome_foldl_mergeDetails (ms : List Proposal) (p : Proposal)
    (h : ms ≠ []) :
    (ms.foldl mergeDetails p).votes = some ((ms.foldl mergeDetails p).votes.getD []) := by
  induction ms generalizing p with
  | nil => exact absurd rfl h
  | cons a ms ih =>
    rw [List.foldl_cons]
    cases ms with
    | nil => rfl
    | cons b ms => exact ih _ (by simp)

/-- A server proposal that was already merged into a local proposal changes
nothing when it is merged into it again. -/
theorem mergeDetails_absorbed (ms : List Proposal) (p s : Proposal) (hs : s ∈ ms) :
    mergeDetails (ms.foldl mergeDetails p) s = ms.foldl mergeDetails p := by
  have hne : ms ≠ [] := fun e => by rw [e] at hs; cases hs
  obtain ⟨t1, t2, t3, t4⟩ := truthy_foldl_mergeDetails ms p
  exact mergeDetails_eq_self _ s _ (votes_isSome_foldl_mergeDetails ms p hne)
    (nodup_votes_foldl_mergeDetails ms p (Or.inl hne))
    (fun x hx => (mem_votes_foldl_mergeDetails ms p x).2 (Or.inr ⟨s, hs, hx⟩))
    (fun h => t1 (Or.inr ⟨s, hs, h⟩)) (fun h => t2 (Or.inr ⟨s, hs, h⟩))
    (fun h => t3 (Or.inr ⟨s, hs, h⟩)) (fun h => t4 (Or.inr ⟨s, hs, h⟩))

theorem foldl_mergeDetails_fixed (ms : List Proposal) (q : Proposal)
    (h : ∀ s ∈ ms, mergeDetails q s = q) : ms.foldl mergeDetails q = q := by
  induction ms with
  | nil => rfl
  | cons a ms ih =>
    rw [List.foldl_cons, h a (List.mem_cons_self _ _)]
    exact ih (fun s hs => h s (List.mem_cons_of_mem _ hs))

theorem mem_appended (lProps sProps : List Proposal) (q : Proposal) :
    q ∈ appended lProps sProps ↔ q ∈ sProps ∧ q.id ∉ lProps.map (fun p => p.id) := by
  unfold appended
  rw [List.mem_filter]
  simp

theorem id_mem_of_mem_updLocal (lProps sProps : List Proposal) (q : Proposal)
    (h : q ∈ updLocal lProps sProps) : q.id ∈ lProps.map (fun p => p.id) := by
  rw [← map_id_updLocal lProps sProps]
  exact List.mem_map.2 ⟨q, h, rfl⟩

theorem VotesWF.votes_eq {p : Proposal} (h : VotesWF p) :
    ∃ vs, p.votes = some vs ∧ vs.Nodup := by
  unfold VotesWF at h
  cases hv : p.votes with
  | none => rw [hv] at h; exact h.elim
  | some vs => rw [hv] at h; exact ⟨vs, rfl, h⟩

theorem mergeProposals_idem (lProps sProps : List Proposal) (hwf : ProposalsWF sProps) :
    mergeProposals (mergeProposals lProps sProps) sProps = mergeProposals lProps sProps := by
  obtain ⟨hnd, hv⟩ := hwf
  have hP : mergeProposals lProps sProps =
      updLocal lProps sProps ++ appended lProps sProps := mergeProposals_eq lProps sProps
  rw [mergeProposals_eq (mergeProposals lProps sProps) sProps]
  have hA : appended (mergeProposals lProps sProps) sProps = [] := by
    unfold appended
    rw [List.filter_eq_nil_iff]
    intro s hs hdec
    apply of_decide_eq_true hdec
    rw [hP, List.map_append, List.mem_append, map_id_updLocal]
    by_cases h : s.id ∈ lProps.map (fun p => p.id)
    · exact Or.inl h
    · exact Or.inr (List.mem_map.2 ⟨s, (mem_appended _ _ _).2 ⟨hs, h⟩, rfl⟩)
  rw [hA, List.append_nil]
  apply List.ext_getElem?
  intro j
  rw [getElem?_updLocal]
  cases hq : (mergeProposals lProps sProps)[j]? with
  | none => rfl
  | some q =>
    simp only [Option.map_some', Option.some.injEq]
    apply foldl_mergeDetails_fixed
    intro s hs
    rw [List.mem_filter] at hs
    obtain ⟨hs, hdec⟩ := hs
    have hm : localMapGet (mergeProposals lProps sProps) s.id = some j :=
      of_decide_eq_true hdec
    by_cases hin : s.id ∈ lProps.map (fun p => p.id)
    · have hnotA : s.id ∉ (appended lProps sProps).map (fun p => p.id) := by
        intro hmem
        obtain ⟨a, ha, hid⟩ := List.mem_map.1 hmem
        exact ((mem_appended _ _ _).1 ha).2 (hid ▸ hin)
      have hm2 : localMapGet lProps s.id = some j := by
        rw [← hm, hP, localMapGet_append_of_not_mem _ _ _ hnotA]
        exact (localMapGet_congr _ _ (map_id_updLocal lProps sProps) s.id).symm
      have hj : j < (updLocal lProps sProps).length := by
        rw [length_updLocal]
        exact localMapGet_lt _ _ _ hm2
      have hq2 : (updLocal lProps sProps)[j]? = some q := by
        rw [← hq, hP, List.getElem?_append_left hj]
      rw [getElem?_updLocal] at hq2
      cases hl : lProps[j]? with
      | none => rw [hl] at hq2; cases hq2
      | some p0 =>
        rw [hl] at hq2
        simp only [Option.map_some', Option.some.injEq] at hq2
        rw [← hq2]
        apply mergeDetails_absorbed
        exact List.mem_filter.2 ⟨hs, decide_eq_true hm2⟩
    · obtain ⟨q', hq', hid⟩ := localMapGet_some _ _ _ hm
      rw [hq] at hq'
      cases hq'
      have hqmem : q ∈ mergeProposals lProps sProps := List.getElem?_mem hq
      rw [hP, List.mem_append] at hqmem
      rcases hqmem with hU | hAq
      · exact absurd (hid ▸ id_mem_of_mem_updLocal _ _ _ hU) hin
      · have hqs : q ∈ sProps := ((mem_appended _ _ _).1 hAq).1
        have : q = s := List.inj_on_of_nodup_map hnd hqs hs hid
        subst this
        obtain ⟨vs, hvs, hvnd⟩ := (hv q hqs).votes_eq
        exact mergeDetails_self q vs hvs hvnd

theorem SlotWF.proposals_eq {s : Slot} (h : SlotWF s) :
    ∃ ps, s.proposals = some ps ∧ ProposalsWF ps := by
  unfold SlotWF at h
  cases hv : s.proposals with
  | none => rw [hv] at h; exact h.elim
  | some ps => rw [hv] at h; exact ⟨ps, rfl, h⟩

theorem mergeProposals_nil (sProps : List Proposal) : mergeProposals [] sProps = sProps := by
  rw [mergeProposals_eq]
  have h1 : updLocal [] sProps = [] := by
    apply List.eq_nil_of_length_eq_zero
    rw [length_updLocal]
    rfl
  rw [h1]
  unfold appended
  simp

theorem mergeSlot_self (s : Slot) (hwf : SlotWF s) : mergeSlot s s = s := by
  obtain ⟨ps, hps, hwf⟩ := hwf.proposals_eq
  have h := mergeProposals_idem [] ps hwf
  rw [mergeProposals_nil] at h
  unfold mergeSlot
  rw [hps, Option.getD_some, h, ← hps]

theorem mergeSlot_idem (l s : Slot) (hwf : SlotWF s) :
    mergeSlot (mergeSlot l s) s = mergeSlot l s := by
  obtain ⟨ps, hps, hwf⟩ := hwf.proposals_eq
  unfold mergeSlot
  simp only [hps, Option.getD_some]
  rw [mergeProposals_idem _ ps hwf]

theorem mem_of_objGet {β : Type} (o : List (String × β)) (k : String) (v : β)
    (h : objGet o k = some v) : (k, v) ∈ o := by
  induction o with
  | nil => simp [objGet] at h
  | cons e o ih =>
    obtain ⟨k0, w⟩ := e
    unfold objGet at h
    by_cases h0 : k0 = k
    · simp only [h0, if_true, Option.some.injEq] at h
      simp [h0, h]
    · simp only [h0, if_false] at h
      exact List.mem_cons_of_mem _ (ih h)

theorem foldl_mergeKey_fixed (R : Slots) (ks : List String) (M : Slots)
    (h : ∀ k ∈ ks, mergeKey R M k = M) : ks.foldl (mergeKey R) M = M := by
  induction ks with
  | nil => rfl
  | cons k ks ih =>
    rw [List.foldl_cons, h k (List.mem_cons_self _ _)]
    exact ih (fun k' hk' => h k' (List.mem_cons_of_mem _ hk'))

/-- Slots: merging a well-formed server dictionary a second time changes nothing. -/
theorem performSmartMerge_idem (L R : Slots) (hwf : SlotsWF R) :
    performSmartMerge (performSmartMerge L R) R = performSmartMerge L R := by
  have hM := objGet_performSmartMerge L R
  generalize performSmartMerge L R = M at hM ⊢
  unfold performSmartMerge
  apply foldl_mergeKey_fixed
  intro k _
  unfold mergeKey
  cases hs : objGet R k with
  | none => rfl
  | some s =>
    have hk := hM k
    rw [hs] at hk
    cases hl : objGet L k with
    | none =>
      rw [hl] at hk
      simp only [slotAfter] at hk
      rw [hk]
      simp only
      rw [mergeSlot_self s (hwf (k, s) (mem_of_objGet R k s hs))]
      exact objSet_of_objGet M k s hk
    | some l =>
      rw [hl] at hk
      simp only [slotAfter] at hk
      rw [hk]
      simp only
      rw [mergeSlot_idem l s (hwf (k, s) (mem_of_objGet R k s hs))]
      exact objSet_of_objGet M k _ hk

theorem foldl_groceryStep_fixed (R : List GroceryItem)
    (st : List GroceryItem × List String) (h : ∀ r ∈ R, displayText r ∈ st.2) :
    R.foldl groceryStep st = st := by
  induction R with
  | nil => rfl
  | cons r R ih =>
    rw [List.foldl_cons, groceryStep_of_mem st r (h r (List.mem_cons_self _ _))]
    exact ih (fun x hx => h x (List.mem_cons_of_mem _ hx))

theorem inv_foldl_groceryStep (R : List GroceryItem)
    (st : List GroceryItem × List String)
    (hinv : ∀ x, x ∈ st.2 ↔ x ∈ st.1.map displayText) :
    ∀ x, x ∈ (R.foldl groceryStep st).2 ↔ x ∈ (R.foldl groceryStep st).1.map displayText := by
  induction R generalizing st with
  | nil => simpa using hinv
  | cons r R ih =>
    rw [List.foldl_cons]
    apply ih
    by_cases h : displayText r ∈ st.2
    · rw [groceryStep_of_mem st r h]
      exact hinv
    · rw [groceryStep_of_not_mem st r h]
      intro x
      rw [mem_setAdd, hinv]
      simp

theorem mem_texts_performSmartMergeGroceries (L R : List GroceryItem) (t : String) :
    t ∈ (performSmartMergeGroceries L R).map displayText ↔
      t ∈ L.map displayText ∨ t ∈ R.map displayText := by
  unfold performSmartMergeGroceries
  rw [← inv_foldl_groceryStep R _ (fun x => mem_newSet _ x), mem_snd_foldl_groceryStep,
    mem_newSet]

/-- Groceries: merging the same server list a second time appends nothing. -/
theorem performSmartMergeGroceries_idem (L R : List GroceryItem) :
    performSmartMergeGroceries (performSmartMergeGroceries L R) R =
      performSmartMergeGroceries L R := by
  generalize hM : performSmartMergeGroceries L R = M
  unfold performSmartMergeGroceries
  rw [foldl_groceryStep_fixed]
  intro r hr
  rw [mem_newSet, ← hM, mem_texts_performSmartMergeGroceries]
  exact Or.inr (List.mem_map.2 ⟨r, hr, rfl⟩)

/-! ## Properties of `performSmartMergeActivity` -/

theorem activityStep_of_mem (stringify : ActivityEntry → String)
    (st : List ActivityEntry × List String) (r : ActivityEntry)
    (h : activityKey stringify r ∈ st.2) : activityStep stringify st r = st := by
  simp only [activityStep, h, if_true]

theorem activityStep_of_not_mem (stringify : ActivityEntry → String)
    (st : List ActivityEntry × List String) (r : ActivityEntry)
    (h : activityKey stringify r ∉ st.2) :
    activityStep stringify st r =
      (st.1 ++ [r], setAdd st.2 (activityKey stringify r)) := by
  simp only [activityStep, h, if_false]

theorem mem_snd_foldl_activityStep (stringify : ActivityEntry → String)
    (R : List ActivityEntry) (st : List ActivityEntry × List String) (x : String) :
    x ∈ (R.foldl (activityStep stringify) st).2 ↔
      x ∈ st.2 ∨ x ∈ R.map (activityKey stringify) := by
  induction R generalizing st with
  | nil => simp
  | cons r R ih =>
    rw [List.foldl_cons, ih]
    by_cases h : activityKey stringify r ∈ st.2
    · rw [activityStep_of_mem stringify st r h]
      simp only [List.map_cons, List.mem_cons]
      constructor
      · rintro (h1 | h1)
        · exact Or.inl h1
        · exact Or.inr (Or.inr h1)
      · rintro (h1 | h1 | h1)
        · exact Or.inl h1
        · exact Or.inl (h1 ▸ h)
        · exact Or.inr h1
    · rw [activityStep_of_not_mem stringify st r h]
      simp only [mem_setAdd, List.map_cons, List.mem_cons]
      tauto

theorem inv_foldl_activityStep (stringify : ActivityEntry → String)
    (R : List ActivityEntry) (st : List ActivityEntry × List String)
    (hinv : ∀ x, x ∈ st.2 ↔ x ∈ st.1.map (activityKey stringify)) :
    ∀ x, x ∈ (R.foldl (activityStep stringify) st).2 ↔
      x ∈ (R.foldl (activityStep stringify) st).1.map (activityKey stringify) := by
  induction R generalizing st with
  | nil => simpa using hinv
  | cons r R ih =>
    rw [List.foldl_cons]
    apply ih
    by_cases h : activityKey stringify r ∈ st.2
    · rw [activityStep_of_mem stringify st r h]
      exact hinv
    · rw [activityStep_of_not_mem stringify st r h]
      intro x
      rw [mem_setAdd, hinv]
      simp

theorem foldl_activityStep_fixed (stringify : ActivityEntry → String)
    (R : List ActivityEntry) (st : List ActivityEntry × List String)
    (h : ∀ r ∈ R, activityKey stringify r ∈ st.2) :
    R.foldl (activityStep stringify) st = st := by
  induction R with
  | nil => rfl
  | cons r R ih =>
    rw [List.foldl_cons, activityStep_of_mem stringify st r (h r (List.mem_cons_self _ _))]
    exact ih (fun x hx => h x (List.mem_cons_of_mem _ hx))

theorem mem_keys_performSmartMergeActivity (stringify : ActivityEntry → String)
    (L R : List ActivityEntry) (k : String) :
    k ∈ (performSmartMergeActivity stringify L R).map (activityKey stringify) ↔
      k ∈ L.map (activityKey stringify) ∨ k ∈ R.map (activityKey stringify) := by
  unfold performSmartMergeActivity
  rw [((List.perm_insertionSort tsLe _).map (activityKey stringify)).mem_iff,
    ← inv_foldl_activityStep stringify R _ (fun x => mem_newSet _ x),
    mem_snd_foldl_activityStep, mem_newSet]

/-- Activity: merging the same server log a second time appends nothing and
keeps the order. -/
theorem performSmartMergeActivity_idem (stringify : ActivityEntry → String)
    (L R : List ActivityEntry) :
    performSmartMergeActivity stringify (performSmartMergeActivity stringify L R) R =
      performSmartMergeActivity stringify L R := by
  have hsorted : List.Sorted tsLe (performSmartMergeActivity stringify L R) :=
    List.sorted_insertionSort tsLe _
  have hkeys := mem_keys_performSmartMergeActivity stringify L R
  generalize performSmartMergeActivity stringify L R = M at hsorted hkeys
  unfold performSmartMergeActivity
  rw [foldl_activityStep_fixed]
  · exact hsorted.insertionSort_eq
  · intro r hr
    rw [mem_newSet, hkeys]
    exact Or.inr (List.mem_map.2 ⟨r, hr, rfl⟩)

/-! ## The merge of the whole document -/

/-- C1 as stated fails: the empty local document adopts the server slot with
votes `["A", "A"]`; merging the same snapshot again turns them into `["A"]`. -/
theorem merge_twice_differs :
    merge exStringify (merge exStringify ⟨[], [], []⟩ exRemoteDupVotes) exRemoteDupVotes ≠
      merge exStringify ⟨[], [], []⟩ exRemoteDupVotes := by
  decide

/-- C1, amended. When every slot of the server snapshot has a `proposals` array
with pairwise distinct proposal ids and, on every proposal, a `votes` array
without duplicates, merging the snapshot a second time changes nothing in slots,
groceries and activity. -/
theorem merge_idempotent (stringify : ActivityEntry → String) (L R : Document)
    (hwf : SlotsWF R.slots) :
    merge stringify (merge stringify L R) R = merge stringify L R := by
  unfold merge
  simp only [performSmartMerge_idem L.slots R.slots hwf, performSmartMergeGroceries_idem,
    performSmartMergeActivity_idem]

theorem merge_idempotent_witness :
    merge exStringify (merge exStringify exDocLocal exDocServer) exDocServer =
      merge exStringify exDocLocal exDocServer :=
  merge_idempotent exStringify exDocLocal exDocServer (by decide)

/-! ## Merging in the two directions -/

theorem mem_ids_mergeProposals (lProps sProps : List Proposal) (i : Option String) :
    i ∈ (mergeProposals lProps sProps).map (fun p => p.id) ↔
      i ∈ lProps.map (fun p => p.id) ∨ i ∈ sProps.map (fun p => p.id) := by
  rw [mergeProposals_eq, List.map_append, List.mem_append, map_id_updLocal]
  constructor
  · rintro (h | h)
    · exact Or.inl h
    · obtain ⟨q, hq, hid⟩ := List.mem_map.1 h
      exact Or.inr (List.mem_map.2 ⟨q, ((mem_appended _ _ _).1 hq).1, hid⟩)
  · rintro (h | h)
    · exact Or.inl h
    · by_cases hin : i ∈ lProps.map (fun p => p.id)
      · exact Or.inl hin
      · obtain ⟨q, hq, hid⟩ := List.mem_map.1 h
        right
        exact List.mem_map.2 ⟨q, (mem_appended _ _ _).2 ⟨hq, by rw [hid]; exact hin⟩, hid⟩

theorem votesOf_of_nodup (l : List Proposal) (p : Proposal) (v : String)
    (hnd : (l.map (fun p => p.id)).Nodup) (hp : p ∈ l) :
    votesOf l p.id v ↔ v ∈ p.votes.getD [] := by
  constructor
  · rintro ⟨m, hm, hid, hv⟩
    have : m = p := List.inj_on_of_nodup_map hnd hm hp hid
    rw [← this]
    exact hv
  · intro hv
    exact ⟨p, hp, rfl, hv⟩

/-- With pairwise distinct ids on both sides, the votes of a proposal of the
merged list are the votes the two sides list under its id. -/
theorem mem_votes_mergeProposals (lProps sProps : List Proposal) (p : Proposal) (v : String)
    (hl : (lProps.map (fun p => p.id)).Nodup) (hs : (sProps.map (fun p => p.id)).Nodup)
    (hp : p ∈ mergeProposals lProps sProps) :
    v ∈ p.votes.getD [] ↔ votesOf lProps p.id v ∨ votesOf sProps p.id v := by
  by_cases hin : p.id ∈ lProps.map (fun p => p.id)
  · obtain ⟨p0, hp0, hid⟩ := List.mem_map.1 hin
    have hpe := merged_of_id lProps sProps p0 p hl hp0 hp hid.symm
    have hvote := mem_votes_foldl_mergeDetails
      (sProps.filter (fun s => decide (s.id = p0.id))) p0 v
    rw [← hpe] at hvote
    rw [hvote, ← hid, votesOf_of_nodup lProps p0 v hl hp0]
    apply or_congr Iff.rfl
    constructor
    · rintro ⟨m, hm, hv⟩
      rw [List.mem_filter] at hm
      exact ⟨m, hm.1, of_decide_eq_true hm.2, hv⟩
    · rintro ⟨m, hm, hmid, hv⟩
      exact ⟨m, List.mem_filter.2 ⟨hm, decide_eq_true hmid⟩, hv⟩
  · have hps : p ∈ sProps := by
      rw [mergeProposals_eq, List.mem_append] at hp
      rcases hp with h | h
      · exact absurd (id_mem_of_mem_updLocal _ _ _ h) hin
      · exact ((mem_appended _ _ _).1 h).1
    rw [votesOf_of_nodup sProps p v hs hps]
    constructor
    · intro h; exact Or.inr h
    · rintro (⟨m, hm, hid, _⟩ | h)
      · exact absurd (List.mem_map.2 ⟨m, hm, hid⟩) hin
      · exact h

/-- C3 as stated fails: each of two clients that differ in a slot's `approved`
flag takes the other's flag, so the two merges end with different documents. -/
theorem merge_not_commutative :
    merge exStringify exDocApproved exDocNotApproved ≠
      merge exStringify exDocNotApproved exDocApproved := by
  decide

/-- C3, amended. The merges in the two directions end with the same content up
to order and up to the fields in which one side wins: the same slot keys, in
every slot the same proposal ids, under every proposal id the same voters (for
a slot of both sides with pairwise distinct ids on each side), the same grocery
display texts and the same activity keys. -/
theorem merge_converges_on_content (stringify : ActivityEntry → String) (A B : Document) :
    (∀ k, (objGet (merge stringify A B).slots k).isSome =
        (objGet (merge stringify B A).slots k).isSome) ∧
    (∀ k x y, objGet (merge stringify A B).slots k = some x →
        objGet (merge stringify B A).slots k = some y →
        ∀ i, i ∈ (x.proposals.getD []).map (fun p => p.id) ↔
          i ∈ (y.proposals.getD []).map (fun p => p.id)) ∧
    (∀ k a b, objGet A.slots k = some a → objGet B.slots k = some b →
        ((a.proposals.getD []).map (fun p => p.id)).Nodup →
        ((b.proposals.getD []).map (fun p => p.id)).Nodup →
        ∀ x y, objGet (merge stringify A B).slots k = some x →
          objGet (merge stringify B A).slots k = some y →
          ∀ p ∈ x.proposals.getD [], ∀ q ∈ y.proposals.getD [], p.id = q.id →
            ∀ v, v ∈ p.votes.getD [] ↔ v ∈ q.votes.getD []) ∧
    (∀ t, t ∈ (merge stringify A B).groceries.map displayText ↔
        t ∈ (merge stringify B A).groceries.map displayText) ∧
    (∀ k, k ∈ (merge stringify A B).activity.map (activityKey stringify) ↔
        k ∈ (merge stringify B A).activity.map (activityKey stringify)) := by
  simp only [merge]
  refine ⟨?_, ?_, ?_, ?_, ?_⟩
  · intro k
    rw [objGet_performSmartMerge, objGet_performSmartMerge]
    cases objGet A.slots k <;> cases objGet B.slots k <;> rfl
  · intro k x y hx hy i
    rw [objGet_performSmartMerge] at hx hy
    cases ha : objGet A.slots k with
    | none =>
      cases hb : objGet B.slots k with
      | none => rw [ha, hb] at hx; cases hx
      | some b =>
        rw [ha, hb] at hx hy
        simp only [slotAfter, Option.some.injEq] at hx hy
        rw [← hx, ← hy]
    | some a =>
      cases hb : objGet B.slots k with
      | none =>
        rw [ha, hb] at hx hy
        simp only [slotAfter, Option.some.injEq] at hx hy
        rw [← hx, ← hy]
      | some b =>
        rw [ha, hb] at hx hy
        simp only [slotAfter, Option.some.injEq] at hx hy
        rw [← hx, ← hy]
        simp only [mergeSlot, Option.getD_some]
        rw [mem_ids_mergeProposals, mem_ids_mergeProposals]
        exact Or.comm
  · intro k a b ha hb hna hnb x y hx hy p hp q hq hid v
    rw [objGet_performSmartMerge, ha, hb] at hx hy
    simp only [slotAfter, Option.some.injEq] at hx hy
    rw [← hx] at hp
    rw [← hy] at hq
    simp only [mergeSlot, Option.getD_some] at hp hq
    rw [mem_votes_mergeProposals _ _ p v hna hnb hp,
      mem_votes_mergeProposals _ _ q v hnb hna hq, hid]
    exact Or.comm
  · intro t
    rw [mem_texts_performSmartMergeGroceries, mem_texts_performSmartMergeGroceries]
    exact Or.comm
  · intro k
    rw [mem_keys_performSmartMergeActivity, mem_keys_performSmartMergeActivity]
    exact Or.comm

/-! ## The activity log after the merge -/

theorem activityKey_of_realId (stringify : ActivityEntry → String) (l : ActivityEntry)
    (s : String) (h : realId l = some s) : activityKey stringify l = s := by
  unfold realId at h
  unfold activityKey
  cases hid : l.id with
  | none => rw [hid] at h; cases h
  | some t =>
    rw [hid] at h
    simp only at h ⊢
    by_cases ht : (t != "") = true
    · simp only [ht, if_true, Option.some.injEq] at h ⊢
      exact h
    · simp only [ht] at h
      cases h

theorem realIds_sublist_keys (stringify : ActivityEntry → String) (A : List ActivityEntry) :
    (A.filterMap realId).Sublist (A.map (activityKey stringify)) := by
  induction A with
  | nil => simp
  | cons a A ih =>
    rw [List.map_cons]
    cases hr : realId a with
    | none =>
      rw [List.filterMap_cons_none hr]
      exact ih.cons _
    | some s =>
      rw [List.filterMap_cons_some hr, ← activityKey_of_realId stringify a s hr]
      exact ih.cons₂ _

/-- What the `forEach` of `performSmartMergeActivity` appends, from a state
`(l, st)`: a part `A` of the server list, with pairwise distinct keys none of
which was in `st`, that covers every server key missing in `st`. -/
theorem foldl_activityStep_spec (stringify : ActivityEntry → String)
    (R : List ActivityEntry) (l : List ActivityEntry) (st : List String) :
    ∃ A, (R.foldl (activityStep stringify) (l, st)).1 = l ++ A ∧ A.Sublist R ∧
      (A.map (activityKey stringify)).Nodup ∧
      (∀ a ∈ A, activityKey stringify a ∉ st) ∧
      (∀ r ∈ R, activityKey stringify r ∉ st →
        activityKey stringify r ∈ A.map (activityKey stringify)) := by
  induction R generalizing l st with
  | nil => exact ⟨[], by simp, List.Sublist.refl _, List.nodup_nil, by simp, by simp⟩
  | cons r R ih =>
    rw [List.foldl_cons]
    by_cases h : activityKey stringify r ∈ st
    · rw [activityStep_of_mem stringify (l, st) r h]
      obtain ⟨A, hA, hsub, hnd, hnot, hcov⟩ := ih l st
      refine ⟨A, hA, hsub.cons r, hnd, hnot, ?_⟩
      intro r' hr' hn
      rcases List.mem_cons.1 hr' with e | hr''
      · subst e; exact absurd h hn
      · exact hcov r' hr'' hn
    · rw [activityStep_of_not_mem stringify (l, st) r h]
      obtain ⟨A, hA, hsub, hnd, hnot, hcov⟩ :=
        ih (l ++ [r]) (setAdd st (activityKey stringify r))
      have hnotA : ∀ a ∈ A, activityKey stringify a ∉ st ∧
          activityKey stringify a ≠ activityKey stringify r := by
        intro a ha
        have := hnot a ha
        rw [mem_setAdd] at this
        exact ⟨fun e => this (Or.inl e), fun e => this (Or.inr e)⟩
      refine ⟨r :: A, ?_, hsub.cons₂ r, ?_, ?_, ?_⟩
      · rw [hA]; simp
      · rw [List.map_cons, List.nodup_cons]
        refine ⟨?_, hnd⟩
        intro hmem
        obtain ⟨a, ha, hk⟩ := List.mem_map.1 hmem
        exact (hnotA a ha).2 hk
      · intro a ha
        rcases List.mem_cons.1 ha with e | ha'
        · subst e; exact h
        · exact (hnotA a ha').1
      · intro r' hr' hn
        rw [List.map_cons, List.mem_cons]
        by_cases hk : activityKey stringify r' = activityKey stringify r
        · exact Or.inl hk
        · right
          rcases List.mem_cons.1 hr' with e | hr''
          · subst e; exact absurd rfl hk
          · apply hcov r' hr''
            rw [mem_setAdd]
            rintro (h1 | h1)
            · exact hn h1
            · exact hk h1

/-- C11. Activity union: the log after `performSmartMergeActivity(L, R)` is a
permutation of `L` followed by entries `A` of `R` (in the order of `R`) whose
keys are pairwise distinct, are no key of `L`, and cover every key of `R` that
is no key of `L`; the key is the id, or the serialised entry when the id is
missing. -/
theorem activity_union (stringify : ActivityEntry → String) (L R : List ActivityEntry) :
    ∃ A, List.Perm (performSmartMergeActivity stringify L R) (L ++ A) ∧ A.Sublist R ∧
      (A.map (activityKey stringify)).Nodup ∧
      (∀ a ∈ A, activityKey stringify a ∉ L.map (activityKey stringify)) ∧
      (∀ r ∈ R, activityKey stringify r ∉ L.map (activityKey stringify) →
        activityKey stringify r ∈ A.map (activityKey stringify)) := by
  obtain ⟨A, hA, hsub, hnd, hnot, hcov⟩ :=
    foldl_activityStep_spec stringify R L (newSet (L.map (activityKey stringify)))
  refine ⟨A, ?_, hsub, hnd, ?_, ?_⟩
  · unfold performSmartMergeActivity
    rw [hA]
    exact List.perm_insertionSort tsLe _
  · intro a ha hmem
    exact hnot a ha ((mem_newSet _ _).2 hmem)
  · intro r hr hn
    exact hcov r hr (fun e => hn ((mem_newSet _ _).1 e))

/-- C12. Activity ordering: whatever the order of the entries of `L` and `R`,
the log after `performSmartMergeActivity(L, R)` is sorted by timestamp, earlier
entries first (non-decreasing). -/
theorem activity_sorted (stringify : ActivityEntry → String) (L R : List ActivityEntry) :
    List.Pairwise (fun a b => a.timestamp ≤ b.timestamp)
      (performSmartMergeActivity stringify L R) := by
  unfold performSmartMergeActivity
  exact List.sorted_insertionSort tsLe _

/-- C13. Activity ids stay unique: when the ids of the entries of `L` that have
one are pairwise distinct, so are the ids of the entries of the log after
`performSmartMergeActivity(L, R)`, whatever ids `R` repeats or shares with `L`. -/
theorem activity_ids_unique (stringify : ActivityEntry → String) (L R : List ActivityEntry)
    (hL : (L.filterMap realId).Nodup) :
    ((performSmartMergeActivity stringify L R).filterMap realId).Nodup := by
  obtain ⟨A, hA, hsub, hnd, hnot, _⟩ :=
    foldl_activityStep_spec stringify R L (newSet (L.map (activityKey stringify)))
  have hperm : List.Perm (performSmartMergeActivity stringify L R) (L ++ A) := by
    unfold performSmartMergeActivity
    rw [hA]
    exact List.perm_insertionSort tsLe _
  rw [(hperm.filterMap realId).nodup_iff, List.filterMap_append, List.nodup_append]
  have hkey : ∀ (l : List ActivityEntry) (s : String), s ∈ l.filterMap realId →
      ∃ a ∈ l, realId a = some s ∧ activityKey stringify a = s := by
    intro l s hs
    obtain ⟨a, ha, hr⟩ := List.mem_filterMap.1 hs
    exact ⟨a, ha, hr, activityKey_of_realId stringify a s hr⟩
  refine ⟨hL, ?_, ?_⟩
  · exact hnd.sublist (realIds_sublist_keys stringify A)
  · intro s hsL hsA
    obtain ⟨a, ha, _, hka⟩ := hkey L s hsL
    obtain ⟨b, hb, _, hkb⟩ := hkey A s hsA
    apply hnot b hb
    rw [mem_newSet, hkb, ← hka]
    exact List.mem_map.2 ⟨a, ha, rfl⟩

theorem activity_ids_unique_witness :
    ((performSmartMergeActivity exStringify exDocLocal.activity
      exDocServer.activity).filterMap realId).Nodup :=
  activity_ids_unique exStringify exDocLocal.activity exDocServer.activity (by decide)

/-! ## The reducers applied twice -/

/-- C22. Grocery reducer idempotence: for every local list `L` and server list
`R`, duplicates allowed on either side, `performSmartMergeGroceries` with `R`
applied to the result of `performSmartMergeGroceries(L, R)` appends nothing and
leaves the list exactly as it was. -/
theorem grocery_reducer_idempotent (L R : List GroceryItem) :
    performSmartMergeGroceries (performSmartMergeGroceries L R) R =
      performSmartMergeGroceries L R := by
  rw [performSmartMergeGroceries_idem]

/-- C23. Activity reducer idempotence: for every local log `L` and server log
`R`, `performSmartMergeActivity` with `R` applied to the result of
`performSmartMergeActivity(L, R)` appends nothing and leaves the log exactly as
it was, the order of entries with equal timestamps included. -/
theorem activity_reducer_idempotent (stringify : ActivityEntry → String)
    (L R : List ActivityEntry) :
    performSmartMergeActivity stringify (performSmartMergeActivity stringify L R) R =
      performSmartMergeActivity stringify L R := by
  rw [performSmartMergeActivity_idem]

/-! ## The single-winner invariant under the merge -/

theorem objGet_singleton {β : Type} (k0 k : String) (v w : β)
    (h : objGet [(k0, v)] k = some w) : w = v := by
  unfold objGet at h
  by_cases hk : k0 = k
  · simp only [hk, if_true, Option.some.injEq] at h
    exact h.symm
  · simp only [hk, if_false, objGet] at h
    cases h

theorem allSingleWinner_singleton (k0 : String) (s0 : Slot) (h : SingleWinner s0) :
    AllSingleWinner [(k0, s0)] := by
  intro k s hs
  rw [objGet_singleton k0 k s0 s hs]
  exact h

theorem approved_of_mem_updLocal (lProps sProps : List Proposal) (q : Proposal)
    (hq : q ∈ updLocal lProps sProps) :
    ∃ p ∈ lProps, p.id = q.id ∧ p.approved = q.approved := by
  obtain ⟨j, hj⟩ := List.getElem?_of_mem hq
  rw [getElem?_updLocal] at hj
  cases hl : lProps[j]? with
  | none => rw [hl] at hj; cases hj
  | some p =>
    rw [hl] at hj
    simp only [Option.map_some', Option.some.injEq] at hj
    refine ⟨p, List.getElem?_mem hl, ?_, ?_⟩
    · rw [← hj, foldl_mergeDetails_id]
    · rw [← hj, foldl_mergeDetails_approved]

theorem nodup_ids_mergeProposals (lProps sProps : List Proposal)
    (hl : (lProps.map (fun p => p.id)).Nodup) (hs : (sProps.map (fun p => p.id)).Nodup) :
    ((mergeProposals lProps sProps).map (fun p => p.id)).Nodup := by
  rw [mergeProposals_eq, List.map_append, map_id_updLocal, List.nodup_append]
  refine ⟨hl, ?_, ?_⟩
  · exact hs.sublist (List.Sublist.map _ (List.filter_sublist _))
  · intro i hi hia
    obtain ⟨q, hq, hid⟩ := List.mem_map.1 hia
    exact ((mem_appended _ _ _).1 hq).2 (hid ▸ hi)

/-- For a key of both sides on which the local approvals are known to the
server, the merged proposals hold at most as many approved proposals as the
server's. -/
theorem approvedOnes_mergeProposals_le (l s : Slot) (hdl : DistinctIds l)
    (hds : DistinctIds s) (hk : ApprovalsKnown l s) :
    (approvedOnes (mergeProposals (l.proposals.getD []) (s.proposals.getD []))).length ≤
      (approvedOnes (s.proposals.getD [])).length := by
  unfold DistinctIds at hdl hds
  unfold ApprovalsKnown at hk
  generalize l.proposals.getD [] = lProps at hdl hk
  generalize s.proposals.getD [] = sProps at hds hk
  have hnd : ((approvedOnes (mergeProposals lProps sProps)).map (fun p => p.id)).Nodup :=
    (nodup_ids_mergeProposals lProps sProps hdl hds).sublist
      (List.Sublist.map _ (List.filter_sublist _))
  have hsub : (approvedOnes (mergeProposals lProps sProps)).map (fun p => p.id) ⊆
      (approvedOnes sProps).map (fun p => p.id) := by
    intro i hi
    obtain ⟨q, hq, hid⟩ := List.mem_map.1 hi
    unfold approvedOnes at hq
    rw [List.mem_filter] at hq
    obtain ⟨hqM, hqa⟩ := hq
    have hqa' : q.approved = some true := of_decide_eq_true hqa
    rw [mergeProposals_eq, List.mem_append] at hqM
    rcases hqM with hU | hA
    · obtain ⟨p, hp, hpid, hpa⟩ := approved_of_mem_updLocal lProps sProps q hU
      obtain ⟨q', hq', hq'id, hq'a⟩ := hk p hp (hpa.trans hqa')
      apply List.mem_map.2
      refine ⟨q', ?_, ?_⟩
      · unfold approvedOnes
        exact List.mem_filter.2 ⟨hq', decide_eq_true hq'a⟩
      · rw [hq'id, hpid, hid]
    · apply List.mem_map.2
      refine ⟨q, ?_, hid⟩
      unfold approvedOnes
      exact List.mem_filter.2 ⟨((mem_appended _ _ _).1 hA).1, hqa⟩
  have hle := (hnd.subperm hsub).length_le
  simpa using hle

/-- C21 as stated fails: both sides keep the invariant, the local slot with the
locally created `p-local` approved, the server slot with `p1` approved; the
merge keeps `p-local` as it is and appends `p1`, so the approved slot ends with
two approved proposals. -/
theorem single_winner_broken_by_merge :
    AllSingleWinner [("2025-12-24_abendessen", exSlotLocalWinner)] ∧
    AllSingleWinner [("2025-12-24_abendessen", exSlotServerWinner)] ∧
    ¬ AllSingleWinner (performSmartMerge [("2025-12-24_abendessen", exSlotLocalWinner)]
        [("2025-12-24_abendessen", exSlotServerWinner)]) := by
  refine ⟨allSingleWinner_singleton _ _ (by decide),
    allSingleWinner_singleton _ _ (by decide), ?_⟩
  intro h
  have hm := h "2025-12-24_abendessen" (mergeSlot exSlotLocalWinner exSlotServerWinner)
    (by decide)
  revert hm
  decide

/-- C21, amended. When every slot of the local and of the server dictionary keeps
the invariant and, for every key of both sides, the proposal ids are pairwise
distinct on each side and every proposal approved locally is a proposal of the
server slot that is approved there, every slot of the local dictionary keeps the
invariant after `performSmartMerge`. -/
theorem single_winner_kept (L R : Slots) (hL : AllSingleWinner L) (hR : AllSingleWinner R)
    (hboth : ∀ k l s, objGet L k = some l → objGet R k = some s →
      DistinctIds l ∧ DistinctIds s ∧ ApprovalsKnown l s) :
    AllSingleWinner (performSmartMerge L R) := by
  intro k m hm
  rw [objGet_performSmartMerge] at hm
  cases hl : objGet L k with
  | none =>
    cases hs : objGet R k with
    | none => rw [hl, hs] at hm; cases hm
    | some s =>
      rw [hl, hs] at hm
      simp only [slotAfter, Option.some.injEq] at hm
      rw [← hm]
      exact hR k s hs
  | some l =>
    cases hs : objGet R k with
    | none =>
      rw [hl, hs] at hm
      simp only [slotAfter, Option.some.injEq] at hm
      rw [← hm]
      exact hL k l hl
    | some s =>
      rw [hl, hs] at hm
      simp only [slotAfter, Option.some.injEq] at hm
      rw [← hm]
      intro happ
      obtain ⟨hdl, hds, hk⟩ := hboth k l s hl hs
      have hs1 : (approvedOnes (s.proposals.getD [])).length ≤ 1 := hR k s hs happ
      have hle := approvedOnes_mergeProposals_le l s hdl hds hk
      simp only [mergeSlot, Option.getD_some]
      omega

theorem single_winner_kept_witness :
    AllSingleWinner (performSmartMerge [("2025-12-24_abendessen", exSlotLocalAgrees)]
      [("2025-12-24_abendessen", exSlotServerWinner)]) :=
  single_winner_kept [("2025-12-24_abendessen", exSlotLocalAgrees)]
    [("2025-12-24_abendessen", exSlotServerWinner)]
    (allSingleWinner_singleton _ _ (by decide))
    (allSingleWinner_singleton _ _ (by decide))
    (fun k l s hl hs => by
      rw [objGet_singleton _ k _ l hl, objGet_singleton _ k _ s hs]
      decide)

/-! ## Slot keys and their collisions -/

theorem append_cons_inj_of_not_mem (c : Char) :
    ∀ (l1 l2 x y : List Char), c ∉ l1 → c ∉ l2 → l1 ++ c :: x = l2 ++ c :: y →
      l1 = l2 ∧ x = y := by
  intro l1
  induction l1 with
  | nil =>
    intro l2 x y _ h2 h
    cases l2 with
    | nil =>
      simp only [List.nil_append, List.cons.injEq, true_and] at h
      exact ⟨rfl, h⟩
    | cons b l2 =>
      simp only [List.nil_append, List.cons_append, List.cons.injEq] at h
      exact absurd (h.1 ▸ List.mem_cons_self _ _) h2
  | cons a l1 ih =>
    intro l2 x y h1 h2 h
    cases l2 with
    | nil =>
      simp only [List.nil_append, List.cons_append, List.cons.injEq] at h
      exact absurd (h.1 ▸ List.mem_cons_self _ _) h1
    | cons b l2 =>
      simp only [List.cons_append, List.cons.injEq] at h
      obtain ⟨e1, e2⟩ := ih l2 x y (fun hm => h1 (List.mem_cons_of_mem _ hm))
        (fun hm => h2 (List.mem_cons_of_mem _ hm)) h.2
      exact ⟨by rw [h.1, e1], e2⟩

/-- C24 as stated fails in both parts: two pairs that differ only in the case
of the meal type share a slot key, and so do two pairs with different dates
when a date contains an underscore. -/
theorem slot_key_collisions :
    getSlotKey asciiLower "2025-12-24" "Abendessen" =
        getSlotKey asciiLower "2025-12-24" "ABENDESSEN" ∧
      ("2025-12-24", "Abendessen") ≠ ("2025-12-24", "ABENDESSEN") ∧
      getSlotKey asciiLower "a_b" "c" = getSlotKey asciiLower "a" "b_c" ∧
      "a_b" ≠ "a" := by
  decide

/-- C24, amended. For dates `d1`, `d2` that contain no underscore (as every date
`YYYY-MM-DD`) and all meal types `t1`, `t2`, the slot keys are equal exactly
when the dates are equal and the lower-case forms of the meal types are equal. -/
theorem slot_key_eq_iff (toLowerCase : String → String) (d1 d2 t1 t2 : String)
    (h1 : '_' ∉ d1.data) (h2 : '_' ∉ d2.data) :
    getSlotKey toLowerCase d1 t1 = getSlotKey toLowerCase d2 t2 ↔
      d1 = d2 ∧ toLowerCase t1 = toLowerCase t2 := by
  constructor
  · intro h
    unfold getSlotKey at h
    have hd := congrArg String.data h
    simp only [String.data_append] at hd
    rw [List.append_assoc, List.append_assoc] at hd
    obtain ⟨e1, e2⟩ := append_cons_inj_of_not_mem '_' d1.data d2.data _ _ h1 h2 hd
    exact ⟨String.ext e1, String.ext e2⟩
  · rintro ⟨e1, e2⟩
    unfold getSlotKey
    rw [e1, e2]

theorem slot_key_eq_iff_witness :
    getSlotKey asciiLower "2025-12-24" "Abendessen" =
        getSlotKey asciiLower "2025-12-25" "Abendessen" ↔
      "2025-12-24" = "2025-12-25" ∧ asciiLower "Abendessen" = asciiLower "Abendessen" :=
  slot_key_eq_iff asciiLower "2025-12-24" "2025-12-25" "Abendessen" "Abendessen"
    (by decide) (by decide)

/-! ## The watcher and the timers -/

theorem debouncedSave_fields (now : Nat) (st : Engine) :
    (debouncedSave now st).mealSlots = st.mealSlots ∧
    (debouncedSave now st).groceryList = st.groceryList ∧
    (debouncedSave now st).activityLog = st.activityLog ∧
    (debouncedSave now st).globalSettings = st.globalSettings ∧
    (debouncedSave now st).isFirstLoad = st.isFirstLoad ∧
    (debouncedSave now st).currentETag = st.currentETag ∧
    (debouncedSave now st).watcherPending = st.watcherPending := by
  unfold debouncedSave
  by_cases h : st.isFirstLoad = true
  · simp only [h, if_true, and_self]
  · simp only [h, if_false]
    cases st.saveTimeout with
    | none => exact ⟨rfl, rfl, rfl, rfl, rfl, rfl, rfl⟩
    | some id =>
      simp only
      by_cases hid : (id != 0) = true
      · simp only [hid, if_true]
        exact ⟨rfl, rfl, rfl, rfl, rfl, rfl, rfl⟩
      · simp only [hid, if_false]
        exact ⟨rfl, rfl, rfl, rfl, rfl, rfl, rfl⟩

theorem debouncedSave_of_firstLoad (now : Nat) (st : Engine) (h : st.isFirstLoad = true) :
    debouncedSave now st = st := by
  unfold debouncedSave
  rw [if_pos h]

/-- After bootstrap `debouncedSave` sets status and message and leaves a timer
armed that is due 2000 ms later, its id in `saveTimeout`. -/
theorem debouncedSave_armed (now : Nat) (st : Engine) (h : st.isFirstLoad = false) :
    (debouncedSave now st).syncStatus = SyncStatus.syncing ∧
    (debouncedSave now st).syncMessage = "Warte auf Speichern..." ∧
    (debouncedSave now st).saveTimeout = some (st.lastTimerId + 1) ∧
    (st.lastTimerId + 1, now + 2000) ∈ (debouncedSave now st).timers := by
  unfold debouncedSave
  simp only [h, Bool.false_eq_true, if_false]
  cases st.saveTimeout with
  | none => exact ⟨rfl, rfl, rfl, by simp⟩
  | some id =>
    simp only
    by_cases hid : (id != 0) = true
    · simp only [hid, if_true]
      exact ⟨rfl, rfl, rfl, by simp [clearTimeout]⟩
    · simp only [hid, if_false]
      exact ⟨rfl, rfl, rfl, by simp⟩

theorem flushWatcher_fields (now : Nat) (st : Engine) :
    (flushWatcher now st).mealSlots = st.mealSlots ∧
    (flushWatcher now st).groceryList = st.groceryList ∧
    (flushWatcher now st).activityLog = st.activityLog ∧
    (flushWatcher now st).globalSettings = st.globalSettings ∧
    (flushWatcher now st).isFirstLoad = st.isFirstLoad ∧
    (flushWatcher now st).currentETag = st.currentETag ∧
    (flushWatcher now st).watcherPending = false := by
  unfold flushWatcher
  by_cases h : st.watcherPending = true
  · simp only [h, if_true]
    obtain ⟨h1, h2, h3, h4, h5, h6, h7⟩ :=
      debouncedSave_fields now { st with watcherPending := false }
    exact ⟨h1, h2, h3, h4, h5, h6, h7⟩
  · simp only [h, if_false]
    refine ⟨rfl, rfl, rfl, rfl, rfl, rfl, ?_⟩
    simpa using h

theorem flushWatcher_of_not_pending (now : Nat) (st : Engine)
    (h : st.watcherPending = false) : flushWatcher now st = st := by
  unfold flushWatcher
  simp [h]

theorem flushWatcher_of_firstLoad (now : Nat) (st : Engine) (h : st.isFirstLoad = true) :
    (flushWatcher now st).syncStatus = st.syncStatus ∧
    (flushWatcher now st).syncMessage = st.syncMessage := by
  unfold flushWatcher
  by_cases hp : st.watcherPending = true
  · simp only [hp, if_true]
    rw [debouncedSave_of_firstLoad now { st with watcherPending := false } h]
    exact ⟨rfl, rfl⟩
  · simp only [hp, if_false]
    exact ⟨rfl, rfl⟩

theorem flushWatcher_of_pending (now : Nat) (st : Engine) (h : st.isFirstLoad = false)
    (hp : st.watcherPending = true) :
    (flushWatcher now st).syncStatus = SyncStatus.syncing ∧
    (flushWatcher now st).syncMessage = "Warte auf Speichern..." ∧
    (flushWatcher now st).saveTimeout = some (st.lastTimerId + 1) ∧
    (st.lastTimerId + 1, now + 2000) ∈ (flushWatcher now st).timers := by
  unfold flushWatcher
  simp only [hp, if_true]
  exact debouncedSave_armed now { st with watcherPending := false } h

theorem touch_fields (rewrote : Bool) (before after : Engine) :
    (touch rewrote before after).mealSlots = after.mealSlots ∧
    (touch rewrote before after).groceryList = after.groceryList ∧
    (touch rewrote before after).activityLog = after.activityLog ∧
    (touch rewrote before after).globalSettings = after.globalSettings ∧
    (touch rewrote before after).isFirstLoad = after.isFirstLoad ∧
    (touch rewrote before after).currentETag = after.currentETag ∧
    (touch rewrote before after).syncStatus = after.syncStatus ∧
    (touch rewrote before after).syncMessage = after.syncMessage := by
  unfold touch
  split <;> exact ⟨rfl, rfl, rfl, rfl, rfl, rfl, rfl, rfl⟩

theorem touch_pending (rewrote : Bool) (before after : Engine)
    (h : after.watcherPending = false) :
    (touch rewrote before after).watcherPending = true ↔
      (rewrote = true ∨
        (after.mealSlots, after.groceryList) ≠ (before.mealSlots, before.groceryList)) := by
  unfold touch
  split
  · rename_i hc
    exact ⟨fun _ => hc, fun _ => rfl⟩
  · rename_i hc
    rw [h]
    exact ⟨fun hf => absurd hf (by decide), fun hx => absurd hx hc⟩

theorem storeETag_fields (etag : Option String) (st : Engine) :
    (storeETag etag st).mealSlots = st.mealSlots ∧
    (storeETag etag st).groceryList = st.groceryList ∧
    (storeETag etag st).activityLog = st.activityLog ∧
    (storeETag etag st).globalSettings = st.globalSettings ∧
    (storeETag etag st).isFirstLoad = st.isFirstLoad ∧
    (storeETag etag st).watcherPending = st.watcherPending := by
  unfold storeETag
  split <;> exact ⟨rfl, rfl, rfl, rfl, rfl, rfl⟩

theorem mergeServerData_fields (stringify : ActivityEntry → String) (rewrote : Bool)
    (d : ServerData) (st : Engine) :
    (mergeServerData stringify rewrote d st).mealSlots =
      performSmartMerge st.mealSlots d.slotsOrSelf ∧
    (mergeServerData stringify rewrote d st).groceryList =
      performSmartMergeGroceries st.groceryList d.groceriesOrEmpty ∧
    (mergeServerData stringify rewrote d st).activityLog =
      performSmartMergeActivity stringify st.activityLog d.activityOrEmpty ∧
    (mergeServerData stringify rewrote d st).globalSettings =
      (match d.settings with
        | some s => s
        | none => st.globalSettings) ∧
    (mergeServerData stringify rewrote d st).isFirstLoad = st.isFirstLoad := by
  unfold mergeServerData
  obtain ⟨h1, h2, h3, h4, h5, _⟩ := touch_fields rewrote st
    { st with
      mealSlots := performSmartMerge st.mealSlots d.slotsOrSelf
      groceryList := performSmartMergeGroceries st.groceryList d.groceriesOrEmpty
      activityLog := performSmartMergeActivity stringify st.activityLog d.activityOrEmpty
      globalSettings :=
        match d.settings with
        | some s => s
        | none => st.globalSettings }
  exact ⟨h1, h2, h3, h4, h5⟩

theorem mergeServerData_pending (stringify : ActivityEntry → String) (rewrote : Bool)
    (d : ServerData) (st : Engine) (h : st.watcherPending = false) :
    (mergeServerData stringify rewrote d st).watcherPending = true ↔
      (rewrote = true ∨
        (performSmartMerge st.mealSlots d.slotsOrSelf,
          performSmartMergeGroceries st.groceryList d.groceriesOrEmpty) ≠
        (st.mealSlots, st.groceryList)) := by
  unfold mergeServerData
  exact touch_pending rewrote st _ h

/-- The state in which the retry is called: its document is the merge of the
re-read document into the former one, the settings are the server's when it
sent some, and the watcher's callback is queued exactly when the merge changed
`mealSlots` or `groceryList` or stored an equal value in a new place. -/
theorem afterConflict_fields (stringify : ActivityEntry → String) (rewrote : Nat → Bool)
    (clock : Nat → Nat) (k : Nat) (e : Option String) (d : ServerData) (st : Engine) :
    docOf (afterConflict stringify rewrote clock k e d st) =
      merge stringify (docOf st) (serverDoc d) ∧
    (afterConflict stringify rewrote clock k e d st).isFirstLoad = st.isFirstLoad ∧
    (afterConflict stringify rewrote clock k e d st).globalSettings =
      (match d.settings with
        | some s => s
        | none => st.globalSettings) ∧
    ((afterConflict stringify rewrote clock k e d st).watcherPending = true ↔
      (rewrote k = true ∨
        watchedPart (merge stringify (docOf st) (serverDoc d)) ≠ watchedPart (docOf st))) := by
  obtain ⟨f1, f2, f3, f4, f5, _, f7⟩ := flushWatcher_fields (clock k) (saveStarted k st)
  obtain ⟨s1, s2, s3, s4, s5, s6⟩ := storeETag_fields e
    (flushWatcher (clock k) (saveStarted k st))
  have hm : (storeETag e (flushWatcher (clock k) (saveStarted k st))).mealSlots =
      st.mealSlots := by rw [s1, f1]; rfl
  have hg : (storeETag e (flushWatcher (clock k) (saveStarted k st))).groceryList =
      st.groceryList := by rw [s2, f2]; rfl
  have ha : (storeETag e (flushWatcher (clock k) (saveStarted k st))).activityLog =
      st.activityLog := by rw [s3, f3]; rfl
  have hs : (storeETag e (flushWatcher (clock k) (saveStarted k st))).globalSettings =
      st.globalSettings := by rw [s4, f4]; rfl
  have hp : (storeETag e (flushWatcher (clock k) (saveStarted k st))).watcherPending =
      false := by rw [s6, f7]
  have hf : (storeETag e (flushWatcher (clock k) (saveStarted k st))).isFirstLoad =
      st.isFirstLoad := by rw [s5, f5]; rfl
  unfold afterConflict
  generalize storeETag e (flushWatcher (clock k) (saveStarted k st)) = x at hm hg ha hs hp hf
  obtain ⟨m1, m2, m3, m4, m5⟩ := mergeServerData_fields stringify (rewrote k) d x
  refine ⟨?_, by rw [m5, hf], by rw [m4, hs], ?_⟩
  · simp only [docOf, merge, serverDoc, m1, m2, m3, hm, hg, ha]
  · rw [mergeServerData_pending stringify (rewrote k) d x hp]
    simp only [watchedPart, docOf, merge, serverDoc, hm, hg]

/-! ## `saveData` -/

theorem saveData_of_gt (stringify : ActivityEntry → String) (env : Nat → WriteResponse)
    (rewrote : Nat → Bool) (clock : Nat → Nat) (retryCount : Nat) (st : Engine)
    (h : retryCount > 3) :
    saveData stringify env rewrote clock retryCount st =
      (flushWatcher (clock retryCount) (tooManyConflicts st), []) := by
  rw [saveData, if_pos h]

theorem saveData_of_conflict (stringify : ActivityEntry → String)
    (env : Nat → WriteResponse) (rewrote : Nat → Bool) (clock : Nat → Nat)
    (retryCount : Nat) (st : Engine) (h : retryCount ≤ 3) (newETag : Option String)
    (serverData : ServerData)
    (he : env retryCount = WriteResponse.conflict (ReadResponse.ok newETag (some serverData))) :
    saveData stringify env rewrote clock retryCount st =
      ((saveData stringify env rewrote clock (retryCount + 1)
          (afterConflict stringify rewrote clock retryCount newETag serverData st)).1,
        Request.post (etagHeader (saveStarted retryCount st))
            (payload (saveStarted retryCount st)) ::
          Request.get none ::
          (saveData stringify env rewrote clock (retryCount + 1)
            (afterConflict stringify rewrote clock retryCount newETag serverData st)).2) := by
  have hn : ¬ retryCount > 3 := Nat.not_lt.2 h
  rw [saveData, if_neg hn]
  simp only [he, afterConflict]

theorem isMergedConflict_iff (w : WriteResponse) :
    w.isMergedConflict = true ↔
      ∃ newETag serverData,
        w = WriteResponse.conflict (ReadResponse.ok newETag (some serverData)) := by
  constructor
  · intro h
    cases w with
    | conflict r =>
      cases r with
      | ok e b =>
        cases b with
        | none => simp [WriteResponse.isMergedConflict] at h
        | some d => exact ⟨e, d, rfl⟩
      | networkError => simp [WriteResponse.isMergedConflict] at h
      | notModified => simp [WriteResponse.isMergedConflict] at h
      | notOk => simp [WriteResponse.isMergedConflict] at h
    | networkError => simp [WriteResponse.isMergedConflict] at h
    | notOk => simp [WriteResponse.isMergedConflict] at h
    | ok e => simp [WriteResponse.isMergedConflict] at h
  · rintro ⟨e, d, rfl⟩
    rfl

/-- An attempt whose write is not answered with a conflict that can be merged
ends the call: one write, the document untouched. -/
theorem saveData_of_not_merged (stringify : ActivityEntry → String)
    (env : Nat → WriteResponse) (rewrote : Nat → Bool) (clock : Nat → Nat)
    (retryCount : Nat) (st : Engine) (h : retryCount ≤ 3)
    (hc : (env retryCount).isMergedConflict = false) :
    ((saveData stringify env rewrote clock retryCount st).2.filter Request.isPost).length = 1 ∧
      (saveData stringify env rewrote clock retryCount st).1.mealSlots = st.mealSlots ∧
      (saveData stringify env rewrote clock retryCount st).1.groceryList = st.groceryList ∧
      (saveData stringify env rewrote clock retryCount st).1.activityLog = st.activityLog := by
  have hn : ¬ retryCount > 3 := Nat.not_lt.2 h
  obtain ⟨f1, f2, f3, _⟩ := flushWatcher_fields (clock retryCount) (saveStarted retryCount st)
  rw [saveData, if_neg hn]
  cases he : env retryCount with
  | networkError => exact ⟨rfl, f1, f2, f3⟩
  | notOk => exact ⟨rfl, f1, f2, f3⟩
  | ok e =>
    simp only
    by_cases ht : truthyStr e = true
    · rw [if_pos ht]
      exact ⟨rfl, f1, f2, f3⟩
    · rw [if_neg ht]
      refine ⟨?_, f1, f2, f3⟩
      unfold fetchDataRequest
      split <;> rfl
  | conflict r =>
    rw [he] at hc
    cases r with
    | networkError => exact ⟨rfl, f1, f2, f3⟩
    | notModified => exact ⟨rfl, f1, f2, f3⟩
    | notOk => exact ⟨rfl, f1, f2, f3⟩
    | ok e b =>
      cases b with
      | none => exact ⟨rfl, f1, f2, f3⟩
      | some d => simp [WriteResponse.isMergedConflict] at hc

theorem saveData_head (stringify : ActivityEntry → String) (env : Nat → WriteResponse)
    (rewrote : Nat → Bool) (clock : Nat → Nat) (retryCount : Nat) (st : Engine)
    (h : retryCount ≤ 3) :
    ∃ rest, (saveData stringify env rewrote clock retryCount st).2 =
      Request.post (etagHeader (saveStarted retryCount st))
        (payload (saveStarted retryCount st)) :: rest := by
  have hn : ¬ retryCount > 3 := Nat.not_lt.2 h
  rw [saveData, if_neg hn]
  cases he : env retryCount with
  | networkError => exact ⟨_, rfl⟩
  | notOk => exact ⟨_, rfl⟩
  | ok e =>
    simp only
    by_cases ht : truthyStr e = true
    · rw [if_pos ht]
      exact ⟨_, rfl⟩
    · rw [if_neg ht]
      exact ⟨_, rfl⟩
  | conflict r =>
    cases r with
    | networkError => exact ⟨_, rfl⟩
    | notModified => exact ⟨_, rfl⟩
    | notOk => exact ⟨_, rfl⟩
    | ok e b =>
      cases b with
      | none => exact ⟨_, rfl⟩
      | some d => exact ⟨_, rfl⟩

theorem nothingLost_of_fields (a b : Engine) (h1 : b.mealSlots = a.mealSlots)
    (h2 : b.groceryList = a.groceryList) (h3 : b.activityLog = a.activityLog) :
    NothingLost a b := by
  refine ⟨?_, ⟨[], by rw [h2]; simp⟩, h3 ▸ List.Subperm.refl _⟩
  intro key l hl
  refine ⟨l, by rw [h1]; exact hl, ?_⟩
  intro p hp
  exact List.mem_map.2 ⟨p, hp, rfl⟩

theorem nothingLost_trans (a b c : Engine) (hab : NothingLost a b) (hbc : NothingLost b c) :
    NothingLost a c := by
  obtain ⟨s1, ⟨app1, g1⟩, a1⟩ := hab
  obtain ⟨s2, ⟨app2, g2⟩, a2⟩ := hbc
  refine ⟨?_, ⟨app1 ++ app2, by rw [g2, g1, List.append_assoc]⟩, a1.trans a2⟩
  intro key l hl
  obtain ⟨m, hm, hids⟩ := s1 key l hl
  obtain ⟨m', hm', hids'⟩ := s2 key m hm
  refine ⟨m', hm', ?_⟩
  intro p hp
  obtain ⟨q, hq, hqid⟩ := List.mem_map.1 (hids p hp)
  rw [← hqid]
  exact hids' q hq

/-- The three merges of the conflict branch lose nothing. -/
theorem nothingLost_afterConflict (stringify : ActivityEntry → String)
    (rewrote : Nat → Bool) (clock : Nat → Nat) (k : Nat) (e : Option String)
    (d : ServerData) (a : Engine) :
    NothingLost a (afterConflict stringify rewrote clock k e d a) := by
  obtain ⟨hdoc, _, _, _⟩ := afterConflict_fields stringify rewrote clock k e d a
  have h1 : (afterConflict stringify rewrote clock k e d a).mealSlots =
      performSmartMerge a.mealSlots d.slotsOrSelf := congrArg Document.slots hdoc
  have h2 : (afterConflict stringify rewrote clock k e d a).groceryList =
      performSmartMergeGroceries a.groceryList d.groceriesOrEmpty :=
    congrArg Document.groceries hdoc
  have h3 : (afterConflict stringify rewrote clock k e d a).activityLog =
      performSmartMergeActivity stringify a.activityLog d.activityOrEmpty :=
    congrArg Document.activity hdoc
  refine ⟨?_, ?_, ?_⟩
  · intro key l hl
    rw [h1, objGet_performSmartMerge, hl]
    cases hs : objGet d.slotsOrSelf key with
    | none =>
      exact ⟨l, rfl, fun p hp => List.mem_map.2 ⟨p, hp, rfl⟩⟩
    | some s =>
      refine ⟨mergeSlot l s, rfl, ?_⟩
      intro p hp
      simp only [mergeSlot, Option.getD_some]
      rw [mem_ids_mergeProposals]
      exact Or.inl (List.mem_map.2 ⟨p, hp, rfl⟩)
  · rw [h2]
    exact foldl_groceryStep_extends _ _
  · rw [h3]
    obtain ⟨A, hA, _⟩ := foldl_activityStep_spec stringify d.activityOrEmpty a.activityLog
      (newSet (a.activityLog.map (activityKey stringify)))
    have hperm : List.Perm (performSmartMergeActivity stringify a.activityLog
        d.activityOrEmpty) (a.activityLog ++ A) := by
      unfold performSmartMergeActivity
      rw [hA]
      exact List.perm_insertionSort tsLe _
    exact (List.sublist_append_left _ _).subperm.trans hperm.symm.subperm

theorem saveData_posts_le (stringify : ActivityEntry → String)
    (env : Nat → WriteResponse) (rewrote : Nat → Bool) (clock : Nat → Nat) (n : Nat) :
    ∀ (retryCount : Nat) (st : Engine), 4 - retryCount = n →
      ((saveData stringify env rewrote clock retryCount st).2.filter
        Request.isPost).length ≤ n := by
  induction n with
  | zero =>
    intro retryCount st hn
    rw [saveData_of_gt stringify env rewrote clock retryCount st (by omega)]
    exact Nat.le_refl _
  | succ n ih =>
    intro retryCount st hn
    have h : retryCount ≤ 3 := by omega
    cases hc : (env retryCount).isMergedConflict with
    | false =>
      rw [(saveData_of_not_merged stringify env rewrote clock retryCount st h hc).1]
      omega
    | true =>
      obtain ⟨e, d, he⟩ := (isMergedConflict_iff _).1 hc
      rw [saveData_of_conflict stringify env rewrote clock retryCount st h e d he]
      have := ih (retryCount + 1)
        (afterConflict stringify rewrote clock retryCount e d st) (by omega)
      simp only [List.filter_cons, Request.isPost, if_true, List.length_cons]
      simp only [Bool.false_eq_true, if_false]
      omega

theorem saveData_nothingLost (stringify : ActivityEntry → String)
    (env : Nat → WriteResponse) (rewrote : Nat → Bool) (clock : Nat → Nat) (n : Nat) :
    ∀ (retryCount : Nat) (st : Engine), 4 - retryCount = n →
      NothingLost st (saveData stringify env rewrote clock retryCount st).1 := by
  induction n with
  | zero =>
    intro retryCount st hn
    rw [saveData_of_gt stringify env rewrote clock retryCount st (by omega)]
    obtain ⟨f1, f2, f3, _⟩ := flushWatcher_fields (clock retryCount) (tooManyConflicts st)
    exact nothingLost_of_fields _ _ f1 f2 f3
  | succ n ih =>
    intro retryCount st hn
    have h : retryCount ≤ 3 := by omega
    cases hc : (env retryCount).isMergedConflict with
    | false =>
      obtain ⟨_, h1, h2, h3⟩ :=
        saveData_of_not_merged stringify env rewrote clock retryCount st h hc
      exact nothingLost_of_fields _ _ h1 h2 h3
    | true =>
      obtain ⟨e, d, he⟩ := (isMergedConflict_iff _).1 hc
      rw [saveData_of_conflict stringify env rewrote clock retryCount st h e d he]
      exact nothingLost_trans st (afterConflict stringify rewrote clock retryCount e d st) _
        (nothingLost_afterConflict stringify rewrote clock retryCount e d st)
        (ih (retryCount + 1) _ (by omega))

/-- C16. No data loss on the save path: whatever the server answers to the
writes and re-reads of one `saveData()` call, and whenever the watcher runs,
when the call ends every slot is still there with every proposal id it had,
the grocery list still starts with the former list, and every activity entry
is still in the log. -/
theorem save_loses_nothing (stringify : ActivityEntry → String)
    (env : Nat → WriteResponse) (rewrote : Nat → Bool) (clock : Nat → Nat) (st : Engine) :
    NothingLost st (saveData stringify env rewrote clock 0 st).1 :=
  saveData_nothingLost stringify env rewrote clock 4 0 st rfl

/-! ## Bootstrap, polling and the entry points that write -/

/-- C17, at a concrete input. Before any read has succeeded (`isFirstLoad` is
true) `saveSettingsPin('1234')` issues a write that carries the empty local
document, and `isFirstLoad` is still true afterwards; `debouncedSave` has the
guard that `saveData` and `saveSettingsPin` lack. -/
theorem write_before_bootstrap (rewrote : Nat → Bool) (clock : Nat → Nat) :
    Engine.start.isFirstLoad = true ∧
    (saveSettingsPin exStringify envAccept rewrote clock "1234" Engine.start).2 =
      [Request.post none ⟨[], [], [], ⟨"1234"⟩⟩] ∧
    (saveSettingsPin exStringify envAccept rewrote clock "1234" Engine.start).1.isFirstLoad =
      true ∧
    (debouncedSave 0 Engine.start).saveTimeout = none ∧
    (debouncedSave 0 Engine.start).timers = [] := by
  refine ⟨rfl, ?_, ?_, rfl, rfl⟩
  · unfold saveSettingsPin
    rw [saveData]
    rfl
  · unfold saveSettingsPin
    rw [saveData]
    rfl

/-- C18, at a concrete input. The first read of a fresh server succeeds with
the empty document, which serialises like the initial local state: the branch
that replaces the state and clears `isFirstLoad` is skipped, so bootstrap is not
marked complete (and `debouncedSave` keeps refusing to save). -/
theorem bootstrap_not_marked_on_equal_state (rewrote : Bool) (now : Nat) :
    (fetchData exStringify rewrote now (ReadResponse.ok (some "v1") (some exEmptyBody))
        Engine.start).2 = [Request.get none] ∧
    (fetchData exStringify rewrote now (ReadResponse.ok (some "v1") (some exEmptyBody))
        Engine.start).1.isFirstLoad = true ∧
    (debouncedSave 0 (fetchData exStringify rewrote now
        (ReadResponse.ok (some "v1") (some exEmptyBody)) Engine.start).1).saveTimeout = none ∧
    (debouncedSave 0 (fetchData exStringify rewrote now
        (ReadResponse.ok (some "v1") (some exEmptyBody)) Engine.start).1).timers = [] := by
  exact ⟨rfl, rfl, rfl, rfl⟩

/-- C19, at a concrete input. A poll gets an OK response with `ETag: v2` whose
body cannot be parsed: the call fails, the document is untouched, but the stored
version tag is already `v2`. -/
theorem failed_poll_changes_etag (rewrote : Bool) (now : Nat) :
    exEngine.currentETag = some "v1" ∧
    (fetchData exStringify rewrote now (ReadResponse.ok (some "v2") none)
        exEngine).1.currentETag = some "v2" ∧
    (fetchData exStringify rewrote now (ReadResponse.ok (some "v2") none)
        exEngine).1.mealSlots = exEngine.mealSlots := by
  exact ⟨rfl, rfl, rfl⟩

/-! ## The version tag and the settings on the save path -/

/-- C25, at a concrete input. After bootstrap a write succeeds without an
`ETag` header: `saveData` calls `fetchData()` while `syncStatus` is still
`'syncing'`, so the guard of `fetchData` returns at once; the only request of
the call is the write and the stored version tag is still the old one. -/
theorem no_read_after_headerless_write (rewrote : Nat → Bool) (clock : Nat → Nat) :
    exEngine.isFirstLoad = false ∧
    exEngine.currentETag = some "v1" ∧
    (saveData exStringify envAcceptNoTag rewrote clock 0 exEngine).2 =
      [Request.post (some "v1") (payload exEngine)] ∧
    (saveData exStringify envAcceptNoTag rewrote clock 0 exEngine).1.currentETag =
      some "v1" ∧
    (saveData exStringify envAcceptNoTag rewrote clock 0 exEngine).1.syncStatus =
      SyncStatus.saved := by
  refine ⟨rfl, rfl, ?_, ?_, ?_⟩
  · rw [saveData]
    rfl
  · rw [saveData]
    rfl
  · rw [saveData]
    rfl

/-- C26. Settings on conflict: when the first write of a `saveData()` call is
answered with 409 and the re-read document carries settings, the requests of
the call start with the write that carries the local settings, the re-read, and
the retried write, and the retried write carries the server's settings,
whatever the local settings were. -/
theorem settings_replaced_on_conflict (stringify : ActivityEntry → String)
    (env : Nat → WriteResponse) (rewrote : Nat → Bool) (clock : Nat → Nat) (st : Engine)
    (newETag : Option String) (serverData : ServerData) (serverSettings : Settings)
    (he : env 0 = WriteResponse.conflict (ReadResponse.ok newETag (some serverData)))
    (hs : serverData.settings = some serverSettings) :
    ∃ m1 b1 m2 b2 rest,
      (saveData stringify env rewrote clock 0 st).2 =
        Request.post m1 b1 :: Request.get none :: Request.post m2 b2 :: rest ∧
      b1.settings = st.globalSettings ∧ b2.settings = serverSettings := by
  rw [saveData_of_conflict stringify env rewrote clock 0 st (by omega) newETag serverData he]
  obtain ⟨rest, hrest⟩ := saveData_head stringify env rewrote clock (0 + 1)
    (afterConflict stringify rewrote clock 0 newETag serverData st) (by omega)
  obtain ⟨_, _, hset, _⟩ := afterConflict_fields stringify rewrote clock 0 newETag serverData st
  refine ⟨etagHeader (saveStarted 0 st), payload (saveStarted 0 st),
    etagHeader (saveStarted (0 + 1)
      (afterConflict stringify rewrote clock 0 newETag serverData st)),
    payload (saveStarted (0 + 1)
      (afterConflict stringify rewrote clock 0 newETag serverData st)),
    rest, ?_, rfl, ?_⟩
  · simp only [hrest]
  · simp only [payload, saveStarted, hset, hs]

theorem settings_replaced_on_conflict_witness :
    ∃ m1 b1 m2 b2 rest,
      (saveData exStringify envConflictOnce exRewrote exClock 0
        { exEngine with globalSettings := { organizerPin := "9999" } }).2 =
        Request.post m1 b1 :: Request.get none :: Request.post m2 b2 :: rest ∧
      b1.settings = { organizerPin := "9999" } ∧ b2.settings = { organizerPin := "0000" } :=
  settings_replaced_on_conflict exStringify envConflictOnce exRewrote exClock
    { exEngine with globalSettings := { organizerPin := "9999" } } (some "v2")
    (ServerData.doc exDocServer.slots (some exDocServer.groceries)
      (some exDocServer.activity) (some ⟨"0000"⟩)) ⟨"0000"⟩ rfl rfl

/-! ## Four conflicts in a row -/

/-- When the writes of the attempts 0 to 3 are all answered with 409 and every
re-read succeeds, the call issues a write and a re-read per attempt, merges
after each re-read, and ends in the `retryCount > 3` branch, after which a
queued callback of the watcher runs. -/
theorem saveData_four_conflicts (stringify : ActivityEntry → String)
    (env : Nat → WriteResponse) (rewrote : Nat → Bool) (clock : Nat → Nat) (st : Engine)
    (tag : Nat → Option String) (body : Nat → ServerData)
    (h : ∀ k, k ≤ 3 →
      env k = WriteResponse.conflict (ReadResponse.ok (tag k) (some (body k)))) :
    saveData stringify env rewrote clock 0 st =
      (flushWatcher (clock 4)
          (tooManyConflicts (conflictChain stringify rewrote clock tag body 4 st)),
        [Request.post (etagHeader (conflictChain stringify rewrote clock tag body 0 st))
            (payload (conflictChain stringify rewrote clock tag body 0 st)),
          Request.get none,
          Request.post (etagHeader (conflictChain stringify rewrote clock tag body 1 st))
            (payload (conflictChain stringify rewrote clock tag body 1 st)),
          Request.get none,
          Request.post (etagHeader (conflictChain stringify rewrote clock tag body 2 st))
            (payload (conflictChain stringify rewrote clock tag body 2 st)),
          Request.get none,
          Request.post (etagHeader (conflictChain stringify rewrote clock tag body 3 st))
            (payload (conflictChain stringify rewrote clock tag body 3 st)),
          Request.get none]) := by
  rw [saveData_of_conflict stringify env rewrote clock 0 st (by omega) _ _ (h 0 (by omega)),
    saveData_of_conflict stringify env rewrote clock 1 _ (by omega) _ _ (h 1 (by omega)),
    saveData_of_conflict stringify env rewrote clock 2 _ (by omega) _ _ (h 2 (by omega)),
    saveData_of_conflict stringify env rewrote clock 3 _ (by omega) _ _ (h 3 (by omega)),
    saveData_of_gt stringify env rewrote clock 4 _ (by omega)]
  rfl

/-- The documents along a chain of conflicts are the successive merges. -/
theorem conflictChain_doc (stringify : ActivityEntry → String) (rewrote : Nat → Bool)
    (clock : Nat → Nat) (tag : Nat → Option String) (body : Nat → ServerData)
    (st : Engine) (n : Nat) :
    docOf (conflictChain stringify rewrote clock tag body n st) =
        mergeAll stringify ((List.range n).map body) (docOf st) ∧
      (conflictChain stringify rewrote clock tag body n st).isFirstLoad = st.isFirstLoad := by
  induction n with
  | zero => exact ⟨rfl, rfl⟩
  | succ n ih =>
    obtain ⟨hd, hf, _, _⟩ := afterConflict_fields stringify rewrote clock n (tag n) (body n)
      (conflictChain stringify rewrote clock tag body n st)
    refine ⟨?_, ?_⟩
    · show docOf (afterConflict stringify rewrote clock n (tag n) (body n)
        (conflictChain stringify rewrote clock tag body n st)) = _
      rw [hd, ih.1, List.range_succ, List.map_append]
      simp only [mergeAll, List.foldl_append, List.map_cons, List.map_nil, List.foldl_cons,
        List.foldl_nil]
    · show (afterConflict stringify rewrote clock n (tag n) (body n)
        (conflictChain stringify rewrote clock tag body n st)).isFirstLoad = _
      rw [hf, ih.2]

/-- The end of a call that has exceeded the retry bound: the `retryCount > 3`
branch sets the error status; the watcher's callback, when it is queued and the
component is bootstrapped, replaces it and arms the debounce timer. -/
theorem tooManyConflicts_then_watcher (now : Nat) (x : Engine) :
    ((x.isFirstLoad = true ∨ x.watcherPending = false) →
      (flushWatcher now (tooManyConflicts x)).syncStatus = SyncStatus.error ∧
      (flushWatcher now (tooManyConflicts x)).syncMessage =
        "Sync-Fehler: Zu viele Konflikte.") ∧
    (x.isFirstLoad = false → x.watcherPending = true →
      (flushWatcher now (tooManyConflicts x)).syncStatus = SyncStatus.syncing ∧
      (flushWatcher now (tooManyConflicts x)).syncMessage = "Warte auf Speichern..." ∧
      ∃ id, (flushWatcher now (tooManyConflicts x)).saveTimeout = some id ∧
        (id, now + 2000) ∈ (flushWatcher now (tooManyConflicts x)).timers) := by
  constructor
  · rintro (h | h)
    · exact flushWatcher_of_firstLoad now (tooManyConflicts x) h
    · rw [flushWatcher_of_not_pending now (tooManyConflicts x) h]
      exact ⟨rfl, rfl⟩
  · intro hb hp
    obtain ⟨h1, h2, h3, h4⟩ := flushWatcher_of_pending now (tooManyConflicts x) hb hp
    exact ⟨h1, h2, _, h3, h4⟩

/-- After four conflicts: the requests, the document, and the state of the
watcher when the `retryCount > 3` branch is reached. -/
theorem four_conflicts_summary (stringify : ActivityEntry → String)
    (env : Nat → WriteResponse) (rewrote : Nat → Bool) (clock : Nat → Nat) (st : Engine)
    (tag : Nat → Option String) (body : Nat → ServerData)
    (h : ∀ k, k ≤ 3 →
      env k = WriteResponse.conflict (ReadResponse.ok (tag k) (some (body k)))) :
    (∃ m0 m1 m2 m3 p0 p1 p2 p3,
      (saveData stringify env rewrote clock 0 st).2 =
        [Request.post m0 ((docOf st).payload p0),
          Request.get none,
          Request.post m1 ((mergeAll stringify [body 0] (docOf st)).payload p1),
          Request.get none,
          Request.post m2 ((mergeAll stringify [body 0, body 1] (docOf st)).payload p2),
          Request.get none,
          Request.post m3
            ((mergeAll stringify [body 0, body 1, body 2] (docOf st)).payload p3),
          Request.get none]) ∧
    docOf (saveData stringify env rewrote clock 0 st).1 =
      mergeAll stringify [body 0, body 1, body 2, body 3] (docOf st) ∧
    ∃ x, (saveData stringify env rewrote clock 0 st).1 =
        flushWatcher (clock 4) (tooManyConflicts x) ∧
      x.isFirstLoad = st.isFirstLoad ∧
      (x.watcherPending = true ↔
        (rewrote 3 = true ∨
          watchedPart (mergeAll stringify [body 0, body 1, body 2, body 3] (docOf st)) ≠
            watchedPart (mergeAll stringify [body 0, body 1, body 2] (docOf st)))) := by
  rw [saveData_four_conflicts stringify env rewrote clock st tag body h]
  have d0 := (conflictChain_doc stringify rewrote clock tag body st 0).1
  have d1 := (conflictChain_doc stringify rewrote clock tag body st 1).1
  have d2 := (conflictChain_doc stringify rewrote clock tag body st 2).1
  have d3 := (conflictChain_doc stringify rewrote clock tag body st 3).1
  have d4 := conflictChain_doc stringify rewrote clock tag body st 4
  have r1 : (List.range 1).map body = [body 0] := rfl
  have r2 : (List.range 2).map body = [body 0, body 1] := rfl
  have r3 : (List.range 3).map body = [body 0, body 1, body 2] := rfl
  have r4 : (List.range 4).map body = [body 0, body 1, body 2, body 3] := rfl
  rw [r1] at d1
  rw [r2] at d2
  rw [r3] at d3
  rw [r4] at d4
  have hpay : ∀ y : Engine, payload y = (docOf y).payload y.globalSettings := fun _ => rfl
  refine ⟨⟨etagHeader (conflictChain stringify rewrote clock tag body 0 st),
    etagHeader (conflictChain stringify rewrote clock tag body 1 st),
    etagHeader (conflictChain stringify rewrote clock tag body 2 st),
    etagHeader (conflictChain stringify rewrote clock tag body 3 st),
    (conflictChain stringify rewrote clock tag body 0 st).globalSettings,
    (conflictChain stringify rewrote clock tag body 1 st).globalSettings,
    (conflictChain stringify rewrote clock tag body 2 st).globalSettings,
    (conflictChain stringify rewrote clock tag body 3 st).globalSettings, ?_⟩, ?_, ?_⟩
  · simp only [hpay, d1, d2, d3]
    rfl
  · obtain ⟨f1, f2, f3, _⟩ := flushWatcher_fields (clock 4)
      (tooManyConflicts (conflictChain stringify rewrote clock tag body 4 st))
    rw [← d4.1]
    simp only [docOf, f1, f2, f3]
    rfl
  · refine ⟨conflictChain stringify rewrote clock tag body 4 st, rfl, d4.2, ?_⟩
    obtain ⟨_, _, _, hw⟩ := afterConflict_fields stringify rewrote clock 3 (tag 3) (body 3)
      (conflictChain stringify rewrote clock tag body 3 st)
    rw [d3] at hw
    have e4 : merge stringify (mergeAll stringify [body 0, body 1, body 2] (docOf st))
        (serverDoc (body 3)) =
        mergeAll stringify [body 0, body 1, body 2, body 3] (docOf st) := rfl
    rw [e4] at hw
    exact hw

/-- Before bootstrap the watcher's callback returns at its guard, so a conflict
leaves the timers and `saveTimeout` as they were. -/
theorem afterConflict_of_firstLoad (stringify : ActivityEntry → String)
    (rewrote : Nat → Bool) (clock : Nat → Nat) (k : Nat) (e : Option String)
    (d : ServerData) (st : Engine) (hf : st.isFirstLoad = true) :
    (afterConflict stringify rewrote clock k e d st).timers = st.timers ∧
      (afterConflict stringify rewrote clock k e d st).saveTimeout = st.saveTimeout := by
  have hfl : flushWatcher (clock k) (saveStarted k st) =
      { saveStarted k st with watcherPending := false } := by
    unfold flushWatcher
    by_cases hp : (saveStarted k st).watcherPending = true
    · rw [if_pos hp]
      exact debouncedSave_of_firstLoad _ _ hf
    · rw [if_neg hp]
      have hp' : st.watcherPending = false := by simpa [saveStarted] using hp
      simp only [saveStarted, hp']
  unfold afterConflict
  rw [hfl]
  unfold mergeServerData touch storeETag
  split <;> split <;> exact ⟨rfl, rfl⟩

theorem conflictChain_of_firstLoad (stringify : ActivityEntry → String)
    (rewrote : Nat → Bool) (clock : Nat → Nat) (tag : Nat → Option String)
    (body : Nat → ServerData) (st : Engine) (hf : st.isFirstLoad = true) (n : Nat) :
    (conflictChain stringify rewrote clock tag body n st).timers = st.timers ∧
      (conflictChain stringify rewrote clock tag body n st).saveTimeout = st.saveTimeout := by
  induction n with
  | zero => exact ⟨rfl, rfl⟩
  | succ n ih =>
    have hf' := (conflictChain_doc stringify rewrote clock tag body st n).2
    obtain ⟨h1, h2⟩ := afterConflict_of_firstLoad stringify rewrote clock n (tag n) (body n)
      (conflictChain stringify rewrote clock tag body n st) (hf'.trans hf)
    exact ⟨h1.trans ih.1, h2.trans ih.2⟩

theorem flushWatcher_timers_of_firstLoad (now : Nat) (st : Engine)
    (hf : st.isFirstLoad = true) :
    (flushWatcher now st).timers = st.timers ∧
      (flushWatcher now st).saveTimeout = st.saveTimeout := by
  unfold flushWatcher
  by_cases hp : st.watcherPending = true
  · rw [if_pos hp, debouncedSave_of_firstLoad now { st with watcherPending := false } hf]
    exact ⟨rfl, rfl⟩
  · rw [if_neg hp]
    exact ⟨rfl, rfl⟩

theorem le_foldl_max (l : List Nat) :
    ∀ (init x : Nat), (x ∈ l ∨ x ≤ init) → x ≤ l.foldl max init := by
  induction l with
  | nil =>
    intro init x h
    rcases h with h | h
    · exact absurd h (List.not_mem_nil _)
    · exact h
  | cons a l ih =>
    intro init x h
    rw [List.foldl_cons]
    apply ih
    rcases h with h | h
    · rcases List.mem_cons.1 h with h | h
      · right
        rw [h]
        exact Nat.le_max_right _ _
      · exact Or.inl h
    · right
      exact Nat.le_trans h (Nat.le_max_left _ _)

/-- A timer that fires adds requests after the ones issued before. -/
theorem fireTimer_requests (stringify : ActivityEntry → String) (env : Nat → WriteResponse)
    (rewrote : Nat → Bool) (lag : Nat → Nat) (t : Timeline) (timer : Nat × Nat) :
    ∃ app, (fireTimer stringify env rewrote lag t timer).requests = t.requests ++ app := by
  unfold fireTimer
  split
  · exact ⟨_, rfl⟩
  · exact ⟨[], (List.append_nil _).symm⟩

theorem foldl_fireTimer_requests (stringify : ActivityEntry → String)
    (env : Nat → WriteResponse) (rewrote : Nat → Bool) (lag : Nat → Nat)
    (l : List (Nat × Nat)) :
    ∀ t : Timeline, ∃ app,
      (l.foldl (fireTimer stringify env rewrote lag) t).requests = t.requests ++ app := by
  induction l with
  | nil => exact fun t => ⟨[], (List.append_nil _).symm⟩
  | cons a l ih =>
    intro t
    obtain ⟨app1, h1⟩ := fireTimer_requests stringify env rewrote lag t a
    obtain ⟨app2, h2⟩ := ih (fireTimer stringify env rewrote lag t a)
    exact ⟨app1 ++ app2, by rw [List.foldl_cons, h2, h1, List.append_assoc]⟩

/-- A state with an armed timer: when the clock has run until the armed timers
are due, `saveData()` has been called and has issued a write. -/
theorem settle_writes (stringify : ActivityEntry → String) (env : Nat → WriteResponse)
    (rewrote : Nat → Bool) (lag : Nat → Nat) (e : Engine) (id due : Nat)
    (h : (id, due) ∈ e.timers) :
    ∃ t m b rest,
      (settle stringify env rewrote lag ⟨e, []⟩).requests = (t, Request.post m b) :: rest := by
  unfold settle advanceTo
  have hmem : (id, due) ∈ e.timers.filter
      (fun x => decide (x.2 ≤ (e.timers.map Prod.snd).foldl max 0)) := by
    rw [List.mem_filter]
    refine ⟨h, decide_eq_true ?_⟩
    exact le_foldl_max _ 0 due (Or.inl (List.mem_map.2 ⟨(id, due), h, rfl⟩))
  show ∃ t m b rest, ((e.timers.filter
    (fun x => decide (x.2 ≤ (e.timers.map Prod.snd).foldl max 0))).foldl
      (fireTimer stringify env rewrote lag) ⟨e, []⟩).requests = (t, Request.post m b) :: rest
  cases hL : e.timers.filter
      (fun x => decide (x.2 ≤ (e.timers.map Prod.snd).foldl max 0)) with
  | nil =>
    rw [hL] at hmem
    exact absurd hmem (List.not_mem_nil _)
  | cons x L =>
    have hx : x ∈ e.timers := by
      have : x ∈ e.timers.filter
          (fun x => decide (x.2 ≤ (e.timers.map Prod.snd).foldl max 0)) := by
        rw [hL]
        exact List.mem_cons_self _ _
      exact (List.mem_filter.1 this).1
    obtain ⟨rest, hrest⟩ := saveData_head stringify env rewrote (fun k => x.2 + lag k) 0
      { e with timers := e.timers.filter (fun y => y != x) } (by omega)
    have hfire : (fireTimer stringify env rewrote lag ⟨e, []⟩ x).requests =
        (x.2, Request.post
          (etagHeader (saveStarted 0 { e with timers := e.timers.filter (fun y => y != x) }))
          (payload (saveStarted 0 { e with timers := e.timers.filter (fun y => y != x) }))) ::
          rest.map (fun q => (x.2, q)) := by
      unfold fireTimer
      have hx' : x ∈ (Timeline.mk e []).engine.timers := hx
      rw [if_pos hx']
      exact congrArg (List.map (fun q => (x.2, q))) hrest
    obtain ⟨app, happ⟩ := foldl_fireTimer_requests stringify env rewrote lag L
      (fireTimer stringify env rewrote lag ⟨e, []⟩ x)
    rw [List.foldl_cons, happ, hfire]
    exact ⟨_, _, _, _, rfl⟩

/-- C14 as stated fails after bootstrap. The four writes of one call are all
answered with 409, the first three re-reads return the empty document and the
fourth returns a document with new content: the call re-reads and merges four
times, and it does not end with `syncStatus = 'error'`, because the watcher sees
the fourth merge and calls `debouncedSave()`, which sets `'syncing'` and arms a
timer; when the timer is due, `saveData()` runs again and issues a further
write. -/
theorem four_conflicts_end_syncing :
    (∀ k, (envLateChange k).isMergedConflict = true) ∧
    (saveData exStringify envLateChange exRewrote exClock 0 exEngine).2.map Request.isPost =
      [true, false, true, false, true, false, true, false] ∧
    (saveData exStringify envLateChange exRewrote exClock 0 exEngine).1.syncStatus =
      SyncStatus.syncing ∧
    (saveData exStringify envLateChange exRewrote exClock 0 exEngine).1.timers =
      [(1, 6000)] ∧
    (settle exStringify envAccept exRewrote exClock
      ⟨(saveData exStringify envLateChange exRewrote exClock 0 exEngine).1, []⟩).requests.map
        (fun q => (q.1, q.2.isPost)) = [(6000, true)] := by
  have hr := saveData_four_conflicts exStringify envLateChange exRewrote exClock exEngine
    (fun _ => some "v9")
    (fun k => if k = 3 then exServerBody else ServerData.doc [] none none none)
    (fun _ _ => rfl)
  rw [hr]
  refine ⟨fun _ => rfl, rfl, by decide, by decide, ?_⟩
  unfold settle advanceTo
  have ht : (flushWatcher (exClock 4) (tooManyConflicts (conflictChain exStringify exRewrote
      exClock (fun _ => some "v9")
      (fun k => if k = 3 then exServerBody else ServerData.doc [] none none none)
      4 exEngine))).timers = [(1, 6000)] := by decide
  simp only [ht, List.map_cons, List.map_nil, List.foldl_cons, List.foldl_nil, Nat.zero_max,
    Nat.le_refl, decide_True, List.filter_cons_of_pos, List.filter_nil]
  unfold fireTimer
  simp only [ht, List.mem_singleton, if_true]
  rw [saveData]
  decide

/-- C14, amended. When the four writes of one `saveData()` call are all
answered with 409 and every re-read succeeds, the call issues exactly four
writes, each followed by a re-read without version header whose document is
merged: the writes carry the local document after 0, 1, 2 and 3 merges, and the
document at the end holds the fourth merge as well.  Before bootstrap, or when
the watcher does not see the fourth merge, the call ends with
`syncStatus = 'error'` and `'Sync-Fehler: Zu viele Konflikte.'`; before
bootstrap it also leaves the timers as they were.  After bootstrap, when the
watcher sees the fourth merge (as whenever the merge changes `mealSlots` or
`groceryList`), the call ends with `syncStatus = 'syncing'`,
`'Warte auf Speichern...'` and a timer armed that is due 2000 ms later; when the
armed timers are due, `saveData()` is called again and issues a further write,
whatever the server answers then. -/
theorem conflict_retry_bound (stringify : ActivityEntry → String)
    (env : Nat → WriteResponse) (rewrote : Nat → Bool) (clock : Nat → Nat) (st : Engine)
    (tag : Nat → Option String) (body : Nat → ServerData)
    (h : ∀ k, k ≤ 3 →
      env k = WriteResponse.conflict (ReadResponse.ok (tag k) (some (body k)))) :
    (∃ m0 m1 m2 m3 p0 p1 p2 p3,
      (saveData stringify env rewrote clock 0 st).2 =
        [Request.post m0 ((docOf st).payload p0),
          Request.get none,
          Request.post m1 ((mergeAll stringify [body 0] (docOf st)).payload p1),
          Request.get none,
          Request.post m2 ((mergeAll stringify [body 0, body 1] (docOf st)).payload p2),
          Request.get none,
          Request.post m3
            ((mergeAll stringify [body 0, body 1, body 2] (docOf st)).payload p3),
          Request.get none]) ∧
    docOf (saveData stringify env rewrote clock 0 st).1 =
      mergeAll stringify [body 0, body 1, body 2, body 3] (docOf st) ∧
    ((st.isFirstLoad = true ∨
        (rewrote 3 = false ∧
          watchedPart (mergeAll stringify [body 0, body 1, body 2, body 3] (docOf st)) =
            watchedPart (mergeAll stringify [body 0, body 1, body 2] (docOf st)))) →
      (saveData stringify env rewrote clock 0 st).1.syncStatus = SyncStatus.error ∧
      (saveData stringify env rewrote clock 0 st).1.syncMessage =
        "Sync-Fehler: Zu viele Konflikte.") ∧
    (st.isFirstLoad = true →
      (saveData stringify env rewrote clock 0 st).1.timers = st.timers ∧
      (saveData stringify env rewrote clock 0 st).1.saveTimeout = st.saveTimeout) ∧
    (st.isFirstLoad = false →
      (rewrote 3 = true ∨
        watchedPart (mergeAll stringify [body 0, body 1, body 2, body 3] (docOf st)) ≠
          watchedPart (mergeAll stringify [body 0, body 1, body 2] (docOf st))) →
      (saveData stringify env rewrote clock 0 st).1.syncStatus = SyncStatus.syncing ∧
      (saveData stringify env rewrote clock 0 st).1.syncMessage = "Warte auf Speichern..." ∧
      (∃ id, (saveData stringify env rewrote clock 0 st).1.saveTimeout = some id ∧
        (id, clock 4 + 2000) ∈ (saveData stringify env rewrote clock 0 st).1.timers) ∧
      ∀ (env2 : Nat → WriteResponse) (rewrote2 : Nat → Bool) (lag : Nat → Nat),
        ∃ t m b rest,
          (settle stringify env2 rewrote2 lag
            ⟨(saveData stringify env rewrote clock 0 st).1, []⟩).requests =
              (t, Request.post m b) :: rest) := by
  obtain ⟨htrace, hdoc, x, hx, hxf, hxw⟩ :=
    four_conflicts_summary stringify env rewrote clock st tag body h
  obtain ⟨herr, hsync⟩ := tooManyConflicts_then_watcher (clock 4) x
  refine ⟨htrace, hdoc, ?_, ?_, ?_⟩
  · intro hc
    rw [hx]
    apply herr
    rcases hc with hc | ⟨hc1, hc2⟩
    · exact Or.inl (hxf.trans hc)
    · right
      cases hp : x.watcherPending with
      | false => rfl
      | true =>
        rcases hxw.1 hp with h1 | h1
        · rw [hc1] at h1
          exact absurd h1 (by decide)
        · exact absurd hc2 h1
  · intro hf
    rw [saveData_four_conflicts stringify env rewrote clock st tag body h]
    obtain ⟨c1, c2⟩ := conflictChain_of_firstLoad stringify rewrote clock tag body st hf 4
    have hf4 := (conflictChain_doc stringify rewrote clock tag body st 4).2.trans hf
    obtain ⟨g1, g2⟩ := flushWatcher_timers_of_firstLoad (clock 4)
      (tooManyConflicts (conflictChain stringify rewrote clock tag body 4 st)) hf4
    exact ⟨g1.trans c1, g2.trans c2⟩
  · intro hb hc
    rw [hx]
    obtain ⟨h1, h2, id, h3, h4⟩ := hsync (hxf.trans hb) (hxw.2 hc)
    exact ⟨h1, h2, ⟨id, h3, h4⟩,
      fun env2 rewrote2 lag => settle_writes stringify env2 rewrote2 lag _ id _ h4⟩

theorem conflict_retry_bound_witness :
    (saveData exStringify envLateChange exRewrote exClock 0 exEngine).1.syncStatus =
        SyncStatus.syncing ∧
      (saveData exStringify envLateChange exRewrote exClock 0 exEngine).1.syncMessage =
        "Warte auf Speichern..." ∧
      ∃ id, (saveData exStringify envLateChange exRewrote exClock 0 exEngine).1.saveTimeout =
          some id ∧
        (id, exClock 4 + 2000) ∈
          (saveData exStringify envLateChange exRewrote exClock 0 exEngine).1.timers :=
  have w := (conflict_retry_bound exStringify envLateChange exRewrote exClock exEngine
    (fun _ => some "v9")
    (fun k => if k = 3 then exServerBody else ServerData.doc [] none none none)
    (fun _ _ => rfl)).2.2.2.2 rfl (Or.inr (by decide))
  ⟨w.1, w.2.1, w.2.2.1⟩

/-- C15 as stated fails in its last part. Every write meets a 409 because
another client keeps adding grocery items: the call stops after 4 writes, but
it does not end with `syncStatus = 'error'`; the watcher has seen the last merge
and its `debouncedSave()` has replaced status and message. -/
theorem bound_exceeded_ends_syncing :
    (∀ k, (envBusyServer k).isMergedConflict = true) ∧
    ((saveData exStringify envBusyServer exRewrote exClock 0 exEngine).2.filter
      Request.isPost).length = 4 ∧
    (saveData exStringify envBusyServer exRewrote exClock 0 exEngine).1.syncStatus =
      SyncStatus.syncing ∧
    (saveData exStringify envBusyServer exRewrote exClock 0 exEngine).1.syncMessage =
      "Warte auf Speichern..." := by
  have hr := saveData_four_conflicts exStringify envBusyServer exRewrote exClock exEngine
    (fun _ => some "v9")
    (fun k => ServerData.doc [] (some ((["Zimt", "Nelken", "Anis", "Vanille"].take (k + 1)).map
      GroceryItem.str)) none none)
    (fun _ _ => rfl)
  rw [hr]
  exact ⟨fun _ => rfl, rfl, by decide, by decide⟩

/-- C15, amended. Whatever the server answers, one `saveData()` call ends (the
function is total) after at least one and at most 4 writes, the first attempt
and 3 retries.  When all four writes are answered with 409 (each re-read
succeeding), so that the bound is exceeded, the call has issued 4 writes and
reaches `syncStatus = 'error'`, `syncMessage = 'Sync-Fehler: Zu viele
Konflikte.'`; this is the state at the end before bootstrap and when the
watcher does not see the last merge, while after bootstrap a last merge that
the watcher sees (as whenever it changes `mealSlots` or `groceryList`) ends the
call with `syncStatus = 'syncing'` and `syncMessage = 'Warte auf Speichern...'`. -/
theorem save_bounded (stringify : ActivityEntry → String) (env : Nat → WriteResponse)
    (rewrote : Nat → Bool) (clock : Nat → Nat) (st : Engine) :
    1 ≤ ((saveData stringify env rewrote clock 0 st).2.filter Request.isPost).length ∧
    ((saveData stringify env rewrote clock 0 st).2.filter Request.isPost).length ≤ 4 ∧
    (∀ (tag : Nat → Option String) (body : Nat → ServerData),
      (∀ k, k ≤ 3 →
        env k = WriteResponse.conflict (ReadResponse.ok (tag k) (some (body k)))) →
      ((saveData stringify env rewrote clock 0 st).2.filter Request.isPost).length = 4 ∧
      ((st.isFirstLoad = true ∨
          (rewrote 3 = false ∧
            watchedPart (mergeAll stringify [body 0, body 1, body 2, body 3] (docOf st)) =
              watchedPart (mergeAll stringify [body 0, body 1, body 2] (docOf st)))) →
        (saveData stringify env rewrote clock 0 st).1.syncStatus = SyncStatus.error ∧
        (saveData stringify env rewrote clock 0 st).1.syncMessage =
          "Sync-Fehler: Zu viele Konflikte.") ∧
      (st.isFirstLoad = false →
        (rewrote 3 = true ∨
          watchedPart (mergeAll stringify [body 0, body 1, body 2, body 3] (docOf st)) ≠
            watchedPart (mergeAll stringify [body 0, body 1, body 2] (docOf st))) →
        (saveData stringify env rewrote clock 0 st).1.syncStatus = SyncStatus.syncing ∧
        (saveData stringify env rewrote clock 0 st).1.syncMessage =
          "Warte auf Speichern...")) := by
  refine ⟨?_, saveData_posts_le stringify env rewrote clock 4 0 st rfl, ?_⟩
  · cases hc : (env 0).isMergedConflict with
    | false =>
      rw [(saveData_of_not_merged stringify env rewrote clock 0 st (by omega) hc).1]
    | true =>
      obtain ⟨e, d, he⟩ := (isMergedConflict_iff _).1 hc
      rw [saveData_of_conflict stringify env rewrote clock 0 st (by omega) e d he]
      simp [List.filter_cons, Request.isPost]
  · intro tag body h
    obtain ⟨_, _, x, hx, hxf, hxw⟩ :=
      four_conflicts_summary stringify env rewrote clock st tag body h
    obtain ⟨herr, hsync⟩ := tooManyConflicts_then_watcher (clock 4) x
    refine ⟨?_, ?_, ?_⟩
    · rw [saveData_four_conflicts stringify env rewrote clock st tag body h]
      rfl
    · intro hc
      rw [hx]
      apply herr
      rcases hc with hc | ⟨hc1, hc2⟩
      · exact Or.inl (hxf.trans hc)
      · right
        cases hp : x.watcherPending with
        | false => rfl
        | true =>
          rcases hxw.1 hp with h1 | h1
          · rw [hc1] at h1
            exact absurd h1 (by decide)
          · exact absurd hc2 h1
    · intro hb hc
      rw [hx]
      obtain ⟨h1, h2, _⟩ := hsync (hxf.trans hb) (hxw.2 hc)
      exact ⟨h1, h2⟩

theorem save_bounded_witness :
    ((saveData exStringify envBusyServer exRewrote exClock 0 Engine.start).2.filter
        Request.isPost).length = 4 ∧
      (saveData exStringify envBusyServer exRewrote exClock 0 Engine.start).1.syncStatus =
        SyncStatus.error ∧
      (saveData exStringify envBusyServer exRewrote exClock 0 Engine.start).1.syncMessage =
        "Sync-Fehler: Zu viele Konflikte." :=
  have w := (save_bounded exStringify envBusyServer exRewrote exClock Engine.start).2.2
    (fun _ => some "v9")
    (fun k => ServerData.doc [] (some ((["Zimt", "Nelken", "Anis", "Vanille"].take (k + 1)).map
      GroceryItem.str)) none none)
    (fun _ _ => rfl)
  ⟨w.1, w.2.1 (Or.inl rfl)⟩

/-! ## Debouncing -/

/-- No armed timer is due: the clock advances without a call. -/
theorem advanceTo_of_none_due (stringify : ActivityEntry → String)
    (env : Nat → WriteResponse) (rewrote : Nat → Bool) (lag : Nat → Nat) (now : Nat)
    (t : Timeline) (h : ∀ x ∈ t.engine.timers, now < x.2) :
    advanceTo stringify env rewrote lag now t = t := by
  unfold advanceTo
  have hf : t.engine.timers.filter (fun x => decide (x.2 ≤ now)) = [] := by
    rw [List.filter_eq_nil_iff]
    intro x hx
    have := h x hx
    simp only [decide_eq_true_eq]
    omega
  rw [hf]
  rfl

/-- One timer is armed: when the clock has run until it is due, the timer has
fired and called `saveData()` once. -/
theorem settle_single (stringify : ActivityEntry → String) (env : Nat → WriteResponse)
    (rewrote : Nat → Bool) (lag : Nat → Nat) (t : Timeline) (id due : Nat)
    (h : t.engine.timers = [(id, due)]) :
    settle stringify env rewrote lag t =
      { engine := (saveData stringify env rewrote (fun k => due + lag k) 0
          { t.engine with timers := [] }).1
        requests := t.requests ++
          (saveData stringify env rewrote (fun k => due + lag k) 0
            { t.engine with timers := [] }).2.map (fun q => (due, q)) } := by
  unfold settle advanceTo
  simp only [h, List.map_cons, List.map_nil, List.foldl_cons, List.foldl_nil, Nat.zero_max,
    Nat.le_refl, decide_True, List.filter_cons_of_pos, List.filter_nil]
  unfold fireTimer
  simp only [h, List.mem_singleton, if_true, bne_self_eq_false, Bool.false_eq_true,
    not_false_eq_true, List.filter_cons_of_neg, List.filter_nil]

/-- A call of `debouncedSave` after bootstrap while the timer of the call before
is still armed: that timer is cancelled and a new one is armed. -/
theorem debouncedSave_rearm (now : Nat) (st : Engine) (id due : Nat)
    (hboot : st.isFirstLoad = false) (hs : st.saveTimeout = some id) (hid : id ≠ 0)
    (ht : st.timers = [(id, due)]) :
    (debouncedSave now st).isFirstLoad = false ∧
      (debouncedSave now st).saveTimeout = some (st.lastTimerId + 1) ∧
      (debouncedSave now st).timers = [(st.lastTimerId + 1, now + 2000)] := by
  have hne : (id != 0) = true := by simpa using hid
  refine ⟨?_, ?_, ?_⟩ <;> simp [debouncedSave, hboot, hs, hne, clearTimeout, ht]

/-- The first call of `debouncedSave` after bootstrap with no timer armed. -/
theorem debouncedSave_first (now : Nat) (st : Engine) (hboot : st.isFirstLoad = false)
    (ht : st.timers = []) :
    (debouncedSave now st).isFirstLoad = false ∧
      (debouncedSave now st).saveTimeout = some (st.lastTimerId + 1) ∧
      (debouncedSave now st).timers = [(st.lastTimerId + 1, now + 2000)] := by
  unfold debouncedSave
  simp only [hboot, Bool.false_eq_true, if_false]
  cases st.saveTimeout with
  | none =>
    refine ⟨rfl, rfl, ?_⟩
    simp [ht]
  | some id =>
    simp only
    by_cases hid : (id != 0) = true
    · simp only [hid, if_true]
      refine ⟨rfl, rfl, ?_⟩
      simp [clearTimeout, ht]
    · simp only [hid, if_false]
      refine ⟨rfl, rfl, ?_⟩
      simp [ht]

/-- Mutations that each come before the armed timer is due: no call of
`saveData` is made, and one timer stays armed, due 2000 ms after the last
mutation. -/
theorem mutations_rearm (stringify : ActivityEntry → String) (env : Nat → WriteResponse)
    (rewrote : Nat → Bool) (lag : Nat → Nat) (ts : List Nat) :
    ∀ (t : Timeline) (prev id : Nat), t.engine.isFirstLoad = false →
      t.engine.saveTimeout = some id → id ≠ 0 → t.engine.timers = [(id, prev + 2000)] →
      List.Chain (fun a b => a ≤ b ∧ b < a + 2000) prev ts →
      (ts.foldl (mutateAt stringify env rewrote lag) t).requests = t.requests ∧
      (ts.foldl (mutateAt stringify env rewrote lag) t).engine =
        ts.foldl (fun e x => debouncedSave x e) t.engine ∧
      ∃ id', (ts.foldl (mutateAt stringify env rewrote lag) t).engine.timers =
        [(id', (prev :: ts).getLast (List.cons_ne_nil prev ts) + 2000)] := by
  induction ts with
  | nil =>
    intro t prev id _ _ _ ht _
    exact ⟨rfl, rfl, id, by simpa using ht⟩
  | cons now ts ih =>
    intro t prev id hboot hs hid ht hchain
    rw [List.chain_cons] at hchain
    have hadv : advanceTo stringify env rewrote lag now t = t := by
      apply advanceTo_of_none_due
      intro x hx
      rw [ht, List.mem_singleton] at hx
      rw [hx]
      exact hchain.1.2
    have hm : mutateAt stringify env rewrote lag t now =
        { t with engine := debouncedSave now t.engine } := by
      unfold mutateAt
      simp only [hadv]
    obtain ⟨h1, h2, h3⟩ := debouncedSave_rearm now t.engine id (prev + 2000) hboot hs hid ht
    obtain ⟨i1, i2, i3⟩ := ih { t with engine := debouncedSave now t.engine } now
      (t.engine.lastTimerId + 1) h1 h2 (Nat.succ_ne_zero _) h3 hchain.2
    rw [List.foldl_cons, List.foldl_cons, hm, List.getLast_cons_cons]
    exact ⟨i1, i2, i3⟩

/-- C20. Debounce coalescing: after bootstrap, with no timer armed, for every
sequence of one or more `debouncedSave` calls at times `t0, ts` in which each
call comes less than 2000 ms after the previous one: while the calls come, no
request is issued and no call of `saveData` is made; after the last call
exactly one timer is armed, due 2000 ms after it; and when that time has come,
`saveData()` has been called exactly once, at that time, on the state the
`debouncedSave` calls have left: the component is in the state that call
leaves, the requests issued are the requests of that call, and the first of
them is a write. -/
theorem debounce_coalesces (stringify : ActivityEntry → String)
    (env : Nat → WriteResponse) (rewrote : Nat → Bool) (lag : Nat → Nat) (st : Engine)
    (t0 : Nat) (ts : List Nat) (hboot : st.isFirstLoad = false) (hidle : st.timers = [])
    (hchain : List.Chain (fun a b => a ≤ b ∧ b < a + 2000) t0 ts) :
    ((t0 :: ts).foldl (mutateAt stringify env rewrote lag) ⟨st, []⟩).requests = [] ∧
    (∃ id, ((t0 :: ts).foldl (mutateAt stringify env rewrote lag) ⟨st, []⟩).engine.timers =
      [(id, (t0 :: ts).getLast (List.cons_ne_nil t0 ts) + 2000)]) ∧
    (settle stringify env rewrote lag
        ((t0 :: ts).foldl (mutateAt stringify env rewrote lag) ⟨st, []⟩)).engine =
      (saveData stringify env rewrote
        (fun k => (t0 :: ts).getLast (List.cons_ne_nil t0 ts) + 2000 + lag k) 0
        { (t0 :: ts).foldl (fun e x => debouncedSave x e) st with timers := [] }).1 ∧
    (settle stringify env rewrote lag
        ((t0 :: ts).foldl (mutateAt stringify env rewrote lag) ⟨st, []⟩)).requests =
      (saveData stringify env rewrote
        (fun k => (t0 :: ts).getLast (List.cons_ne_nil t0 ts) + 2000 + lag k) 0
        { (t0 :: ts).foldl (fun e x => debouncedSave x e) st with timers := [] }).2.map
          (fun q => ((t0 :: ts).getLast (List.cons_ne_nil t0 ts) + 2000, q)) ∧
    ∃ m b rest,
      (settle stringify env rewrote lag
          ((t0 :: ts).foldl (mutateAt stringify env rewrote lag) ⟨st, []⟩)).requests =
        ((t0 :: ts).getLast (List.cons_ne_nil t0 ts) + 2000, Request.post m b) :: rest := by
  have hadv : advanceTo stringify env rewrote lag t0 ⟨st, []⟩ = ⟨st, []⟩ := by
    apply advanceTo_of_none_due
    intro x hx
    rw [show (Timeline.mk st []).engine.timers = st.timers from rfl, hidle] at hx
    exact absurd hx (List.not_mem_nil _)
  have hm : mutateAt stringify env rewrote lag ⟨st, []⟩ t0 = ⟨debouncedSave t0 st, []⟩ := by
    unfold mutateAt
    simp only [hadv]
  obtain ⟨h1, h2, h3⟩ := debouncedSave_first t0 st hboot hidle
  obtain ⟨i1, i2, id, i3⟩ := mutations_rearm stringify env rewrote lag ts
    ⟨debouncedSave t0 st, []⟩ t0 (st.lastTimerId + 1) h1 h2 (Nat.succ_ne_zero _) h3 hchain
  rw [List.foldl_cons, List.foldl_cons, hm]
  have hs := settle_single stringify env rewrote lag _ id _ i3
  rw [hs, i1, i2]
  refine ⟨rfl, ⟨id, i2 ▸ i3⟩, rfl, by simp, ?_⟩
  obtain ⟨rest, hrest⟩ := saveData_head stringify env rewrote
    (fun k => (t0 :: ts).getLast (List.cons_ne_nil t0 ts) + 2000 + lag k) 0
    { ts.foldl (fun e x => debouncedSave x e) (debouncedSave t0 st) with timers := [] }
    (by omega)
  exact ⟨etagHeader (saveStarted 0
      { ts.foldl (fun e x => debouncedSave x e) (debouncedSave t0 st) with timers := [] }),
    payload (saveStarted 0
      { ts.foldl (fun e x => debouncedSave x e) (debouncedSave t0 st) with timers := [] }),
    rest.map (fun q => ((t0 :: ts).getLast (List.cons_ne_nil t0 ts) + 2000, q)),
    congrArg (List.map (fun q => ((t0 :: ts).getLast (List.cons_ne_nil t0 ts) + 2000, q)))
      hrest⟩

theorem debounce_coalesces_witness :
    (settle exStringify envAccept exRewrote exClock
      ([0, 300, 600, 900, 1200].foldl (mutateAt exStringify envAccept exRewrote exClock)
        ⟨exEngine, []⟩)).requests.map (fun q => (q.1, q.2.isPost)) = [(3200, true)] := by
  have h := (debounce_coalesces exStringify envAccept exRewrote exClock exEngine 0
    [300, 600, 900, 1200] rfl rfl (by simp)).2.2.2.1
  rw [h, saveData]
  decide

end FamilyFeast
